import Mathlib

/-!
# go-mod-core-contracts: the reading-value codec and the DTO validation rules

A shallow embedding of `dtos/reading.go` (`convertInterfaceValue` and its helpers) and of
`common/validator.go` (the custom validation rules), together with the parts of the Go
runtime and standard library they rest on (`reflect`, `fmt`, `strings`, `strconv`, `uuid`),
and the properties proved about them.

Conventions.
* A Go `string` is a Lean `String`; only valid UTF-8 text is covered.
* A Go `error` result is an `Option String`: `none` is `nil`, `some msg` carries `Error()`.
* A function that can abort with a run-time panic returns `Except String _`; the `error`
  side is the panic, the `ok` side is what the function returns.
-/

set_option autoImplicit false

/-! ## Go values behind `interface{}` -/

namespace reflect

/-- The enumeration `reflect.Kind`, in declaration order. -/
inductive Kind
  | Invalid | Bool | Int | Int8 | Int16 | Int32 | Int64
  | Uint | Uint8 | Uint16 | Uint32 | Uint64 | Uintptr
  | Float32 | Float64 | Complex64 | Complex128
  | Array | Chan | Func | Interface | Map | Ptr | Slice | String | Struct | UnsafePointer
  deriving DecidableEq, Repr

/-- The method `Kind.String()`: the lower-case name of the kind. (Written `Kind_String`,
as `Kind.String` is the kind of Go strings.) -/
def Kind_String : Kind → String
  | .Invalid => "invalid" | .Bool => "bool" | .Int => "int" | .Int8 => "int8"
  | .Int16 => "int16" | .Int32 => "int32" | .Int64 => "int64"
  | .Uint => "uint" | .Uint8 => "uint8" | .Uint16 => "uint16" | .Uint32 => "uint32"
  | .Uint64 => "uint64" | .Uintptr => "uintptr"
  | .Float32 => "float32" | .Float64 => "float64"
  | .Complex64 => "complex64" | .Complex128 => "complex128"
  | .Array => "array" | .Chan => "chan" | .Func => "func" | .Interface => "interface"
  | .Map => "map" | .Ptr => "ptr" | .Slice => "slice" | .String => "string"
  | .Struct => "struct" | .UnsafePointer => "unsafe.Pointer"

/-- The predeclared integer types of Go. -/
inductive IntType
  | int | int8 | int16 | int32 | int64
  | uint | uint8 | uint16 | uint32 | uint64 | uintptr
  deriving DecidableEq, Repr

/-- The two floating-point types of Go. -/
inductive FloatType
  | float32 | float64
  deriving DecidableEq, Repr

/-- The dynamic types covered: the predeclared boolean, string, integer and floating-point
types and, nested to any depth, slices of them. Named types, complex numbers, structs, maps,
pointers, channels and functions are outside the embedding. -/
inductive GoType
  | bool
  | string
  | integer (t : IntType)
  | float (t : FloatType)
  | slice (elem : GoType)
  deriving DecidableEq, Repr

/-- The kind of an integer type. -/
def IntType.Kind : IntType → Kind
  | .int => .Int | .int8 => .Int8 | .int16 => .Int16 | .int32 => .Int32 | .int64 => .Int64
  | .uint => .Uint | .uint8 => .Uint8 | .uint16 => .Uint16 | .uint32 => .Uint32
  | .uint64 => .Uint64 | .uintptr => .Uintptr

/-- The kind of a floating-point type. -/
def FloatType.Kind : FloatType → Kind
  | .float32 => .Float32
  | .float64 => .Float64

/-- The method `Type.Kind()`. -/
def GoType.Kind : GoType → Kind
  | .bool => .Bool
  | .string => .String
  | .integer t => t.Kind
  | .float t => t.Kind
  | .slice _ => .Slice

/-- The method `Type.Elem()`: the element type of a slice; it panics (`none`) on a type that
has no element type. -/
def GoType.Elem : GoType → Option GoType
  | .slice elem => some elem
  | _ => none

/-- A finite or non-finite floating-point number: a finite one is `(-1)^neg * m * 2^e`. -/
inductive GoFloat
  | nan
  | inf (neg : Bool)
  | finite (neg : Bool) (m : Nat) (e : Int)
  deriving DecidableEq, Repr

/-- A value held by an `interface{}`: `nil` is the nil interface; an integer carries its
mathematical value; a slice carries its element type and its elements (a nil slice is the
slice without elements). -/
inductive Value
  | nil
  | bool (b : Bool)
  | string (s : String)
  | integer (t : IntType) (v : Int)
  | float (t : FloatType) (x : GoFloat)
  | slice (elem : GoType) (xs : List Value)
  deriving Repr

/-- The function `reflect.TypeOf`: the dynamic type of the value, `none` (the nil `Type`) for
the nil interface. -/
def TypeOf : Value → Option GoType
  | .nil => none
  | .bool _ => some .bool
  | .string _ => some .string
  | .integer t _ => some (.integer t)
  | .float t _ => some (.float t)
  | .slice elem _ => some (.slice elem)

/-- The number of bits of a sized integer type (`int`, `uint` and `uintptr` taken as 64). -/
def IntType.bits : IntType → Nat
  | .int8 | .uint8 => 8
  | .int16 | .uint16 => 16
  | .int32 | .uint32 => 32
  | _ => 64

/-- Whether the integer type is signed. -/
def IntType.signed : IntType → Bool
  | .int | .int8 | .int16 | .int32 | .int64 => true
  | _ => false

/-- The values an integer type can hold. -/
def IntType.inRange (t : IntType) (v : Int) : Prop :=
  if t.signed then -(2 ^ (t.bits - 1) : Int) ≤ v ∧ v < 2 ^ (t.bits - 1)
  else 0 ≤ v ∧ v < 2 ^ t.bits

instance (t : IntType) (v : Int) : Decidable (t.inRange v) := by
  unfold IntType.inRange; exact inferInstance

end reflect

/-! ## `strconv`: numbers to text and back -/

namespace strconv

/-- The character of a decimal digit. -/
def digitChar (d : Nat) : Char := Char.ofNat (48 + d)

/-- The decimal digits of `n`, most significant first, in front of `acc`. -/
def digitsAux : Nat → Nat → List Char → List Char
  | 0, _, acc => acc
  | fuel + 1, n, acc =>
    if n < 10 then digitChar n :: acc
    else digitsAux fuel (n / 10) (digitChar (n % 10) :: acc)

/-- The decimal digits of `n`, most significant first, without leading zeros (`0` is "0"). -/
def decimalDigits (n : Nat) : List Char := digitsAux (n + 1) n []

/-- `strconv.FormatUint(n, 10)`. -/
def FormatUint (n : Nat) : String := String.mk (decimalDigits n)

/-- `strconv.FormatInt(v, 10)`: a minus sign in front of the digits of a negative number. -/
def FormatInt (v : Int) : String :=
  if v < 0 then String.mk ('-' :: decimalDigits v.natAbs) else String.mk (decimalDigits v.natAbs)

/-- The value of a decimal digit character, `none` for any other character. -/
def digitValue (c : Char) : Option Nat :=
  if 48 ≤ c.toNat ∧ c.toNat ≤ 57 then some (c.toNat - 48) else none

/-- The number a string of decimal digits denotes, read onto `acc`; `none` when a character
is not a digit. -/
def parseDigits : List Char → Nat → Option Nat
  | [], acc => some acc
  | c :: cs, acc =>
    match digitValue c with
    | none => none
    | some d => parseDigits cs (acc * 10 + d)

/-- `strconv.ParseUint(s, 10, bitSize)`: the digits must be there, all decimal, and the
number must fit in `bitSize` bits; `none` is the error result. -/
def ParseUint (s : String) (bitSize : Nat) : Option Nat :=
  match s.data with
  | [] => none
  | cs =>
    match parseDigits cs 0 with
    | none => none
    | some n => if n < 2 ^ bitSize then some n else none

/-- `strconv.ParseInt(s, 10, bitSize)`: an optional sign, then digits read as by `ParseUint`,
then the range check of the signed type; `none` is the error result. -/
def ParseInt (s : String) (bitSize : Nat) : Option Int :=
  match s.data with
  | [] => none
  | c :: cs =>
    let neg := c == '-'
    let body := if c == '+' ∨ c == '-' then cs else c :: cs
    match ParseUint (String.mk body) bitSize with
    | none => none
    | some un =>
      let cutoff := 2 ^ (bitSize - 1)
      if ¬ neg ∧ cutoff ≤ un then none
      else if neg ∧ cutoff < un then none
      else some (if neg then -(un : Int) else (un : Int))

/-- The number of mantissa bits of a floating-point type, the hidden bit included. -/
def mantBits : reflect.FloatType → Nat
  | .float32 => 24
  | .float64 => 53

/-- The exponent of the least significant bit of the smallest subnormal number. -/
def minExp : reflect.FloatType → Int
  | .float32 => -149
  | .float64 => -1074

/-- Scale the mantissa up to `p` bits while the exponent stays above the minimum. -/
def normalize (p : Nat) (emin : Int) : Nat → Nat → Int → Nat × Int
  | 0, m, e => (m, e)
  | fuel + 1, m, e =>
    if m < 2 ^ (p - 1) ∧ emin < e then normalize p emin fuel (2 * m) (e - 1) else (m, e)

/-- Whether `10^k ≤ n / d`. -/
def pow10le (k : Int) (n d : Nat) : Bool :=
  if 0 ≤ k then decide (10 ^ k.toNat * d ≤ n) else decide (d ≤ n * 10 ^ (-k).toNat)

/-- Raise `k` while `10^(k+1) ≤ n / d`. -/
def searchUp (n d : Nat) : Nat → Int → Int
  | 0, k => k
  | fuel + 1, k => if pow10le (k + 1) n d then searchUp n d fuel (k + 1) else k

/-- Lower `k` until `10^k ≤ n / d`. -/
def searchDown (n d : Nat) : Nat → Int → Int
  | 0, k => k
  | fuel + 1, k => if pow10le k n d then k else searchDown n d fuel (k - 1)

/-- The decimal exponent of `n / d > 0`: the `k` with `10^k ≤ n / d < 10^(k+1)`. -/
def decimalExponent (n d : Nat) : Int :=
  if pow10le 0 n d then searchUp n d 400 0 else searchDown n d 400 (-1)

/-- The shortest digit string, tried with `len` digits, then `len + 1`, and so on: the
decimals of `len` digits next to `v / d` are `c` and `c + 1` (times a power of ten); one that
lies within `[lo / d, hi / d]` (the bounds belong to the interval when `incl`) is taken, the
nearer one when both do, the even one when both are as near. The result is the candidate and
the number of digits asked for. -/
def shortestLoop (lo v hi d : Nat) (incl : Bool) (k : Int) : Nat → Nat → Nat × Nat
  | 0, len => (0, len)
  | fuel + 1, len =>
    let s : Int := (len : Int) - 1 - k
    let pm := 10 ^ s.toNat
    let dm := d * 10 ^ (-s).toNat
    let c := v * pm / dm
    let inside := fun (x : Nat) =>
      if incl then decide (lo * pm ≤ x * dm ∧ x * dm ≤ hi * pm)
      else decide (lo * pm < x * dm ∧ x * dm < hi * pm)
    let down := inside c
    let up := inside (c + 1)
    if down ∧ up then
      (if v * pm - c * dm < (c + 1) * dm - v * pm then (c, len)
        else if (c + 1) * dm - v * pm < v * pm - c * dm then (c + 1, len)
        else if c % 2 = 0 then (c, len) else (c + 1, len))
    else if down then (c, len)
    else if up then (c + 1, len)
    else if fuel = 0 then (c, len) else shortestLoop lo v hi d incl k fuel (len + 1)

/-- Drop the zeros at the end of a digit string. -/
def stripZeros (ds : List Char) : List Char :=
  (ds.reverse.dropWhile (fun c => c == '0')).reverse

/-- The shortest decimal that reads back as the float `m * 2^e` (`m > 0`) of type `t`: its
digits and the position `dp` of the decimal point (the value is `0.d1d2… * 10^dp`). The
interval of the decimals that read back as the float ends halfway to its two neighbours. -/
def shortestDecimal (t : reflect.FloatType) (m : Nat) (e : Int) : List Char × Int :=
  let p := mantBits t
  let (m, e) := normalize p (minExp t) p m e
  let narrow := decide (m = 2 ^ (p - 1) ∧ minExp t < e)
  let v := if narrow then 4 * m else 2 * m
  let lo := v - 1
  let hi := if narrow then v + 2 else v + 1
  let e2 : Int := if narrow then e - 2 else e - 1
  let num := 2 ^ e2.toNat
  let d := 2 ^ (-e2).toNat
  let k := decimalExponent (v * num) d
  let (c, len) := shortestLoop (lo * num) (v * num) (hi * num) d (m % 2 == 0) k 17 1
  let ds := decimalDigits c
  (stripZeros ds, k + 1 + ((ds.length : Int) - len))

/-- The `%e` layout of the digits `ds` with the decimal point at `dp` and `prec` digits after
the point: `d.ddde±dd`. -/
def fmtE (neg : Bool) (ds : List Char) (dp : Int) (prec : Nat) : List Char :=
  let first := ds.headD '0'
  let more := if 0 < prec then
      '.' :: ((ds.drop 1).take prec ++ List.replicate (prec - (ds.length - 1)) '0')
    else []
  let exp : Int := if ds.length = 0 then 0 else dp - 1
  let sign := if exp < 0 then '-' else '+'
  let a := exp.natAbs
  let expDigits :=
    if a < 10 then ['0', digitChar a]
    else if a < 100 then [digitChar (a / 10), digitChar (a % 10)]
    else [digitChar (a / 100), digitChar (a / 10 % 10), digitChar (a % 10)]
  (if neg then ['-'] else []) ++ first :: more ++ 'e' :: sign :: expDigits

/-- The `%f` layout of the digits `ds` with the decimal point at `dp` and `prec` digits after
the point. -/
def fmtF (neg : Bool) (ds : List Char) (dp : Int) (prec : Nat) : List Char :=
  let whole := if 0 < dp then
      ds.take dp.toNat ++ List.replicate (dp.toNat - ds.length) '0'
    else ['0']
  let frac := if 0 < prec then
      '.' :: (List.range prec).map (fun i =>
        let j := dp + i
        if 0 ≤ j ∧ j < ds.length then ds.getD j.toNat '0' else '0')
    else []
  (if neg then ['-'] else []) ++ whole ++ frac

/-- `strconv.FormatFloat(x, 'g', -1, bitSize)`: the shortest decimal that reads back as `x`,
in `%e` layout when the decimal exponent is below `-4` or at least `6`, in `%f` layout
otherwise. -/
def FormatFloat (x : reflect.GoFloat) (t : reflect.FloatType) : List Char :=
  match x with
  | .nan => ['N', 'a', 'N']
  | .inf neg => (if neg then '-' else '+') :: ['I', 'n', 'f']
  | .finite neg m e =>
    let (ds, dp) := if m = 0 then (([] : List Char), (0 : Int)) else shortestDecimal t m e
    let exp := dp - 1
    if exp < -4 ∨ 6 ≤ exp then fmtE neg ds dp (ds.length - 1)
    else fmtF neg ds dp ((ds.length : Int) - dp).toNat

end strconv

/-! ## `fmt`: the verbs `%v` and `%g` -/

namespace fmt

open reflect

/-- The method `Type.String()` of the types covered. -/
def typeString : GoType → String
  | .bool => "bool"
  | .string => "string"
  | .integer t => Kind_String t.Kind
  | .float t => Kind_String t.Kind
  | .slice elem => "[]" ++ typeString elem

/-- The text of a floating-point number under `%g` (and `%v`): `strconv.FormatFloat` with the
shortest precision; the sign of a positive number is not shown, except on `+Inf`. -/
def fmtFloat (x : GoFloat) (t : FloatType) : String :=
  String.mk (strconv.FormatFloat x t)

mutual
/-- The text of a value under `%v`: `true`/`false`, the string itself, the decimal digits of
an integer, the `%g` form of a float, and for a slice the texts of the elements between
brackets, one space between two elements. -/
def printV : Value → String
  | .nil => "<nil>"
  | .bool b => if b then "true" else "false"
  | .string s => s
  | .integer _ v => strconv.FormatInt v
  | .float t x => fmtFloat x t
  | .slice _ xs => "[" ++ printVs xs ++ "]"
/-- The elements of a slice under `%v`, one space between two of them. -/
def printVs : List Value → String
  | [] => ""
  | [x] => printV x
  | x :: y :: rest => printV x ++ " " ++ printVs (y :: rest)
end

/-- The report of a verb that does not apply: `%!g(type=value)` with the type and the `%v`
text of the argument of the call, `%!g(<nil>)` for the nil interface. -/
def badVerb (arg : Value) : String :=
  match TypeOf arg with
  | none => "%!g(<nil>)"
  | some t => "%!g(" ++ typeString t ++ "=" ++ printV arg ++ ")"

mutual
/-- The text of a value under `%g`, `arg` being the argument of the call: the shortest
decimal form of a float, the elements of a slice between brackets, and the bad-verb report
for anything else. -/
def printG (arg : Value) : Value → String
  | .float t x => fmtFloat x t
  | .slice _ xs => "[" ++ printGs arg xs ++ "]"
  | _ => badVerb arg
/-- The elements of a slice under `%g`, one space between two of them. -/
def printGs (arg : Value) : List Value → String
  | [] => ""
  | [x] => printG arg x
  | x :: y :: rest => printG arg x ++ " " ++ printGs arg (y :: rest)
end

/-- The two verbs the codec uses. -/
inductive Verb
  | v
  | g
  deriving DecidableEq, Repr

/-- `fmt.Sprintf("%v", value)` and `fmt.Sprintf("%g", value)`. -/
def Sprintf (verb : Verb) (value : Value) : String :=
  match verb with
  | .v => printV value
  | .g => printG value value

end fmt

/-! ## `strings` -/

namespace strings

/-- Copy `s`, writing `new` for every occurrence of the non-empty `old`, left to right and
without overlap; `skip` counts the characters of an occurrence still to be passed over. -/
def replaceFrom (old new : List Char) : Nat → List Char → List Char
  | _, [] => []
  | skip + 1, _ :: cs => replaceFrom old new skip cs
  | 0, c :: cs =>
    if old.isPrefixOf (c :: cs) then new ++ replaceFrom old new (old.length - 1) cs
    else c :: replaceFrom old new 0 cs

/-- `strings.ReplaceAll(s, old, new)`. An empty `old` matches at the beginning of the string
and after each character. -/
def ReplaceAll (s old new : String) : String :=
  if old.data = [] then
    String.mk (new.data ++ (s.data.map (fun c => c :: new.data)).flatten)
  else String.mk (replaceFrom old.data new.data 0 s.data)

/-- `strings.Join(elems, sep)`. -/
def Join : List String → String → String
  | [], _ => ""
  | [a], _ => a
  | a :: b :: rest, sep => a ++ sep ++ Join (b :: rest) sep

/-- `unicode.IsSpace`: the white space of Unicode. -/
def isSpace (c : Char) : Bool :=
  let n := c.toNat
  (9 ≤ n && n ≤ 13) || n == 0x20 || n == 0x85 || n == 0xA0 || n == 0x1680 ||
  (0x2000 ≤ n && n ≤ 0x200A) || n == 0x2028 || n == 0x2029 || n == 0x202F ||
  n == 0x205F || n == 0x3000

/-- `strings.TrimSpace(s)`: `s` without its leading and trailing white space. -/
def TrimSpace (s : String) : String :=
  String.mk (((s.data.dropWhile isSpace).reverse.dropWhile isSpace).reverse)

/-- The built-in `len` of a string: its number of bytes in UTF-8. -/
def len (s : String) : Nat := s.utf8ByteSize

end strings

/-! ## `common`: the value-type names -/

namespace common

/-- Modelled from the spec: the value-type name constants of `common`, whose declaration is
not among the sources; the spec names the kinds `Bool`, `String`, `Int8` … `Int64`,
`Uint8` … `Uint64`, `Float32`, `Float64`, an array variant of each, `Binary` and `Object`. -/
def ValueTypeBool : String := "Bool"
/-- Modelled from the spec: the name of the kind `String`. -/
def ValueTypeString : String := "String"
/-- Modelled from the spec: the name of the kind `Uint8`. -/
def ValueTypeUint8 : String := "Uint8"
/-- Modelled from the spec: the name of the kind `Uint16`. -/
def ValueTypeUint16 : String := "Uint16"
/-- Modelled from the spec: the name of the kind `Uint32`. -/
def ValueTypeUint32 : String := "Uint32"
/-- Modelled from the spec: the name of the kind `Uint64`. -/
def ValueTypeUint64 : String := "Uint64"
/-- Modelled from the spec: the name of the kind `Int8`. -/
def ValueTypeInt8 : String := "Int8"
/-- Modelled from the spec: the name of the kind `Int16`. -/
def ValueTypeInt16 : String := "Int16"
/-- Modelled from the spec: the name of the kind `Int32`. -/
def ValueTypeInt32 : String := "Int32"
/-- Modelled from the spec: the name of the kind `Int64`. -/
def ValueTypeInt64 : String := "Int64"
/-- Modelled from the spec: the name of the kind `Float32`. -/
def ValueTypeFloat32 : String := "Float32"
/-- Modelled from the spec: the name of the kind `Float64`. -/
def ValueTypeFloat64 : String := "Float64"
/-- Modelled from the spec: the name of the kind `BoolArray`. -/
def ValueTypeBoolArray : String := "BoolArray"
/-- Modelled from the spec: the name of the kind `StringArray`. -/
def ValueTypeStringArray : String := "StringArray"
/-- Modelled from the spec: the name of the kind `Uint8Array`. -/
def ValueTypeUint8Array : String := "Uint8Array"
/-- Modelled from the spec: the name of the kind `Uint16Array`. -/
def ValueTypeUint16Array : String := "Uint16Array"
/-- Modelled from the spec: the name of the kind `Uint32Array`. -/
def ValueTypeUint32Array : String := "Uint32Array"
/-- Modelled from the spec: the name of the kind `Uint64Array`. -/
def ValueTypeUint64Array : String := "Uint64Array"
/-- Modelled from the spec: the name of the kind `Int8Array`. -/
def ValueTypeInt8Array : String := "Int8Array"
/-- Modelled from the spec: the name of the kind `Int16Array`. -/
def ValueTypeInt16Array : String := "Int16Array"
/-- Modelled from the spec: the name of the kind `Int32Array`. -/
def ValueTypeInt32Array : String := "Int32Array"
/-- Modelled from the spec: the name of the kind `Int64Array`. -/
def ValueTypeInt64Array : String := "Int64Array"
/-- Modelled from the spec: the name of the kind `Float32Array`. -/
def ValueTypeFloat32Array : String := "Float32Array"
/-- Modelled from the spec: the name of the kind `Float64Array`. -/
def ValueTypeFloat64Array : String := "Float64Array"
/-- Modelled from the spec: the name of the kind `Binary`. -/
def ValueTypeBinary : String := "Binary"
/-- Modelled from the spec: the name of the kind `Object`. -/
def ValueTypeObject : String := "Object"

end common

/-! ## `dtos/reading.go`: the codec -/

namespace dtos

open reflect

/-- The result `(string, error)` of the codec functions, under a possible panic. -/
abbrev Result := Except String (String × Option String)

/-- The panic of a method call on the nil `reflect.Type`. -/
def nilTypePanic : String := "runtime error: invalid memory address or nil pointer dereference"

/-- The function `validateType` of `dtos/reading.go`: a slice passes when the kind of its
element type is `kind`, any other value when its own kind is `kind`; `reflect.TypeOf(value)`
is the nil `Type` for the nil interface, and the call of `Kind()` on it panics. -/
def validateType (valueType : String) (kind : Kind) (value : Value) : Except String (Option String) :=
  match TypeOf value with
  | none => .error nilTypePanic
  | some t =>
    if t.Kind = Kind.Slice then
      match t.Elem with
      | none => .error "reflect: Elem of invalid type"
      | some elem =>
        if kind ≠ elem.Kind then
          .ok (some ("`" ++ Kind_String kind ++ "`切片 不匹配数据类型 '" ++ valueType))
        else .ok none
    else if kind ≠ t.Kind then
      .ok (some ("`" ++ Kind_String kind ++ "` 不匹配数据类型 '" ++ valueType))
    else .ok none

/-- The function `convertSimpleValue` of `dtos/reading.go`. -/
def convertSimpleValue (valueType : String) (kind : Kind) (value : Value) : Result :=
  match validateType valueType kind value with
  | .error p => .error p
  | .ok (some err) => .ok ("", some err)
  | .ok none => .ok (fmt.Sprintf .v value, none)

/-- The function `convertFloatValue` of `dtos/reading.go`. -/
def convertFloatValue (valueType : String) (kind : Kind) (value : Value) : Result :=
  match validateType valueType kind value with
  | .error p => .error p
  | .ok (some err) => .ok ("", some err)
  | .ok none => .ok (fmt.Sprintf .g value, none)

/-- The function `convertSimpleArrayValue` of `dtos/reading.go`. -/
def convertSimpleArrayValue (valueType : String) (kind : Kind) (value : Value) : Result :=
  match validateType valueType kind value with
  | .error p => .error p
  | .ok (some err) => .ok ("", some err)
  | .ok none =>
    let result := fmt.Sprintf .v value
    let result := strings.ReplaceAll result " " ", "
    .ok (result, none)

/-- The loop of `convertFloat32ArrayValue` and `convertFloat64ArrayValue`: `result` is the
text so far and `first` tells whether no element has been written yet. -/
def convertFloatArrayLoop (valueType : String) (kind : Kind) :
    List Value → String → Bool → Result
  | [], result, _ => .ok (result ++ "]", none)
  | value :: rest, result, first =>
    if first then
      match convertFloatValue valueType kind value with
      | .error p => .error p
      | .ok (_, some err) => .ok ("", some err)
      | .ok (floatValue, none) =>
        convertFloatArrayLoop valueType kind rest (result ++ floatValue) false
    else
      match convertFloatValue valueType kind value with
      | .error p => .error p
      | .ok (_, some err) => .ok ("", some err)
      | .ok (floatValue, none) =>
        convertFloatArrayLoop valueType kind rest (result ++ (", " ++ floatValue)) first

/-- The function `convertFloat32ArrayValue` of `dtos/reading.go`; `values` are the elements
of the `[]float32`, each handed to `convertFloatValue` as an `interface{}`. -/
def convertFloat32ArrayValue (values : List Value) : Result :=
  convertFloatArrayLoop common.ValueTypeFloat32 Kind.Float32 values "[" true

/-- The function `convertFloat64ArrayValue` of `dtos/reading.go`. -/
def convertFloat64ArrayValue (values : List Value) : Result :=
  convertFloatArrayLoop common.ValueTypeFloat64 Kind.Float64 values "[" true

/-- The type assertion `value.([]T)` for the float type `T`: the elements when the dynamic
type of `value` is exactly `[]T`. -/
def assertFloatSlice (t : FloatType) (value : Value) : Option (List Value) :=
  match value with
  | .slice (.float t') xs => if t' = t then some xs else none
  | _ => none

/-- The function `convertInterfaceValue` of `dtos/reading.go`: the `switch` on the value-type
name, its cases in source order. -/
def convertInterfaceValue (valueType : String) (value : Value) : Result :=
  if valueType = common.ValueTypeBool then convertSimpleValue valueType Kind.Bool value
  else if valueType = common.ValueTypeString then convertSimpleValue valueType Kind.String value
  else if valueType = common.ValueTypeUint8 then convertSimpleValue valueType Kind.Uint8 value
  else if valueType = common.ValueTypeUint16 then convertSimpleValue valueType Kind.Uint16 value
  else if valueType = common.ValueTypeUint32 then convertSimpleValue valueType Kind.Uint32 value
  else if valueType = common.ValueTypeUint64 then convertSimpleValue valueType Kind.Uint64 value
  else if valueType = common.ValueTypeInt8 then convertSimpleValue valueType Kind.Int8 value
  else if valueType = common.ValueTypeInt16 then convertSimpleValue valueType Kind.Int16 value
  else if valueType = common.ValueTypeInt32 then convertSimpleValue valueType Kind.Int32 value
  else if valueType = common.ValueTypeInt64 then convertSimpleValue valueType Kind.Int64 value
  else if valueType = common.ValueTypeFloat32 then convertFloatValue valueType Kind.Float32 value
  else if valueType = common.ValueTypeFloat64 then convertFloatValue valueType Kind.Float64 value
  else if valueType = common.ValueTypeBoolArray then
    convertSimpleArrayValue valueType Kind.Bool value
  else if valueType = common.ValueTypeStringArray then
    convertSimpleArrayValue valueType Kind.String value
  else if valueType = common.ValueTypeUint8Array then
    convertSimpleArrayValue valueType Kind.Uint8 value
  else if valueType = common.ValueTypeUint16Array then
    convertSimpleArrayValue valueType Kind.Uint16 value
  else if valueType = common.ValueTypeUint32Array then
    convertSimpleArrayValue valueType Kind.Uint32 value
  else if valueType = common.ValueTypeUint64Array then
    convertSimpleArrayValue valueType Kind.Uint64 value
  else if valueType = common.ValueTypeInt8Array then
    convertSimpleArrayValue valueType Kind.Int8 value
  else if valueType = common.ValueTypeInt16Array then
    convertSimpleArrayValue valueType Kind.Int16 value
  else if valueType = common.ValueTypeInt32Array then
    convertSimpleArrayValue valueType Kind.Int32 value
  else if valueType = common.ValueTypeInt64Array then
    convertSimpleArrayValue valueType Kind.Int64 value
  else if valueType = common.ValueTypeFloat32Array then
    match assertFloatSlice .float32 value with
    | none => .ok ("", some ("转换数据 " ++ valueType ++ " 为 []float32 失败"))
    | some arrayValue => convertFloat32ArrayValue arrayValue
  else if valueType = common.ValueTypeFloat64Array then
    match assertFloatSlice .float64 value with
    | none => .ok ("", some ("转换数据 " ++ valueType ++ " 为 []float64 失败"))
    | some arrayValue => convertFloat64ArrayValue arrayValue
  else .ok ("", some ("数据类型 " ++ valueType ++ " 不合法"))

end dtos

/-! ## `uuid.Parse` -/

namespace uuid

/-- The UTF-8 encoding of a character. -/
def encodeChar (c : Char) : List Nat :=
  let v := c.toNat
  if v < 0x80 then [v]
  else if v < 0x800 then [0xC0 + v / 64, 0x80 + v % 64]
  else if v < 0x10000 then [0xE0 + v / 4096, 0x80 + v / 64 % 64, 0x80 + v % 64]
  else [0xF0 + v / 262144, 0x80 + v / 4096 % 64, 0x80 + v / 64 % 64, 0x80 + v % 64]

/-- The bytes of a string. -/
def bytes (s : String) : List Nat := s.data.flatMap encodeChar

/-- The table `xvalues`: the value of a hexadecimal digit, `none` for any other byte. -/
def xvalue (b : Nat) : Option Nat :=
  if 48 ≤ b ∧ b ≤ 57 then some (b - 48)
  else if 65 ≤ b ∧ b ≤ 70 then some (b - 55)
  else if 97 ≤ b ∧ b ≤ 102 then some (b - 87)
  else none

/-- The function `xtob`: the byte two hexadecimal digits denote. -/
def xtob (x1 x2 : Nat) : Option Nat :=
  match xvalue x1, xvalue x2 with
  | some b1, some b2 => some (b1 * 16 + b2)
  | _, _ => none

/-- The bytes denoted by the digit pairs found at the given offsets of `s`. -/
def hexPairs (s : List Nat) : List Nat → Option (List Nat)
  | [] => some []
  | x :: xs =>
    match xtob (s.getD x 256) (s.getD (x + 1) 256), hexPairs s xs with
    | some v, some vs => some (v :: vs)
    | _, _ => none

/-- The ASCII lower-case form of a byte. -/
def lowerByte (b : Nat) : Nat := if 65 ≤ b ∧ b ≤ 90 then b + 32 else b

/-- The hyphenated form `xxxxxxxx-xxxx-xxxx-xxxx-xxxxxxxxxxxx` at the start of `s`, which
has at least 36 bytes. -/
def parseHyphenated (s : List Nat) : Option (List Nat) :=
  if s.getD 8 256 ≠ 45 ∨ s.getD 13 256 ≠ 45 ∨ s.getD 18 256 ≠ 45 ∨ s.getD 23 256 ≠ 45 then none
  else hexPairs s [0, 2, 4, 6, 9, 11, 14, 16, 19, 21, 24, 26, 28, 30, 32, 34]

/-- The function `uuid.Parse`: the sixteen bytes of the UUID, `none` for the error result.
The forms accepted are the hyphenated one (36 bytes), the same after `urn:uuid:` (45 bytes)
or with one byte in front and one behind (38 bytes), and 32 hexadecimal digits. -/
def Parse (str : String) : Option (List Nat) :=
  let s := bytes str
  if s.length = 36 then parseHyphenated s
  else if s.length = 36 + 9 then
    if (s.take 9).map lowerByte ≠ bytes "urn:uuid:" then none
    else parseHyphenated (s.drop 9)
  else if s.length = 36 + 2 then parseHyphenated (s.drop 1)
  else if s.length = 32 then hexPairs s ((List.range 16).map (fun i => i * 2))
  else none

end uuid

/-! ## `common/validator.go`: the custom rules -/

namespace common

/-- A `reflect.Value` as the rules meet it: the zero `Value`, a `*string` (nil, or pointing to
a string), or a string. -/
inductive FieldValue
  | invalid
  | ptr (target : Option String)
  | str (s : String)
  deriving DecidableEq, Repr

/-- The method `Value.Kind()`. -/
def FieldValue.Kind : FieldValue → reflect.Kind
  | .invalid => .Invalid
  | .ptr _ => .Ptr
  | .str _ => .String

/-- The method `Value.IsNil()`; it panics on a value that is neither a pointer nor of another
kind that can be nil. -/
def FieldValue.IsNil : FieldValue → Except String Bool
  | .ptr target => .ok target.isNone
  | .invalid => .error "reflect: call of reflect.Value.IsNil on zero Value"
  | .str _ => .error "reflect: call of reflect.Value.IsNil on string Value"

/-- The method `Value.Elem()`: what a pointer points to (the zero `Value` for a nil pointer);
it panics on a value that is not a pointer. -/
def FieldValue.Elem : FieldValue → Except String FieldValue
  | .ptr (some s) => .ok (.str s)
  | .ptr none => .ok .invalid
  | .invalid => .error "reflect: call of reflect.Value.Elem on zero Value"
  | .str _ => .error "reflect: call of reflect.Value.Elem on string Value"

/-- The method `Value.String()`: the string of a string value; for any other value a text
naming its type, without panic. -/
def FieldValue.String : FieldValue → String
  | .str s => s
  | .ptr _ => "<*string Value>"
  | .invalid => "<invalid Value>"

/-- What a rule sees of `validator.FieldLevel`: the field under validation (`Field()`, a
non-nil pointer already followed to its target) and the fields of the enclosing struct
(`Parent()`), by name. -/
structure FieldLevel where
  /-- The result of `Field()`. -/
  Field : FieldValue
  /-- The fields of `Parent()`. -/
  Parent : List (String × FieldValue)
  deriving Repr

/-- The method `Value.FieldByName(name)` on the parent struct: the zero `Value` when the
struct has no such field. -/
def FieldByName (parent : List (String × FieldValue)) (name : String) : FieldValue :=
  match parent.find? (fun f => f.1 == name) with
  | some f => f.2
  | none => .invalid

/-- The constant `name` of `common/validator.go`. -/
def name : String := "Name"

/-- The function `isNilPointer` of `common/validator.go`; `IsNil` is called only on a
pointer. -/
def isNilPointer (value : FieldValue) : Except String Bool :=
  if value.Kind = reflect.Kind.Ptr then value.IsNil else .ok false

/-- The function `ValidateDtoUuid` of `common/validator.go`. -/
def ValidateDtoUuid (fl : FieldLevel) : Except String Bool := do
  let idField := fl.Field
  if ← isNilPointer idField then
    return true
  let nameField := FieldByName fl.Parent name
  if strings.len (strings.TrimSpace idField.String) = 0 then
    if !(← isNilPointer nameField) then
      if 0 < strings.len (← nameField.Elem).String then
        return true
  return (uuid.Parse idField.String).isSome

/-- The field level of the `Id` field of an update DTO (`UpdateInterval`,
`UpdateSubscription`): `Id` and `Name` are both `*string`, `none` being the nil pointer. -/
def idFieldLevel (id name : Option String) : FieldLevel :=
  { Field := match id with
      | none => .ptr none
      | some s => .str s
    Parent := [("Id", .ptr id), ("Name", .ptr name)] }

end common

/-! ## The kinds of the codec -/

namespace dtos

open reflect

/-- The twelve scalar kinds among the value kinds. -/
inductive ScalarKind
  | bool | string
  | uint8 | uint16 | uint32 | uint64
  | int8 | int16 | int32 | int64
  | float32 | float64
  deriving DecidableEq, Repr

/-- The value-type name of a scalar kind. -/
def ScalarKind.name : ScalarKind → String
  | .bool => common.ValueTypeBool
  | .string => common.ValueTypeString
  | .uint8 => common.ValueTypeUint8
  | .uint16 => common.ValueTypeUint16
  | .uint32 => common.ValueTypeUint32
  | .uint64 => common.ValueTypeUint64
  | .int8 => common.ValueTypeInt8
  | .int16 => common.ValueTypeInt16
  | .int32 => common.ValueTypeInt32
  | .int64 => common.ValueTypeInt64
  | .float32 => common.ValueTypeFloat32
  | .float64 => common.ValueTypeFloat64

/-- The value-type name of the array variant of a scalar kind. -/
def ScalarKind.arrayName : ScalarKind → String
  | .bool => common.ValueTypeBoolArray
  | .string => common.ValueTypeStringArray
  | .uint8 => common.ValueTypeUint8Array
  | .uint16 => common.ValueTypeUint16Array
  | .uint32 => common.ValueTypeUint32Array
  | .uint64 => common.ValueTypeUint64Array
  | .int8 => common.ValueTypeInt8Array
  | .int16 => common.ValueTypeInt16Array
  | .int32 => common.ValueTypeInt32Array
  | .int64 => common.ValueTypeInt64Array
  | .float32 => common.ValueTypeFloat32Array
  | .float64 => common.ValueTypeFloat64Array

/-- The native representation of a scalar kind. -/
def ScalarKind.goType : ScalarKind → GoType
  | .bool => .bool
  | .string => .string
  | .uint8 => .integer .uint8
  | .uint16 => .integer .uint16
  | .uint32 => .integer .uint32
  | .uint64 => .integer .uint64
  | .int8 => .integer .int8
  | .int16 => .integer .int16
  | .int32 => .integer .int32
  | .int64 => .integer .int64
  | .float32 => .float .float32
  | .float64 => .float .float64

/-- Whether the kind is one of the two float kinds. -/
def ScalarKind.isFloat : ScalarKind → Bool
  | .float32 | .float64 => true
  | _ => false

/-- Whether the kind is `String`. -/
def ScalarKind.isString : ScalarKind → Bool
  | .string => true
  | _ => false

/-- The sized integer type of an integer kind. -/
def ScalarKind.intType : ScalarKind → Option IntType
  | .uint8 => some .uint8
  | .uint16 => some .uint16
  | .uint32 => some .uint32
  | .uint64 => some .uint64
  | .int8 => some .int8
  | .int16 => some .int16
  | .int32 => some .int32
  | .int64 => some .int64
  | _ => none

/-- The scalar kind of a float type. -/
def ScalarKind.ofFloat : FloatType → ScalarKind
  | .float32 => .float32
  | .float64 => .float64

/-- A value read back from base-10 text as an integer of type `t`: `strconv.ParseInt` for a
signed type, `strconv.ParseUint` for an unsigned one, at the width of the type. -/
def parseInteger (t : IntType) (s : String) : Option Int :=
  if t.signed then strconv.ParseInt s t.bits
  else (strconv.ParseUint s t.bits).map (fun n => (n : Int))

end dtos

instance instDecidableEqExcept {ε α : Type} [DecidableEq ε] [DecidableEq α] :
    DecidableEq (Except ε α)
  | .ok a, .ok b =>
    if h : a = b then isTrue (by rw [h]) else isFalse (fun h' => h (by cases h'; rfl))
  | .error a, .error b =>
    if h : a = b then isTrue (by rw [h]) else isFalse (fun h' => h (by cases h'; rfl))
  | .ok _, .error _ => isFalse (fun h => by cases h)
  | .error _, .ok _ => isFalse (fun h => by cases h)

/-! ## `errors`: the error value of the contracts -/

namespace errors

/-- Modelled from the spec: the error kind `ContractInvalid` of the package `errors`, whose
declaration is not among the sources. -/
def KindContractInvalid : String := "ContractInvalid"

/-- Modelled from the spec: the error value built by `errors.NewCommonEdgeX`, whose
declaration is not among the sources: a kind, a message and the `Error()` text of the
wrapped error, if any. -/
structure CommonEdgeX where
  /-- The kind of the error. -/
  kind : String
  /-- The message of the error. -/
  message : String
  /-- The text of the wrapped error, `none` for `nil`. -/
  wrapped : Option String
  deriving DecidableEq, Repr

/-- Modelled from the spec: the constructor `errors.NewCommonEdgeX(kind, message, wrappedError)`. -/
def NewCommonEdgeX (kind message : String) (wrappedError : Option String) : CommonEdgeX :=
  { kind := kind, message := message, wrapped := wrappedError }

end errors

namespace strings

/-- `strings.Contains(s, substr)`: whether `substr` occurs in `s`. -/
def Contains (s substr : String) : Bool :=
  s.data.tails.any (fun t => substr.data.isPrefixOf t)

end strings

/-! ## `dtos/deviceprofile.go`: the device profile -/

namespace dtos

/-- Modelled from the spec: the resource properties, whose declaration is not among the
sources; the fields are those `ValidateDeviceProfileDTO` reads. -/
structure ResourceProperties where
  /-- The value type of the resource. -/
  ValueType : String
  /-- The read-write permission of the resource. -/
  ReadWrite : String
  deriving DecidableEq, Repr

/-- Modelled from the spec: the device resource, whose declaration is not among the sources;
the fields are those `ValidateDeviceProfileDTO` reads. -/
structure DeviceResource where
  /-- The name of the resource. -/
  Name : String
  /-- The properties of the resource. -/
  Properties : ResourceProperties
  deriving DecidableEq, Repr

/-- Modelled from the spec: the resource operation of a device command, whose declaration is
not among the sources; the field is the one `ValidateDeviceProfileDTO` reads. -/
structure ResourceOperation where
  /-- The name of the device resource the operation refers to. -/
  DeviceResource : String
  deriving DecidableEq, Repr

/-- Modelled from the spec: the device command, whose declaration is not among the sources;
the fields are those `ValidateDeviceProfileDTO` reads. -/
structure DeviceCommand where
  /-- The name of the command. -/
  Name : String
  /-- The read-write permission of the command. -/
  ReadWrite : String
  /-- The resource operations of the command. -/
  ResourceOperations : List ResourceOperation
  deriving DecidableEq, Repr

/-- Modelled from the spec: the embedded `DBTimestamp`, whose declaration is not among the
sources. -/
structure DBTimestamp where
  /-- The creation time. -/
  Created : Int
  /-- The modification time. -/
  Modified : Int
  deriving DecidableEq, Repr

/-- The struct `DeviceProfile` of `dtos/deviceprofile.go`. -/
structure DeviceProfile where
  /-- The embedded time stamps. -/
  DBTimestamp : DBTimestamp
  /-- The identifier. -/
  Id : String
  /-- The name. -/
  Name : String
  /-- The manufacturer. -/
  Manufacturer : String
  /-- The description. -/
  Description : String
  /-- The model. -/
  Model : String
  /-- The labels. -/
  Labels : List String
  /-- The device service. -/
  DeviceService : String
  /-- The device resources. -/
  DeviceResources : List DeviceResource
  /-- The device commands. -/
  DeviceCommands : List DeviceCommand
  deriving DecidableEq, Repr

/-- The loop of `deviceResourcesContains`, left at the first resource of that name;
`contains` is the flag of the loop. -/
def deviceResourcesContainsLoop (name : String) : List DeviceResource → Bool → Bool
  | [], contains => contains
  | resource :: rest, contains =>
    if resource.Name = name then true else deviceResourcesContainsLoop name rest contains

/-- The function `deviceResourcesContains` of `dtos/deviceprofile.go`. -/
def deviceResourcesContains (resources : List DeviceResource) (name : String) : Bool :=
  deviceResourcesContainsLoop name resources false

/-- The loop of `validReadWritePermission`, left at the first resource of that name whose
permission is neither `RW` nor the one asked for; `valid` is the flag of the loop. -/
def validReadWritePermissionLoop (ReadWrite_RW : String) (name : String) (readWrite : String) :
    List DeviceResource → Bool → Bool
  | [], valid => valid
  | resource :: rest, valid =>
    if resource.Name = name then
      if resource.Properties.ReadWrite ≠ ReadWrite_RW ∧
          resource.Properties.ReadWrite ≠ readWrite then false
      else validReadWritePermissionLoop ReadWrite_RW name readWrite rest valid
    else validReadWritePermissionLoop ReadWrite_RW name readWrite rest valid

/-- The function `validReadWritePermission` of `dtos/deviceprofile.go`; `ReadWrite_RW` is the
constant `common.ReadWrite_RW`, whose declaration is not among the sources. -/
def validReadWritePermission (ReadWrite_RW : String) (resources : List DeviceResource)
    (name : String) (readWrite : String) : Bool :=
  validReadWritePermissionLoop ReadWrite_RW name readWrite resources true

/-- The first loop of `ValidateDeviceProfileDTO`, over the device resources; `dupCheck` holds
the keys of the map of that name. -/
def validateDeviceResources (ReadWrite_W : String) :
    List DeviceResource → List String → Option errors.CommonEdgeX
  | [], _ => none
  | resource :: rest, dupCheck =>
    if resource.Properties.ValueType = common.ValueTypeBinary ∧
        strings.Contains resource.Properties.ReadWrite ReadWrite_W = true then
      some (errors.NewCommonEdgeX errors.KindContractInvalid
        ("属性 " ++ resource.Name ++ "(" ++ common.ValueTypeBinary ++ ") 不支持写权限'") none)
    else if resource.Name ∈ dupCheck then
      some (errors.NewCommonEdgeX errors.KindContractInvalid
        ("属性 " ++ resource.Name ++ " 重复") none)
    else validateDeviceResources ReadWrite_W rest (resource.Name :: dupCheck)

/-- The inner loop of `ValidateDeviceProfileDTO`, over the resource operations of a command. -/
def validateResourceOperations (ReadWrite_RW : String) (resources : List DeviceResource)
    (commandReadWrite : String) : List ResourceOperation → Option errors.CommonEdgeX
  | [] => none
  | ro :: rest =>
    if ¬ deviceResourcesContains resources ro.DeviceResource = true then
      some (errors.NewCommonEdgeX errors.KindContractInvalid
        ("命令属性 " ++ ro.DeviceResource ++ " 不匹配设备属性") none)
    else if ¬ validReadWritePermission ReadWrite_RW resources ro.DeviceResource
        commandReadWrite = true then
      some (errors.NewCommonEdgeX errors.KindContractInvalid
        ("命令读写权限 '" ++ commandReadWrite ++ "' 超出资源读写权限") none)
    else validateResourceOperations ReadWrite_RW resources commandReadWrite rest

/-- The second loop of `ValidateDeviceProfileDTO`, over the device commands; `dupCheck` holds
the keys of the map of that name. -/
def validateDeviceCommands (ReadWrite_RW : String) (resources : List DeviceResource) :
    List DeviceCommand → List String → Option errors.CommonEdgeX
  | [], _ => none
  | command :: rest, dupCheck =>
    if command.Name ∈ dupCheck then
      some (errors.NewCommonEdgeX errors.KindContractInvalid
        ("命令 " ++ command.Name ++ " 重复") none)
    else
      match validateResourceOperations ReadWrite_RW resources command.ReadWrite
          command.ResourceOperations with
      | some err => some err
      | none => validateDeviceCommands ReadWrite_RW resources rest (command.Name :: dupCheck)

/-- The function `ValidateDeviceProfileDTO` of `dtos/deviceprofile.go`; `ReadWrite_W` and
`ReadWrite_RW` are the constants of `common` of these names, whose declarations are not among
the sources. The result is the error, `none` for `nil`. -/
def ValidateDeviceProfileDTO (ReadWrite_W ReadWrite_RW : String) (profile : DeviceProfile) :
    Option errors.CommonEdgeX :=
  match validateDeviceResources ReadWrite_W profile.DeviceResources [] with
  | some err => some err
  | none => validateDeviceCommands ReadWrite_RW profile.DeviceResources profile.DeviceCommands []

end dtos

namespace dtos

/-- A device profile with the given resources and commands, its other fields empty. -/
def DeviceProfile.ofParts (resources : List DeviceResource) (commands : List DeviceCommand) :
    DeviceProfile :=
  { DBTimestamp := { Created := 0, Modified := 0 }, Id := "", Name := "", Manufacturer := "",
    Description := "", Model := "", Labels := [], DeviceService := "",
    DeviceResources := resources, DeviceCommands := commands }

end dtos

/-! ## `common/validator.go`: the other custom rules -/

namespace strings

/-- `strings.ToLower(s)`: every character mapped to its lower case; `lower` is
`unicode.ToLower`, the case table of Unicode. -/
def ToLower (lower : Char → Char) (s : String) : String :=
  String.mk (s.data.map lower)

end strings

namespace common

/-- Modelled from the spec: the list `valueTypes` of `common`, whose declaration is not among
the sources: the closed set of value-kind names. -/
def valueTypes : List String :=
  [ValueTypeBool, ValueTypeString,
    ValueTypeUint8, ValueTypeUint16, ValueTypeUint32, ValueTypeUint64,
    ValueTypeInt8, ValueTypeInt16, ValueTypeInt32, ValueTypeInt64,
    ValueTypeFloat32, ValueTypeFloat64,
    ValueTypeBinary,
    ValueTypeBoolArray, ValueTypeStringArray,
    ValueTypeUint8Array, ValueTypeUint16Array, ValueTypeUint32Array, ValueTypeUint64Array,
    ValueTypeInt8Array, ValueTypeInt16Array, ValueTypeInt32Array, ValueTypeInt64Array,
    ValueTypeFloat32Array, ValueTypeFloat64Array,
    ValueTypeObject]

/-- The function `ValidateDtoNoneEmptyString` of `common/validator.go`. -/
def ValidateDtoNoneEmptyString (fl : FieldLevel) : Except String Bool := do
  let val := fl.Field
  if ← isNilPointer val then
    return true
  if 0 < strings.len (strings.TrimSpace val.String) then
    return true
  else
    return false

/-- The loop of `ValidateValueType` over the value-type names. -/
def ValidateValueTypeLoop (lower : Char → Char) (valueType : String) : List String → Bool
  | [] => false
  | v :: rest =>
    if strings.ToLower lower valueType = strings.ToLower lower v then true
    else ValidateValueTypeLoop lower valueType rest

/-- The function `ValidateValueType` of `common/validator.go`; `valueTypes` is the list of
`common` of that name, whose declaration is not among the sources, and `lower` is
`unicode.ToLower`. -/
def ValidateValueType (lower : Char → Char) (valueTypes : List String) (fl : FieldLevel) :
    Bool :=
  let valueType := fl.Field.String
  ValidateValueTypeLoop lower valueType valueTypes

end common

/-! ## `regexp`: the expressions of the validation rules -/

namespace regexp

/-- The syntax tree of a regular expression, for the part of the syntax covered: the anchors
`^` and `$` (without the multi-line flag), a literal character, a bracketed character class,
the repetitions `*`, `+` and `?`, and concatenation. -/
inductive Regexp
  | empty
  | beginText
  | endText
  | literal (c : Char)
  | charClass (negated : Bool) (ranges : List (Char × Char))
  | star (r : Regexp)
  | plus (r : Regexp)
  | quest (r : Regexp)
  | concat (r1 r2 : Regexp)
  deriving DecidableEq, Repr

/-- The items of a bracketed class after `[` (and `^`), up to the closing `]`: the ranges and
the rest of the expression. A `]` that comes first is a literal; `lo-hi` is a range unless the
`-` comes last; a `-` is accepted anywhere (Perl syntax). An escape, a named class, a range
with `hi < lo` or a missing `]` gives `none`. -/
def parseClassItems : Nat → List Char → Bool → Option (List (Char × Char) × List Char)
  | 0, _, _ => none
  | _ + 1, [], _ => none
  | fuel + 1, c :: rest, first =>
    if c = ']' ∧ first = false then some ([], rest)
    else if c = '\\' then none
    else
      match rest with
      | '-' :: hi :: rest' =>
        if hi = ']' then
          (parseClassItems fuel rest false).map (fun p => ((c, c) :: p.1, p.2))
        else if hi = '\\' ∨ hi < c then none
        else (parseClassItems fuel rest' false).map (fun p => ((c, hi) :: p.1, p.2))
      | ':' :: _ =>
        if c = '[' then none
        else (parseClassItems fuel rest false).map (fun p => ((c, c) :: p.1, p.2))
      | _ => (parseClassItems fuel rest false).map (fun p => ((c, c) :: p.1, p.2))

/-- A bracketed class after its `[`: the class and the rest of the expression. -/
def parseClass (t : List Char) : Option (Regexp × List Char) :=
  match t with
  | '^' :: t' =>
    (parseClassItems (t'.length + 1) t' true).map (fun p => (.charClass true p.1, p.2))
  | _ => (parseClassItems (t.length + 1) t true).map (fun p => (.charClass false p.1, p.2))

/-- One atom at the front of the expression: an anchor, a class or a literal character; the
other operators of the syntax are not covered and give `none`. -/
def parseAtom : List Char → Option (Regexp × List Char)
  | [] => none
  | c :: t =>
    if c = '^' then some (.beginText, t)
    else if c = '$' then some (.endText, t)
    else if c = '[' then parseClass t
    else if c ∈ ['(', ')', '|', '\\', '{', '}', '*', '+', '?', '.'] then none
    else some (.literal c, t)

/-- The repetition operator that may follow an atom. -/
def parsePostfix (r : Regexp) : List Char → Regexp × List Char
  | '*' :: t => (.star r, t)
  | '+' :: t => (.plus r, t)
  | '?' :: t => (.quest r, t)
  | t => (r, t)

/-- A sequence of atoms, each with its repetition operator, as a concatenation. -/
def parseSeq : Nat → List Char → Option Regexp
  | 0, _ => none
  | _ + 1, [] => some .empty
  | fuel + 1, c :: t =>
    match parseAtom (c :: t) with
    | none => none
    | some (atom, rest) =>
      let (r, rest) := parsePostfix atom rest
      (parseSeq fuel rest).map (fun tail => .concat r tail)

/-- `regexp.Compile(expr)`, for the part of the syntax covered; `none` is the error result. -/
def Compile (expr : String) : Option Regexp :=
  parseSeq (expr.data.length + 1) expr.data

/-- Whether the character is in the class. -/
def inClass (negated : Bool) (ranges : List (Char × Char)) (c : Char) : Bool :=
  (ranges.any (fun r => decide (r.1 ≤ c ∧ c ≤ r.2))) != negated

/-- The repetition of `step`, zero or more times: the positions reachable from the position
`(start, s)`. A round that takes no character reaches nothing new. -/
def starLoop (step : Bool → List Char → List (Bool × List Char)) :
    Nat → Bool → List Char → List (Bool × List Char)
  | 0, start, s => [(start, s)]
  | fuel + 1, start, s =>
    (start, s) ::
      ((step start s).filter (fun p => decide (p.2.length < s.length))).flatMap
        (fun p => starLoop step fuel p.1 p.2)

/-- The positions at which a match of the expression that begins at the position `(start, s)`
can end; a position is the rest of the text together with the flag telling whether it is the
beginning of the text. -/
def matchAt : Regexp → Bool → List Char → List (Bool × List Char)
  | .empty, start, s => [(start, s)]
  | .beginText, start, s => if start then [(start, s)] else []
  | .endText, start, s => if s = [] then [(start, s)] else []
  | .literal _, _, [] => []
  | .literal c, _, x :: s => if x = c then [(false, s)] else []
  | .charClass _ _, _, [] => []
  | .charClass negated ranges, _, x :: s => if inClass negated ranges x then [(false, s)] else []
  | .star r, start, s => starLoop (matchAt r) s.length start s
  | .plus r, start, s =>
    (matchAt r start s).flatMap (fun p => starLoop (matchAt r) p.2.length p.1 p.2)
  | .quest r, start, s => (start, s) :: matchAt r start s
  | .concat r1 r2, start, s => (matchAt r1 start s).flatMap (fun p => matchAt r2 p.1 p.2)

/-- Whether a match begins at some position of `s`, `start` telling whether `s` is the whole
text. -/
def matchAnywhere (re : Regexp) : Bool → List Char → Bool
  | start, [] => !(matchAt re start []).isEmpty
  | start, c :: s => !(matchAt re start (c :: s)).isEmpty || matchAnywhere re false s

/-- The method `MatchString`: whether the text has a match of the expression. -/
def Regexp.MatchString (re : Regexp) (s : String) : Bool :=
  matchAnywhere re true s.data

end regexp

namespace common

/-- The constant `rFC3986UnreservedCharsRegexString` of `common/validator.go`. -/
def rFC3986UnreservedCharsRegexString : String := "^[a-zA-Z0-9-_~]+$"

/-- The variable `rFC3986UnreservedCharsRegex` of `common/validator.go`:
`regexp.MustCompile` of the expression, `none` when the expression does not compile. -/
def rFC3986UnreservedCharsRegex : Option regexp.Regexp :=
  regexp.Compile rFC3986UnreservedCharsRegexString

/-- The function `ValidateDtoRFC3986UnreservedChars` of `common/validator.go`. -/
def ValidateDtoRFC3986UnreservedChars (fl : FieldLevel) : Except String Bool := do
  let val := fl.Field
  if ← isNilPointer val then
    return true
  else
    match rFC3986UnreservedCharsRegex with
    | none => throw "regexp: Compile: the expression does not compile"
    | some re => return re.MatchString val.String

end common

namespace common

/-- Whether the character is an ASCII letter, an ASCII digit, `-`, `_` or `~`. -/
def isUnreservedChar (c : Char) : Bool :=
  c.isAlpha || c.isDigit || c == '-' || c == '_' || c == '~'

end common

/-! ## `time.ParseDuration` -/

namespace time

/-- Whether the byte is a decimal digit. -/
def isDigit (c : Char) : Bool := decide ('0' ≤ c ∧ c ≤ '9')

/-- The value of a decimal digit. -/
def digitOf (c : Char) : Nat := c.toNat - 48

/-- The function `leadingInt`: the number of the leading digits, read onto `x`, and the rest;
`none` is the error of a number above `1 << 63`. -/
def leadingInt : List Char → Nat → Option (Nat × List Char)
  | [], x => some (x, [])
  | c :: s, x =>
    if ¬ isDigit c = true then some (x, c :: s)
    else if x > 2 ^ 63 / 10 then none
    else if x * 10 + digitOf c > 2 ^ 63 then none
    else leadingInt s (x * 10 + digitOf c)

/-- The function `leadingFraction`: the number `x` of the leading digits and its scale (the
power of ten of as many digits), and the rest; the digits that would take `x` above
`1 << 63` are passed over. -/
def leadingFraction : List Char → Nat → Nat → Bool → Nat × Nat × List Char
  | [], x, scale, _ => (x, scale, [])
  | c :: s, x, scale, overflow =>
    if ¬ isDigit c = true then (x, scale, c :: s)
    else if overflow then leadingFraction s x scale overflow
    else if x > (2 ^ 63 - 1) / 10 then leadingFraction s x scale true
    else if x * 10 + digitOf c > 2 ^ 63 then leadingFraction s x scale true
    else leadingFraction s (x * 10 + digitOf c) (scale * 10) false

/-- The table `unitMap`: the nanoseconds of a unit. -/
def unitMap (u : String) : Option Nat :=
  if u = "ns" then some 1
  else if u = "us" then some 1000
  else if u = "µs" then some 1000
  else if u = "μs" then some 1000
  else if u = "ms" then some 1000000
  else if u = "s" then some 1000000000
  else if u = "m" then some 60000000000
  else if u = "h" then some 3600000000000
  else none

/-- Bring `n / d`, times a power of two, into the interval from `2^52` to `2^53`: the
numerator, the denominator and the exponent taken out. -/
def scaleToMantissa : Nat → Nat → Nat → Int → Nat × Nat × Int
  | 0, n, d, e => (n, d, e)
  | fuel + 1, n, d, e =>
    if n < 2 ^ 52 * d then scaleToMantissa fuel (2 * n) d (e - 1)
    else if 2 ^ 53 * d ≤ n then scaleToMantissa fuel n (2 * d) (e + 1)
    else (n, d, e)

/-- The `float64` nearest to `n / d > 0`, ties to the even mantissa: the mantissa `m` and the
exponent `e` of the value `m * 2^e` (subnormal numbers and overflow left aside). -/
def roundFloat64 (n d : Nat) : Nat × Int :=
  let (n, d, e) := scaleToMantissa 2200 n d 0
  let q := n / d
  let r := n % d
  if 2 * r > d ∨ (2 * r = d ∧ q % 2 = 1) then (q + 1, e) else (q, e)

/-- The term `uint64(float64(f) * (float64(unit) / scale))` of `ParseDuration`, for `f > 0`:
the conversion of `f`, the quotient and the product are each rounded to a `float64`, and the
conversion to `uint64` drops the fraction. -/
def fractionNanos (f unit scale : Nat) : Nat :=
  let (mf, ef) := roundFloat64 f 1
  let (mq, eq) := roundFloat64 unit scale
  let e := ef + eq
  let (mp, ep) := roundFloat64 (mf * mq * 2 ^ e.toNat) (2 ^ (-e).toNat)
  mp * 2 ^ ep.toNat / 2 ^ (-ep).toNat

/-- Whether the byte can begin a number: a digit or the point. -/
def isNumberByte (c : Char) : Bool := c == '.' || isDigit c

/-- The body of the loop of `ParseDuration`: one group of a number and a unit at the front of
`s`, which begins with a digit or the point; `d` is the sum so far, kept in 64 bits, and
`next` is the loop on the rest. `none` is the error result. -/
def parseGroup (s : List Char) (d : Nat) (next : List Char → Nat → Option Nat) : Option Nat :=
  match leadingInt s 0 with
  | none => none
  | some (v, s1) =>
    let pre := decide (s.length ≠ s1.length)
    let fs : Nat × Nat × Bool × List Char :=
      match s1 with
      | '.' :: t =>
        ((leadingFraction t 0 1 false).1, (leadingFraction t 0 1 false).2.1,
          decide (t.length ≠ (leadingFraction t 0 1 false).2.2.length),
          (leadingFraction t 0 1 false).2.2)
      | _ => (0, 1, false, s1)
    let f := fs.1
    let scale := fs.2.1
    let post := fs.2.2.1
    let s2 := fs.2.2.2
    if pre = false ∧ post = false then none
    else
      let u := s2.takeWhile (fun b => !isNumberByte b)
      let s3 := s2.dropWhile (fun b => !isNumberByte b)
      if u = [] then none
      else
        match unitMap (String.mk u) with
        | none => none
        | some unit =>
          if v > 2 ^ 63 / unit then none
          else
            let v := if 0 < f then v * unit + fractionNanos f unit scale else v * unit
            if 0 < f ∧ v > 2 ^ 63 then none
            else
              let d := (d + v) % 2 ^ 64
              if d > 2 ^ 63 then none else next s3 d

/-- The loop of `ParseDuration` over the groups, until the text is used up. -/
def parseGroups : Nat → List Char → Nat → Option Nat
  | 0, _, _ => none
  | _ + 1, [], d => some d
  | fuel + 1, c :: s, d =>
    if ¬ isNumberByte c = true then none
    else parseGroup (c :: s) d (parseGroups fuel)

/-- The conversion of a 64-bit pattern to `int64`. -/
def toInt64 (x : Int) : Int := (x + 2 ^ 63) % 2 ^ 64 - 2 ^ 63

/-- The function `time.ParseDuration`: the nanoseconds of the duration, `none` for the
error result. -/
def ParseDuration (s : String) : Option Int :=
  let orig := s.data
  let (neg, s) :=
    match orig with
    | c :: t => if c = '-' ∨ c = '+' then (decide (c = '-'), t) else (false, orig)
    | [] => (false, orig)
  if s = ['0'] then some 0
  else if s = [] then none
  else
    match parseGroups (s.length + 1) s 0 with
    | none => none
    | some d =>
      if neg then some (toInt64 (-(toInt64 d)))
      else if d > 2 ^ 63 - 1 then none
      else some (toInt64 d)

end time

namespace common

/-- The function `ValidateDuration` of `common/validator.go`. -/
def ValidateDuration (fl : FieldLevel) : Bool :=
  (time.ParseDuration fl.Field.String).isSome

end common

/-! ## The syntax of a duration text -/

namespace time

/-- A group of a duration text: the digits before the point, the digits after the point when
there is a point, and the unit. -/
structure Group where
  /-- The digits before the point. -/
  whole : List Char
  /-- The digits after the point, `none` without a point. -/
  frac : Option (List Char)
  /-- The unit suffix. -/
  unit : List Char
  deriving DecidableEq, Repr

/-- The text of the fraction of a group: the point and the digits. -/
def fracText : Option (List Char) → List Char
  | none => []
  | some f => '.' :: f

/-- The text of a group: the number, then the unit. -/
def Group.text (g : Group) : List Char :=
  g.whole ++ (fracText g.frac ++ g.unit)

/-- A decimal number followed by a unit suffix: decimal digits before and after the point, at
least one digit in all, and one of the units `ns`, `us`, `µs`, `μs`, `ms`, `s`, `m`, `h`. -/
def Group.wellFormed (g : Group) : Prop :=
  (∀ c ∈ g.whole, isDigit c = true) ∧
  (∀ f, g.frac = some f → ∀ c ∈ f, isDigit c = true) ∧
  (g.whole ≠ [] ∨ ∃ f, g.frac = some f ∧ f ≠ []) ∧
  (unitMap (String.mk g.unit)).isSome = true

/-- The nanoseconds of a group as `ParseDuration` computes them, `none` when one of its
overflow checks fails: the number before the point is at most `2^63`, so is its product with
the unit, and so is the sum of the product and the rounded fraction. -/
def Group.nanos (g : Group) : Option Nat :=
  match leadingInt g.whole 0, unitMap (String.mk g.unit) with
  | some (v, _), some unit =>
    let fs : Nat × Nat × List Char :=
      match g.frac with
      | some t => leadingFraction t 0 1 false
      | none => (0, 1, [])
    if v > 2 ^ 63 / unit then none
    else
      let v := if 0 < fs.1 then v * unit + fractionNanos fs.1 unit fs.2.1 else v * unit
      if 0 < fs.1 ∧ v > 2 ^ 63 then none
      else some v
  | _, _ => none

/-- The total of the groups as `ParseDuration` computes it from the total `d` so far, `none`
when an overflow check fails: every running total, kept in 64 bits, is at most `2^63`. -/
def sumGroups : List Group → Nat → Option Nat
  | [], d => some d
  | g :: gs, d =>
    match g.nanos with
    | none => none
    | some v => if (d + v) % 2 ^ 64 > 2 ^ 63 then none else sumGroups gs ((d + v) % 2 ^ 64)

/-- A signed sequence of decimal numbers each followed by a unit suffix: an optional sign,
then one group or more. -/
def IsDurationText (s : String) : Prop :=
  ∃ (sign : List Char) (gs : List Group),
    (sign = [] ∨ sign = ['+'] ∨ sign = ['-']) ∧ gs ≠ [] ∧ (∀ g ∈ gs, g.wellFormed) ∧
    s.data = sign ++ gs.flatMap Group.text

end time

/-! ## `common/validator.go`: `Validate` and the violation messages -/

namespace strings

/-- The position of the first occurrence of `sub` in `s`, looked for from the position `i`
on; `-1` when there is none. -/
def indexFrom (sub : List Char) : List Char → Nat → Int
  | [], i => if sub = [] then (i : Int) else -1
  | c :: s, i => if sub.isPrefixOf (c :: s) then (i : Int) else indexFrom sub s (i + 1)

/-- `strings.Index(s, substr)`: the position of the first occurrence, `-1` when there is
none. Positions count characters, which are the bytes of an ASCII text. -/
def Index (s substr : String) : Int := indexFrom substr.data s.data 0

/-- The position of the last occurrence of `sub` in `s`, looked for from the position `i` on,
`last` being the one found so far. -/
def lastIndexFrom (sub : List Char) : List Char → Nat → Int → Int
  | [], i, last => if sub = [] then (i : Int) else last
  | c :: s, i, last =>
    lastIndexFrom sub s (i + 1) (if sub.isPrefixOf (c :: s) then (i : Int) else last)

/-- `strings.LastIndex(s, substr)`: the position of the last occurrence, `-1` when there is
none. -/
def LastIndex (s substr : String) : Int := lastIndexFrom substr.data s.data 0 (-1)

/-- The slice expression `s[lo:hi]`. -/
def slice (s : String) (lo hi : Int) : String :=
  String.mk ((s.data.drop lo.toNat).take (hi - lo).toNat)

end strings

namespace reflect

/-- A field of a struct type as `getErrorMessage` reads it: its name and the value of the
key `validate_name` of its tag, the empty string when the tag has no such key. -/
structure StructField where
  /-- The name of the field. -/
  Name : String
  /-- The result of `Tag.Get("validate_name")`. -/
  validate_name : String
  deriving DecidableEq, Repr

/-- A struct type: its name and the fields `FieldByName` finds. -/
structure StructType where
  /-- The name of the type. -/
  Name : String
  /-- The fields of the type. -/
  Fields : List StructField
  deriving DecidableEq, Repr

/-- The method `Type.FieldByName(name)` on a struct type. -/
def StructType.FieldByName (t : StructType) (name : String) : Option StructField :=
  t.Fields.find? (fun f => f.Name == name)

end reflect

namespace validator

/-- What `getErrorMessage` reads of a `validator.FieldError`. -/
structure FieldError where
  /-- The result of `StructNamespace()`. -/
  StructNamespace : String
  /-- The result of `StructField()`. -/
  StructField : String
  /-- The result of `Tag()`. -/
  Tag : String
  /-- The result of `Param()`. -/
  Param : String
  deriving DecidableEq, Repr

end validator

namespace common

/-- The result of `reflect.ValueOf(a)` for the record handed to `Validate`: a struct, or a
pointer to a struct. -/
inductive Record
  | struct (t : reflect.StructType)
  | ptr (t : reflect.StructType)
  deriving DecidableEq, Repr

/-- The constant `dtoDurationTag`. -/
def dtoDurationTag : String := "edgex-dto-duration"
/-- The constant `dtoUuidTag`. -/
def dtoUuidTag : String := "edgex-dto-uuid"
/-- The constant `dtoNoneEmptyStringTag`. -/
def dtoNoneEmptyStringTag : String := "edgex-dto-none-empty-string"
/-- The constant `dtoValueType`. -/
def dtoValueType : String := "edgex-dto-value-type"
/-- The constant `dtoRFC3986UnreservedCharTag`. -/
def dtoRFC3986UnreservedCharTag : String := "edgex-dto-rfc3986-unreserved-chars"
/-- The constant `dtoInterDatetimeTag`. -/
def dtoInterDatetimeTag : String := "edgex-dto-interval-datetime"

/-- The `switch` on the tag at the end of `getErrorMessage`: the message for the field name,
the tag and the parameter of the rule. -/
def errorMessageOf (fieldName tag fieldValue : String) : String :=
  if tag = "uuid" then fieldName ++ "须为UUID"
  else if tag = "required" then fieldName ++ "为必填项"
  else if tag = "required_without" then
    fieldName ++ "为必填项（当" ++ fieldValue ++ "为空时）"
  else if tag = "len" then fieldName ++ "长度不为" ++ fieldValue
  else if tag = "oneof" then fieldName ++ "需为" ++ fieldValue
  else if tag = "gt" then fieldName ++ "需大于" ++ fieldValue
  else if tag = dtoDurationTag then
    fieldName ++ "不是合法时间间隔格式（ISO 8601 Durations：100ms, 24h）"
  else if tag = dtoUuidTag then fieldName ++ "须为UUID"
  else if tag = dtoNoneEmptyStringTag then fieldName ++ "不能为空"
  else if tag = dtoRFC3986UnreservedCharTag then fieldName ++ "需由字母、数字、_、-或~组成"
  else fieldName ++ "参数验证失败：" ++ tag

/-- The text of a violation message after the name of the field, for the tag and the
parameter of the rule. -/
def errorMessageSuffix (tag fieldValue : String) : String :=
  if tag = "uuid" then "须为UUID"
  else if tag = "required" then "为必填项"
  else if tag = "required_without" then "为必填项（当" ++ fieldValue ++ "为空时）"
  else if tag = "len" then "长度不为" ++ fieldValue
  else if tag = "oneof" then "需为" ++ fieldValue
  else if tag = "gt" then "需大于" ++ fieldValue
  else if tag = dtoDurationTag then "不是合法时间间隔格式（ISO 8601 Durations：100ms, 24h）"
  else if tag = dtoUuidTag then "须为UUID"
  else if tag = dtoNoneEmptyStringTag then "不能为空"
  else if tag = dtoRFC3986UnreservedCharTag then "需由字母、数字、_、-或~组成"
  else "参数验证失败：" ++ tag

/-- The function `getErrorMessage` of `common/validator.go`. `getStructFieldOKInternal`, whose
declaration is not among the sources, is a parameter: for the record and the namespace of the
parent it gives the type of the parent when the parent is found and is a struct. The method
`FieldByName` of the type of the record panics when the record is a pointer. -/
def getErrorMessage (getStructFieldOKInternal : Record → String → Option reflect.StructType)
    (aVal : Record) (e : validator.FieldError) : Except String String :=
  let ns := e.StructNamespace
  let f := strings.Index ns "."
  let l := strings.LastIndex ns "."
  let fieldName := e.StructNamespace
  let field : Except String (Option reflect.StructField) :=
    if f = l then
      match aVal with
      | .struct t => .ok (t.FieldByName e.StructField)
      | .ptr t => .error ("reflect: FieldByName of non-struct type *" ++ t.Name)
    else
      let parentNs := strings.slice ns (f + 1) l
      match getStructFieldOKInternal aVal parentNs with
      | some parent => .ok (parent.FieldByName e.StructField)
      | none => .ok none
  match field with
  | .error p => .error p
  | .ok field =>
    let fieldName :=
      match field with
      | some sd => if sd.validate_name ≠ "" then sd.validate_name else fieldName
      | none => fieldName
    .ok (errorMessageOf fieldName e.Tag e.Param)

/-- The loop of `Validate` over the field errors; `errMsg` holds the messages so far. -/
def validateMessages (getStructFieldOKInternal : Record → String → Option reflect.StructType)
    (aVal : Record) : List validator.FieldError → List String → Except String (List String)
  | [], errMsg => .ok errMsg
  | e :: rest, errMsg =>
    match getErrorMessage getStructFieldOKInternal aVal e with
    | .error p => .error p
    | .ok msg => validateMessages getStructFieldOKInternal aVal rest (errMsg ++ [msg])

/-- The function `Validate` of `common/validator.go`. `errs` is the result of
`val.Struct(a)`, the field errors the validator reports, in its order; the validator returns
`nil` when it has none to report, which is the empty list here. The result is the error,
`none` for `nil`. -/
def Validate (getStructFieldOKInternal : Record → String → Option reflect.StructType)
    (aVal : Record) (errs : List validator.FieldError) : Except String (Option errors.CommonEdgeX) :=
  if errs = [] then .ok none
  else
    match validateMessages getStructFieldOKInternal aVal errs [] with
    | .error p => .error p
    | .ok errMsg =>
      .ok (some (errors.NewCommonEdgeX errors.KindContractInvalid (strings.Join errMsg "; ") none))

end common

namespace dtos

/-- The type of the struct `UpdateInterval` of `dtos/interval.go`, with the display labels of
its fields. -/
def UpdateIntervalType : reflect.StructType :=
  { Name := "UpdateInterval",
    Fields := [
      { Name := "Id", validate_name := "间隔ID" },
      { Name := "Name", validate_name := "间隔名称" },
      { Name := "Start", validate_name := "开始时间" },
      { Name := "End", validate_name := "结束时间" },
      { Name := "Interval", validate_name := "间隔" }] }

end dtos

/-! ## `dtos/interval.go`: the interval and its model -/

set_option linter.dupNamespace false

namespace models

/-- Modelled from the spec: the time stamps `DBTimestamp` of the package `models`, whose
declaration is not among the sources; it has the fields of `dtos.DBTimestamp`, to and from
which the conversions of the sources convert it. -/
structure DBTimestamp where
  /-- The creation time. -/
  Created : Int
  /-- The modification time. -/
  Modified : Int
  deriving DecidableEq, Repr

/-- Modelled from the spec: the model `Interval` of the package `models`, whose declaration is
not among the sources; the fields are those `ToIntervalModel` and `FromIntervalModelToDTO`
write and read. -/
structure Interval where
  /-- The embedded time stamps. -/
  DBTimestamp : DBTimestamp
  /-- The identifier. -/
  Id : String
  /-- The name. -/
  Name : String
  /-- The start time. -/
  Start : String
  /-- The end time. -/
  End : String
  /-- The interval, a duration text. -/
  Interval : String
  deriving DecidableEq, Repr

end models

namespace dtos

/-- The conversion `models.DBTimestamp(t)` of the time stamps of a DTO. -/
def DBTimestamp.toModel (t : DBTimestamp) : models.DBTimestamp :=
  { Created := t.Created, Modified := t.Modified }

/-- The conversion `DBTimestamp(t)` of the time stamps of a model. -/
def DBTimestamp.ofModel (t : models.DBTimestamp) : DBTimestamp :=
  { Created := t.Created, Modified := t.Modified }

/-- The struct `Interval` of `dtos/interval.go`. -/
structure Interval where
  /-- The embedded time stamps. -/
  DBTimestamp : DBTimestamp
  /-- The identifier. -/
  Id : String
  /-- The name. -/
  Name : String
  /-- The start time. -/
  Start : String
  /-- The end time. -/
  End : String
  /-- The interval, a duration text. -/
  Interval : String
  deriving DecidableEq, Repr

/-- The function `ToIntervalModel` of `dtos/interval.go`: `var model models.Interval` is the
zero model, and five of its fields are assigned. -/
def ToIntervalModel (dto : Interval) : models.Interval :=
  let model : models.Interval :=
    { DBTimestamp := { Created := 0, Modified := 0 },
      Id := "", Name := "", Start := "", End := "", Interval := "" }
  let model := { model with Id := dto.Id }
  let model := { model with Name := dto.Name }
  let model := { model with Start := dto.Start }
  let model := { model with End := dto.End }
  let model := { model with Interval := dto.Interval }
  model

/-- The function `FromIntervalModelToDTO` of `dtos/interval.go`: `var dto Interval` is the
zero DTO, and its six fields are assigned. -/
def FromIntervalModelToDTO (model : models.Interval) : Interval :=
  let dto : Interval :=
    { DBTimestamp := { Created := 0, Modified := 0 },
      Id := "", Name := "", Start := "", End := "", Interval := "" }
  let dto := { dto with DBTimestamp := DBTimestamp.ofModel model.DBTimestamp }
  let dto := { dto with Id := model.Id }
  let dto := { dto with Name := model.Name }
  let dto := { dto with Start := model.Start }
  let dto := { dto with End := model.End }
  let dto := { dto with Interval := model.Interval }
  dto

end dtos

/-! ## `dtos/deviceprofile.go`: `DeviceProfile.Validate` -/

namespace dtos

/-- The type of the struct `DeviceProfile` of `dtos/deviceprofile.go`, with the display labels
of its fields; a field without the key `validate_name` has the empty label. -/
def DeviceProfileType : reflect.StructType :=
  { Name := "DeviceProfile",
    Fields := [
      { Name := "DBTimestamp", validate_name := "" },
      { Name := "Id", validate_name := "模型ID" },
      { Name := "Name", validate_name := "模型名称" },
      { Name := "Manufacturer", validate_name := "" },
      { Name := "Description", validate_name := "" },
      { Name := "Model", validate_name := "" },
      { Name := "Labels", validate_name := "" },
      { Name := "DeviceService", validate_name := "" },
      { Name := "DeviceResources", validate_name := "属性列表" },
      { Name := "DeviceCommands", validate_name := "命令列表" }] }

/-- The method `(dp *DeviceProfile) Validate` of `dtos/deviceprofile.go`. The receiver is a
pointer and is handed to `common.Validate` as it is; `errs` is what the validator library
reports for the profile (`val.Struct(dp)`), as in `common.Validate`. The error of
`common.Validate` is wrapped with its message as its text. -/
def DeviceProfile.Validate
    (getStructFieldOKInternal : common.Record → String → Option reflect.StructType)
    (ReadWrite_W ReadWrite_RW : String) (errs : List validator.FieldError)
    (dp : DeviceProfile) : Except String (Option errors.CommonEdgeX) :=
  match common.Validate getStructFieldOKInternal (.ptr DeviceProfileType) errs with
  | .error p => .error p
  | .ok (some err) =>
    .ok (some (errors.NewCommonEdgeX errors.KindContractInvalid "模型不合法" (some err.message)))
  | .ok none => .ok (ValidateDeviceProfileDTO ReadWrite_W ReadWrite_RW dp)

end dtos

/-! ## `dtos/reading.go`: the reading, its constructors and its model -/

namespace reflect

/-- A `[]byte`: `none` is the nil slice, `some bs` a slice that is not nil, with the bytes
`bs`. -/
abbrev Bytes := Option (List (Fin 256))

/-- The length `len(b)` of a `[]byte`; the nil slice has the length 0. -/
def Bytes.len : Bytes → Nat
  | none => 0
  | some bs => bs.length

/-- A value held by an `interface{}` field such as `ObjectValue`: the nil interface, a
boolean, a number, a string, a slice or a map of such values (nil or not), a pointer (nil, or
to such a value) or a struct. Of a struct, which is of any type of the caller other than
`time.Time`, the value keeps the name of the type and the field errors that the validator
library reports when it validates the struct by the rules of its own fields. -/
inductive Object
  | nil
  | bool (b : Bool)
  | number (x : GoFloat)
  | string (s : String)
  | nilSlice
  | slice (elems : List Object)
  | nilMap
  | map (entries : List (String × Object))
  | nilPtr
  | ptr (target : Object)
  | struct (name : String) (violations : List validator.FieldError)

end reflect

namespace models

/-- Modelled from the spec: the struct `BaseReading` of the package `models`, whose declaration
is not among the sources; the fields are those `ToReadingModel` writes. -/
structure BaseReading where
  /-- The identifier. -/
  Id : String
  /-- The time of origin, in nanoseconds. -/
  Origin : Int
  /-- The name of the device. -/
  DeviceName : String
  /-- The name of the resource. -/
  ResourceName : String
  /-- The name of the profile. -/
  ProfileName : String
  /-- The name of the value type. -/
  ValueType : String
  deriving DecidableEq, Repr

/-- Modelled from the spec: the interface `Reading` of the package `models`, whose declaration
is not among the sources, with the three implementations the type switch of
`FromReadingModelToDTO` names; `other` is the nil interface or a value of any other type. -/
inductive Reading
  | BinaryReading (BaseReading : BaseReading) (BinaryValue : reflect.Bytes)
      (MediaType : String)
  | ObjectReading (BaseReading : BaseReading) (ObjectValue : reflect.Object)
  | SimpleReading (BaseReading : BaseReading) (Value : String)
  | other

end models

namespace dtos

open reflect

/-- The struct `SimpleReading` of `dtos/reading.go`. -/
structure SimpleReading where
  /-- The text of the value. -/
  Value : String

/-- The struct `BinaryReading` of `dtos/reading.go`. -/
structure BinaryReading where
  /-- The bytes of the value. -/
  BinaryValue : Bytes
  /-- The media type of the bytes. -/
  MediaType : String

/-- The struct `ObjectReading` of `dtos/reading.go`. -/
structure ObjectReading where
  /-- The object, an `interface{}`. -/
  ObjectValue : Object

/-- The struct `BaseReading` of `dtos/reading.go`, with its three embedded structs. -/
structure BaseReading where
  /-- The identifier. -/
  Id : String
  /-- The time of origin, in nanoseconds. -/
  Origin : Int
  /-- The name of the device. -/
  DeviceName : String
  /-- The name of the resource. -/
  ResourceName : String
  /-- The name of the profile. -/
  ProfileName : String
  /-- The name of the value type. -/
  ValueType : String
  /-- The embedded `BinaryReading`. -/
  BinaryReading : BinaryReading
  /-- The embedded `SimpleReading`. -/
  SimpleReading : SimpleReading
  /-- The embedded `ObjectReading`. -/
  ObjectReading : ObjectReading

/-- The zero value `BaseReading{}`. -/
def BaseReading.zero : BaseReading :=
  { Id := "", Origin := 0, DeviceName := "", ResourceName := "", ProfileName := "",
    ValueType := "",
    BinaryReading := { BinaryValue := none, MediaType := "" },
    SimpleReading := { Value := "" },
    ObjectReading := { ObjectValue := .nil } }

/-- The function `newBaseReading` of `dtos/reading.go`; `id` is the result of
`uuid.NewString()` and `origin` that of `time.Now().UnixNano()`. -/
def newBaseReading (id : String) (origin : Int)
    (profileName deviceName resourceName valueType : String) : BaseReading :=
  { BaseReading.zero with
    Id := id,
    Origin := origin,
    DeviceName := deviceName,
    ResourceName := resourceName,
    ProfileName := profileName,
    ValueType := valueType }

/-- The function `NewSimpleReading` of `dtos/reading.go`; `id` and `origin` are the results of
`uuid.NewString()` and `time.Now().UnixNano()` in `newBaseReading`. The result is the pair of
the reading and the error, under a possible panic. -/
def NewSimpleReading (id : String) (origin : Int)
    (profileName deviceName resourceName valueType : String) (value : Value) :
    Except String (BaseReading × Option String) :=
  match convertInterfaceValue valueType value with
  | .error p => .error p
  | .ok (_, some err) => .ok (BaseReading.zero, some err)
  | .ok (stringValue, none) =>
    let reading := newBaseReading id origin profileName deviceName resourceName valueType
    let reading := { reading with SimpleReading := { Value := stringValue } }
    .ok (reading, none)

/-- The function `NewBinaryReading` of `dtos/reading.go`. -/
def NewBinaryReading (id : String) (origin : Int)
    (profileName deviceName resourceName : String) (binaryValue : Bytes)
    (mediaType : String) : BaseReading :=
  let reading :=
    newBaseReading id origin profileName deviceName resourceName common.ValueTypeBinary
  let reading :=
    { reading with BinaryReading := { BinaryValue := binaryValue, MediaType := mediaType } }
  reading

/-- The function `NewObjectReading` of `dtos/reading.go`. -/
def NewObjectReading (id : String) (origin : Int)
    (profileName deviceName resourceName : String) (objectValue : Object) : BaseReading :=
  let reading :=
    newBaseReading id origin profileName deviceName resourceName common.ValueTypeObject
  let reading := { reading with ObjectReading := { ObjectValue := objectValue } }
  reading

/-- The function `ToReadingModel` of `dtos/reading.go`. -/
def ToReadingModel (r : BaseReading) : models.Reading :=
  let br : models.BaseReading :=
    { Id := r.Id,
      Origin := r.Origin,
      DeviceName := r.DeviceName,
      ResourceName := r.ResourceName,
      ProfileName := r.ProfileName,
      ValueType := r.ValueType }
  if r.ValueType = common.ValueTypeBinary then
    .BinaryReading br r.BinaryReading.BinaryValue r.BinaryReading.MediaType
  else if r.ValueType = common.ValueTypeObject then
    .ObjectReading br r.ObjectReading.ObjectValue
  else
    .SimpleReading br r.SimpleReading.Value

/-- The function `FromReadingModelToDTO` of `dtos/reading.go`: the type switch has no
`default`, so any other reading gives the zero `BaseReading`. -/
def FromReadingModelToDTO (reading : models.Reading) : BaseReading :=
  match reading with
  | .BinaryReading r binaryValue mediaType =>
    { BaseReading.zero with
      Id := r.Id,
      Origin := r.Origin,
      DeviceName := r.DeviceName,
      ResourceName := r.ResourceName,
      ProfileName := r.ProfileName,
      ValueType := r.ValueType,
      BinaryReading := { BinaryValue := binaryValue, MediaType := mediaType } }
  | .ObjectReading r objectValue =>
    { BaseReading.zero with
      Id := r.Id,
      Origin := r.Origin,
      DeviceName := r.DeviceName,
      ResourceName := r.ResourceName,
      ProfileName := r.ProfileName,
      ValueType := r.ValueType,
      ObjectReading := { ObjectValue := objectValue } }
  | .SimpleReading r value =>
    { BaseReading.zero with
      Id := r.Id,
      Origin := r.Origin,
      DeviceName := r.DeviceName,
      ResourceName := r.ResourceName,
      ProfileName := r.ProfileName,
      ValueType := r.ValueType,
      SimpleReading := { Value := value } }
  | .other => BaseReading.zero

end dtos

/-! ## The validator library on the payload of a reading -/

namespace validator

open reflect

/-- The rule `required` of the validator library (its function `hasValue`) on a field of type
`string`: the field differs from the zero value of its type. -/
def hasValueString (s : String) : Bool := decide (s ≠ "")

/-- The rule `required` of the validator library (its function `hasValue`) on a field of a
slice type: the slice is not nil. -/
def hasValueBytes (b : Bytes) : Bool := b.isSome

/-- The rule `gt=param` of the validator library (its function `isGt`) on a field of a slice
type: the length of the slice is greater than the parameter. -/
def isGtBytes (b : Bytes) (param : Nat) : Bool := decide (param < b.len)

/-- The function `extractTypeInternal` of the validator library on the value an interface
field holds: pointers are followed until a nil pointer or a value that is not a pointer is
reached. -/
def extractTypeInternal : Object → Object
  | .ptr target => extractTypeInternal target
  | o => o

/-- The rule `required` of the validator library (its function `hasValue`) on the value
reached from an interface field: a nil interface, pointer, slice or map has no value; any
other value was reached through the interface and has one, whatever it is. -/
def hasValueObject : Object → Bool
  | .nil => false
  | .nilPtr => false
  | .nilSlice => false
  | .nilMap => false
  | _ => true

/-- The call `val.Struct(a)` of the validator library on a `BinaryReading`, by the tags of
its fields: `gt=0,required` on `BinaryValue` and `required` on `MediaType`; the first rule a
field violates is the one reported for it, and the fields are visited in their order. -/
def StructBinaryReading (a : dtos.BinaryReading) : List FieldError :=
  (if ¬ isGtBytes a.BinaryValue 0 then [⟨"BinaryReading.BinaryValue", "BinaryValue", "gt", "0"⟩]
    else if ¬ hasValueBytes a.BinaryValue then
      [⟨"BinaryReading.BinaryValue", "BinaryValue", "required", ""⟩]
    else []) ++
  (if ¬ hasValueString a.MediaType then [⟨"BinaryReading.MediaType", "MediaType", "required", ""⟩]
    else [])

/-- The call `val.Struct(a)` of the validator library on a `SimpleReading`, by the tag of its
field: `required` on `Value`. -/
def StructSimpleReading (a : dtos.SimpleReading) : List FieldError :=
  if ¬ hasValueString a.Value then [⟨"SimpleReading.Value", "Value", "required", ""⟩] else []

/-- The call `val.Struct(a)` of the validator library on an `ObjectReading`, by the tag of its
field: `required` on `ObjectValue`. The library follows the interface and the pointers to the
value held; when that is a struct it sets the rule of the field aside and validates the
struct by the rules of its own fields, and otherwise it applies `required` to the value. -/
def StructObjectReading (a : dtos.ObjectReading) : List FieldError :=
  match extractTypeInternal a.ObjectValue with
  | .struct _ violations => violations
  | v =>
    if ¬ hasValueObject v then [⟨"ObjectReading.ObjectValue", "ObjectValue", "required", ""⟩]
    else []

end validator

namespace dtos

/-- The type of the struct `BinaryReading` of `dtos/reading.go`, with the display labels of
its fields. -/
def BinaryReadingType : reflect.StructType :=
  { Name := "BinaryReading",
    Fields := [
      { Name := "BinaryValue", validate_name := "二进制数值" },
      { Name := "MediaType", validate_name := "媒体类型" }] }

/-- The type of the struct `SimpleReading` of `dtos/reading.go`, with the display label of
its field. -/
def SimpleReadingType : reflect.StructType :=
  { Name := "SimpleReading",
    Fields := [{ Name := "Value", validate_name := "数值" }] }

/-- The type of the struct `ObjectReading` of `dtos/reading.go`, with the display label of
its field. -/
def ObjectReadingType : reflect.StructType :=
  { Name := "ObjectReading",
    Fields := [{ Name := "ObjectValue", validate_name := "对象数值" }] }

/-- The method `(b BaseReading) Validate` of `dtos/reading.go`: the embedded struct that the
value type selects is handed to `common.Validate`, by value. -/
def BaseReading.Validate
    (getStructFieldOKInternal : common.Record → String → Option reflect.StructType)
    (b : BaseReading) : Except String (Option errors.CommonEdgeX) :=
  if b.ValueType = common.ValueTypeBinary then
    let binaryReading := b.BinaryReading
    match common.Validate getStructFieldOKInternal (.struct BinaryReadingType)
        (validator.StructBinaryReading binaryReading) with
    | .error p => .error p
    | .ok (some err) => .ok (some err)
    | .ok none => .ok none
  else if b.ValueType = common.ValueTypeObject then
    let objectReading := b.ObjectReading
    match common.Validate getStructFieldOKInternal (.struct ObjectReadingType)
        (validator.StructObjectReading objectReading) with
    | .error p => .error p
    | .ok (some err) => .ok (some err)
    | .ok none => .ok none
  else
    let simpleReading := b.SimpleReading
    match common.Validate getStructFieldOKInternal (.struct SimpleReadingType)
        (validator.StructSimpleReading simpleReading) with
    | .error p => .error p
    | .ok (some err) => .ok (some err)
    | .ok none => .ok none

end dtos

/-! ## What an object holds -/

namespace reflect

/-- The value an object leads to: the object itself, or the value at the end of its
pointers. -/
def Object.target : Object → Object
  | .ptr t => t.target
  | o => o

/-- Whether an object is nil: the nil interface, a nil pointer, a nil slice or a nil map. -/
def Object.IsNil : Object → Bool
  | .nil => true
  | .nilPtr => true
  | .nilSlice => true
  | .nilMap => true
  | _ => false

/-- The violations of the rules of its own fields that a struct carries; a value that is not
a struct has none. -/
def Object.violations : Object → List validator.FieldError
  | .struct _ violations => violations
  | _ => []

end reflect

/-! ## Properties of the codec -/

namespace dtos

open reflect

/-- The `switch` of `convertInterfaceValue` at the name of a scalar kind. -/
theorem convertInterfaceValue_scalar (K : ScalarKind) (value : Value) :
    convertInterfaceValue K.name value =
      if K.isFloat then convertFloatValue K.name K.goType.Kind value
      else convertSimpleValue K.name K.goType.Kind value := by
  cases K <;> rfl

/-- The `switch` of `convertInterfaceValue` at the name of a non-float array kind. -/
theorem convertInterfaceValue_array (K : ScalarKind) (hK : K.isFloat = false) (value : Value) :
    convertInterfaceValue K.arrayName value =
      convertSimpleArrayValue K.arrayName K.goType.Kind value := by
  cases K <;> first | rfl | simp [ScalarKind.isFloat] at hK

/-- The kind of a scalar kind's representation is not `Slice`. -/
theorem ScalarKind.kind_ne_slice (K : ScalarKind) : K.goType.Kind ≠ Kind.Slice := by
  cases K <;> decide

/-- The shape check on a value that is not a slice and whose kind differs from `kind`. -/
theorem validateType_mismatch (valueType : String) (kind : Kind) (value : Value) (t : GoType)
    (ht : TypeOf value = some t) (hs : t.Kind ≠ Kind.Slice) (hk : t.Kind ≠ kind) :
    validateType valueType kind value =
      .ok (some ("`" ++ Kind_String kind ++ "` 不匹配数据类型 '" ++ valueType)) := by
  have hk2 : kind ≠ t.Kind := fun h => hk h.symm
  simp [validateType, ht, hs, hk2]

/-- The shape check on a slice whose element type has the kind `kind`. -/
theorem validateType_slice (valueType : String) (kind : Kind) (elem : GoType)
    (xs : List Value) (hk : elem.Kind = kind) :
    validateType valueType kind (.slice elem xs) = .ok none := by
  have hslice : (GoType.slice elem).Kind = Kind.Slice := rfl
  subst hk
  simp [validateType, TypeOf, GoType.Elem, hslice]

/-- The shape check on a value that is not a slice and has the kind `kind`. -/
theorem validateType_match (valueType : String) (kind : Kind) (value : Value) (t : GoType)
    (ht : TypeOf value = some t) (hs : t.Kind ≠ Kind.Slice) (hk : t.Kind = kind) :
    validateType valueType kind value = .ok none := by
  subst hk
  simp [validateType, ht, hs]

/-- C1. Representation mismatch is rejected: for every scalar kind `K` and every value that is
not a slice and whose kind differs from the kind of `K`'s representation,
`convertInterfaceValue` returns the empty string and an error; and `Int32` rejects every
`int64` value, whatever the number. -/
theorem C1_representation_mismatch_rejected :
    (∀ (K : ScalarKind) (value : Value) (t : GoType),
        TypeOf value = some t → t.Kind ≠ Kind.Slice → t.Kind ≠ K.goType.Kind →
        ∃ msg, convertInterfaceValue K.name value = .ok ("", some msg)) ∧
    (∀ v : Int, convertInterfaceValue common.ValueTypeInt32 (.integer .int64 v) =
        .ok ("", some "`int32` 不匹配数据类型 'Int32")) := by
  refine ⟨?_, ?_⟩
  · intro K value t ht hs hk
    rw [convertInterfaceValue_scalar]
    have h := validateType_mismatch K.name K.goType.Kind value t ht hs hk
    cases hf : K.isFloat
    · simp only [Bool.false_eq_true, if_false, convertSimpleValue, h]
      exact ⟨_, rfl⟩
    · simp only [if_true, convertFloatValue, h]
      exact ⟨_, rfl⟩
  · intro v
    rfl

/-- C1, at an instance: the `int64` value 7, which is not a slice and not of kind `Int32`, is
rejected under `Int32`; the `int32` value 7 is rejected under `Float64`. -/
theorem C1_representation_mismatch_rejected_witness :
    (TypeOf (.integer .int64 7) = some (.integer .int64) ∧
      (GoType.integer .int64).Kind ≠ Kind.Slice ∧
      (GoType.integer .int64).Kind ≠ ScalarKind.int32.goType.Kind) ∧
    (∃ msg, convertInterfaceValue ScalarKind.int32.name (.integer .int64 7) =
        .ok ("", some msg)) ∧
    (∃ msg, convertInterfaceValue ScalarKind.float64.name (.integer .int32 7) =
        .ok ("", some msg)) :=
  ⟨⟨rfl, by decide, by decide⟩,
    C1_representation_mismatch_rejected.1 .int32 (.integer .int64 7) (.integer .int64) rfl
      (by decide) (by decide),
    C1_representation_mismatch_rejected.1 .float64 (.integer .int32 7) (.integer .int32) rfl
      (by decide) (by decide)⟩

/-- C2. A scalar kind does not reject a slice whose element type is the kind's representation:
`validateType` looks only at the element kind of a slice, so `convertInterfaceValue` returns
the `%v` text of the slice (for a float kind the `%g` text) and no error; the `[]int32` with
1 and 2 under `Int32` gives "[1 2]", and the `[]float32` with 1.5 and 2 under `Float32`
gives "[1.5 2]". -/
theorem C2_scalar_kind_accepts_matching_slice :
    (∀ (K : ScalarKind) (xs : List Value),
        convertInterfaceValue K.name (.slice K.goType xs) =
          .ok (fmt.Sprintf (if K.isFloat then .g else .v) (.slice K.goType xs), none)) ∧
    convertInterfaceValue common.ValueTypeInt32
        (.slice (.integer .int32) [.integer .int32 1, .integer .int32 2]) =
      .ok ("[1 2]", none) ∧
    convertInterfaceValue common.ValueTypeFloat32
        (.slice (.float .float32)
          [.float .float32 (.finite false 3 (-1)), .float .float32 (.finite false 1 1)]) =
      .ok ("[1.5 2]", none) := by
  refine ⟨?_, by decide, by decide⟩
  intro K xs
  rw [convertInterfaceValue_scalar]
  have h := validateType_slice K.name K.goType.Kind K.goType xs rfl
  cases hf : K.isFloat
  · simp only [Bool.false_eq_true, if_false, convertSimpleValue, h]
  · simp only [if_true, convertFloatValue, h]

/-- C4. Unsupported kinds are rejected: for every value-type name that is not the name of one
of the twelve scalar kinds or of their array variants and for every value (the nil interface
included), `convertInterfaceValue` returns the empty string and the error of the `default`
case; `Binary` and `Object` are such names. -/
theorem C4_unsupported_kind_rejected (valueType : String) (value : Value)
    (h : ∀ K : ScalarKind, valueType ≠ K.name ∧ valueType ≠ K.arrayName) :
    convertInterfaceValue valueType value =
      .ok ("", some ("数据类型 " ++ valueType ++ " 不合法")) := by
  unfold convertInterfaceValue
  rw [if_neg (show valueType ≠ common.ValueTypeBool from (h .bool).1),
    if_neg (show valueType ≠ common.ValueTypeString from (h .string).1),
    if_neg (show valueType ≠ common.ValueTypeUint8 from (h .uint8).1),
    if_neg (show valueType ≠ common.ValueTypeUint16 from (h .uint16).1),
    if_neg (show valueType ≠ common.ValueTypeUint32 from (h .uint32).1),
    if_neg (show valueType ≠ common.ValueTypeUint64 from (h .uint64).1),
    if_neg (show valueType ≠ common.ValueTypeInt8 from (h .int8).1),
    if_neg (show valueType ≠ common.ValueTypeInt16 from (h .int16).1),
    if_neg (show valueType ≠ common.ValueTypeInt32 from (h .int32).1),
    if_neg (show valueType ≠ common.ValueTypeInt64 from (h .int64).1),
    if_neg (show valueType ≠ common.ValueTypeFloat32 from (h .float32).1),
    if_neg (show valueType ≠ common.ValueTypeFloat64 from (h .float64).1),
    if_neg (show valueType ≠ common.ValueTypeBoolArray from (h .bool).2),
    if_neg (show valueType ≠ common.ValueTypeStringArray from (h .string).2),
    if_neg (show valueType ≠ common.ValueTypeUint8Array from (h .uint8).2),
    if_neg (show valueType ≠ common.ValueTypeUint16Array from (h .uint16).2),
    if_neg (show valueType ≠ common.ValueTypeUint32Array from (h .uint32).2),
    if_neg (show valueType ≠ common.ValueTypeUint64Array from (h .uint64).2),
    if_neg (show valueType ≠ common.ValueTypeInt8Array from (h .int8).2),
    if_neg (show valueType ≠ common.ValueTypeInt16Array from (h .int16).2),
    if_neg (show valueType ≠ common.ValueTypeInt32Array from (h .int32).2),
    if_neg (show valueType ≠ common.ValueTypeInt64Array from (h .int64).2),
    if_neg (show valueType ≠ common.ValueTypeFloat32Array from (h .float32).2),
    if_neg (show valueType ≠ common.ValueTypeFloat64Array from (h .float64).2)]

/-- C4, at `Binary` and `Object`: neither is the name of a scalar or array kind, and both are
rejected for the nil interface and for a string. -/
theorem C4_unsupported_kind_rejected_witness :
    (∀ K : ScalarKind, common.ValueTypeBinary ≠ K.name ∧ common.ValueTypeBinary ≠ K.arrayName) ∧
    (∀ K : ScalarKind, common.ValueTypeObject ≠ K.name ∧ common.ValueTypeObject ≠ K.arrayName) ∧
    convertInterfaceValue common.ValueTypeBinary .nil =
      .ok ("", some "数据类型 Binary 不合法") ∧
    convertInterfaceValue common.ValueTypeObject (.string "x") =
      .ok ("", some "数据类型 Object 不合法") :=
  ⟨fun K => by cases K <;> decide, fun K => by cases K <;> decide,
    C4_unsupported_kind_rejected common.ValueTypeBinary .nil (fun K => by cases K <;> decide),
    C4_unsupported_kind_rejected common.ValueTypeObject (.string "x")
      (fun K => by cases K <;> decide)⟩

/-- C9. Natural textual form of strings and booleans: for every string `s`,
`convertInterfaceValue` under `String` succeeds and returns exactly `s`; under `Bool`, `true`
gives "true" and `false` gives "false". -/
theorem C9_string_and_bool_natural_form :
    (∀ s : String, convertInterfaceValue common.ValueTypeString (.string s) = .ok (s, none)) ∧
    convertInterfaceValue common.ValueTypeBool (.bool true) = .ok ("true", none) ∧
    convertInterfaceValue common.ValueTypeBool (.bool false) = .ok ("false", none) := by
  refine ⟨fun s => rfl, rfl, rfl⟩

end dtos

/-! ## The array form: texts without spaces, and the replacement of spaces -/

namespace strconv

/-- A decimal digit is not a space. -/
theorem digitChar_ne_space (d : Nat) (hd : d < 10) : digitChar d ≠ ' ' := by
  interval_cases d <;> decide

/-- Every character `digitsAux` writes is a decimal digit. -/
theorem mem_digitsAux (fuel n : Nat) (acc : List Char) (c : Char)
    (hc : c ∈ digitsAux fuel n acc) : c ∈ acc ∨ ∃ d, d < 10 ∧ c = digitChar d := by
  induction fuel generalizing n acc with
  | zero => exact Or.inl (by simpa [digitsAux] using hc)
  | succ fuel ih =>
    unfold digitsAux at hc
    split at hc
    · rename_i hlt
      rcases List.mem_cons.1 hc with h | h
      · exact Or.inr ⟨n, hlt, h⟩
      · exact Or.inl h
    · rcases ih _ _ hc with h | h
      · rcases List.mem_cons.1 h with h | h
        · exact Or.inr ⟨n % 10, Nat.mod_lt _ (by decide), h⟩
        · exact Or.inl h
      · exact Or.inr h

/-- The base-10 text of an integer has no space. -/
theorem FormatInt_no_space (v : Int) : ∀ c ∈ (FormatInt v).data, c ≠ ' ' := by
  intro c hc
  have hdig : ∀ c ∈ decimalDigits v.natAbs, c ≠ ' ' := by
    intro c hc
    rcases mem_digitsAux _ _ _ _ hc with h | ⟨d, hd, rfl⟩
    · simp at h
    · exact digitChar_ne_space d hd
  unfold FormatInt at hc
  split at hc
  · rcases List.mem_cons.1 hc with h | h
    · rw [h]; decide
    · exact hdig c h
  · exact hdig c hc

end strconv

namespace strings

/-- Replacing spaces leaves a space-free prefix as it is. -/
theorem replaceFrom_space_append (new l1 l2 : List Char) (h : ∀ c ∈ l1, c ≠ ' ') :
    replaceFrom [' '] new 0 (l1 ++ l2) = l1 ++ replaceFrom [' '] new 0 l2 := by
  induction l1 with
  | nil => rfl
  | cons c cs ih =>
    have hc : c ≠ ' ' := h c (List.mem_cons_self _ _)
    have hc2 : ¬ (' ' = c) := fun e => hc e.symm
    have := ih (fun x hx => h x (List.mem_cons_of_mem _ hx))
    simp [replaceFrom, List.isPrefixOf, hc2, this]

/-- Replacing spaces writes the new text for a leading space. -/
theorem replaceFrom_space_cons (new l : List Char) :
    replaceFrom [' '] new 0 (' ' :: l) = new ++ replaceFrom [' '] new 0 l := by
  simp [replaceFrom, List.isPrefixOf]

/-- Replacing the spaces of space-free parts joined by a space joins the parts by the new text. -/
theorem replaceFrom_Join (new : List Char) (parts : List String)
    (h : ∀ p ∈ parts, ∀ c ∈ p.data, c ≠ ' ') (tail : List Char) :
    replaceFrom [' '] new 0 ((Join parts " ").data ++ tail) =
      (Join parts (String.mk new)).data ++ replaceFrom [' '] new 0 tail := by
  induction parts with
  | nil => simp [Join]
  | cons a rest ih =>
    cases rest with
    | nil =>
      simp only [Join]
      exact replaceFrom_space_append new a.data tail (h a (List.mem_cons_self _ _))
    | cons b rest =>
      have ih' := ih (fun p hp => h p (List.mem_cons_of_mem _ hp))
      simp only [Join, String.data_append, List.append_assoc]
      rw [replaceFrom_space_append new a.data _ (h a (List.mem_cons_self _ _))]
      show a.data ++ replaceFrom [' '] new 0 (' ' :: ((Join (b :: rest) " ").data ++ tail)) = _
      rw [replaceFrom_space_cons, ih']

/-- `ReplaceAll` of " " by ", " on a bracketed list of space-free parts. -/
theorem ReplaceAll_bracketed (parts : List String)
    (h : ∀ p ∈ parts, ∀ c ∈ p.data, c ≠ ' ') :
    ReplaceAll ("[" ++ Join parts " " ++ "]") " " ", " = "[" ++ Join parts ", " ++ "]" := by
  apply String.ext
  have h1 : (" " : String).data = [' '] := rfl
  have h2 : ("[" : String).data = ['['] := rfl
  have h3 : ("]" : String).data = [']'] := rfl
  have h4 : (", " : String) = String.mk [',', ' '] := rfl
  simp only [ReplaceAll, h1, String.data_append, h2, h3]
  rw [if_neg (by simp)]
  show replaceFrom [' '] (", " : String).data 0 (['['] ++ ((Join parts " ").data ++ [']'])) = _
  rw [replaceFrom_space_append _ ['['] _ (by simp), replaceFrom_Join _ _ h, h4]
  simp [replaceFrom, List.isPrefixOf]

/-- `ReplaceAll` of " " leaves a text without a space as it is. -/
theorem ReplaceAll_no_space (t new : String) (h : ∀ c ∈ t.data, c ≠ ' ') :
    ReplaceAll t " " new = t := by
  apply String.ext
  have h1 : (" " : String).data = [' '] := rfl
  simp only [ReplaceAll, h1]
  rw [if_neg (by simp)]
  have := replaceFrom_space_append new.data t.data [] h
  simpa [replaceFrom] using this

end strings

namespace fmt

open reflect

/-- The elements of a slice under `%v` are their texts joined by a space. -/
theorem printVs_eq_Join (xs : List Value) :
    printVs xs = strings.Join (xs.map printV) " " := by
  induction xs with
  | nil => simp [printVs, strings.Join]
  | cons a rest ih =>
    cases rest with
    | nil => simp [printVs, strings.Join]
    | cons b rest => simp only [printVs, List.map, strings.Join, ih]

end fmt

namespace dtos

open reflect

/-- A non-float scalar kind encodes a value of its representation as its `%v` text. -/
theorem element_encoding (K : ScalarKind) (hK : K.isFloat = false) (x : Value)
    (hx : TypeOf x = some K.goType) :
    convertInterfaceValue K.name x = .ok (fmt.printV x, none) := by
  rw [convertInterfaceValue_scalar]
  simp only [hK, Bool.false_eq_true, if_false, convertSimpleValue,
    validateType_match K.name K.goType.Kind x K.goType hx K.kind_ne_slice rfl, fmt.Sprintf]

/-- The `%v` text of a boolean or an integer has no space. -/
theorem element_no_space (K : ScalarKind) (hK : K.isFloat = false ∧ K.isString = false)
    (x : Value) (hx : TypeOf x = some K.goType) : ∀ c ∈ (fmt.printV x).data, c ≠ ' ' := by
  cases x with
  | nil => simp [TypeOf] at hx
  | bool b =>
    cases b <;> simp [fmt.printV]
  | string s =>
    cases K <;> simp [TypeOf, ScalarKind.goType, ScalarKind.isString] at hx hK
  | integer t v =>
    simp only [fmt.printV]
    exact strconv.FormatInt_no_space v
  | float t y =>
    cases K <;> simp [TypeOf, ScalarKind.goType, ScalarKind.isFloat] at hx hK
  | slice e ys =>
    cases K <;> simp [TypeOf, ScalarKind.goType] at hx

/-- C3. A non-float array kind does not reject a single value of its element representation:
under `Int32Array` every `int32` value gives its base-10 text and under `BoolArray` a boolean
gives `true` or `false`, each without error (the `int32` value 5 gives "5"); the string "a b"
under `StringArray` gives "a, b"; the two float array kinds, which assert the slice type, do
reject a single float. -/
theorem C3_array_kind_accepts_matching_scalar :
    (∀ v : Int, convertInterfaceValue common.ValueTypeInt32Array (.integer .int32 v) =
      .ok (strconv.FormatInt v, none)) ∧
    (∀ b : Bool, convertInterfaceValue common.ValueTypeBoolArray (.bool b) =
      .ok (if b then "true" else "false", none)) ∧
    convertInterfaceValue common.ValueTypeInt32Array (.integer .int32 5) = .ok ("5", none) ∧
    convertInterfaceValue common.ValueTypeStringArray (.string "a b") = .ok ("a, b", none) ∧
    convertInterfaceValue common.ValueTypeFloat32Array (.float .float32 (.finite false 3 (-1))) =
      .ok ("", some "转换数据 Float32Array 为 []float32 失败") ∧
    convertInterfaceValue common.ValueTypeFloat64Array (.float .float64 (.finite false 3 (-1))) =
      .ok ("", some "转换数据 Float64Array 为 []float64 失败") := by
  refine ⟨?_, ?_, by decide, by decide, by decide, by decide⟩
  · intro v
    show Except.ok (strings.ReplaceAll (strconv.FormatInt v) " " ", ", none) = _
    rw [strings.ReplaceAll_no_space _ _ (strconv.FormatInt_no_space v)]
  · intro b
    cases b <;> decide

/-- C5. Bracketed array form for integer and boolean arrays: for every integer or boolean
kind `K` and every slice `xs` of `K`'s representation, `convertInterfaceValue` under the array
variant of `K` returns "[" ++ the encodings of the elements under `K`, in input order, joined
by ", " ++ "]"; for the slice without elements this is "[]". -/
theorem C5_bracketed_integer_and_bool_arrays (K : ScalarKind)
    (hK : K.isFloat = false ∧ K.isString = false) (xs : List Value)
    (hxs : ∀ x ∈ xs, TypeOf x = some K.goType) :
    (∃ encs : List String,
      List.Forall₂ (fun x e => convertInterfaceValue K.name x = .ok (e, none)) xs encs ∧
      convertInterfaceValue K.arrayName (.slice K.goType xs) =
        .ok ("[" ++ strings.Join encs ", " ++ "]", none)) ∧
    convertInterfaceValue K.arrayName (.slice K.goType []) = .ok ("[]", none) := by
  have harr : ∀ ys : List Value, (∀ y ∈ ys, TypeOf y = some K.goType) →
      convertInterfaceValue K.arrayName (.slice K.goType ys) =
        .ok ("[" ++ strings.Join (ys.map fmt.printV) ", " ++ "]", none) := by
    intro ys hys
    rw [convertInterfaceValue_array K hK.1]
    simp only [convertSimpleArrayValue, validateType_slice K.arrayName K.goType.Kind K.goType ys rfl,
      fmt.Sprintf, fmt.printV, fmt.printVs_eq_Join]
    rw [strings.ReplaceAll_bracketed]
    intro p hp
    rcases List.mem_map.1 hp with ⟨y, hy, rfl⟩
    exact element_no_space K hK y (hys y hy)
  refine ⟨⟨xs.map fmt.printV, ?_, harr xs hxs⟩, ?_⟩
  · rw [List.forall₂_map_right_iff]
    exact List.forall₂_same.2 (fun x hx => element_encoding K hK.1 x (hxs x hx))
  · exact harr [] (by simp)

/-- C5, at the `[]int32` with 1, -2 and 3. -/
theorem C5_bracketed_integer_and_bool_arrays_witness :
    (ScalarKind.int32.isFloat = false ∧ ScalarKind.int32.isString = false) ∧
    (∀ x ∈ [Value.integer .int32 1, .integer .int32 (-2), .integer .int32 3],
      TypeOf x = some ScalarKind.int32.goType) ∧
    (∃ encs : List String,
      List.Forall₂ (fun x e => convertInterfaceValue common.ValueTypeInt32 x = .ok (e, none))
        [.integer .int32 1, .integer .int32 (-2), .integer .int32 3] encs ∧
      convertInterfaceValue common.ValueTypeInt32Array
          (.slice (.integer .int32) [.integer .int32 1, .integer .int32 (-2), .integer .int32 3]) =
        .ok ("[" ++ strings.Join encs ", " ++ "]", none)) ∧
    convertInterfaceValue common.ValueTypeInt32Array (.slice (.integer .int32) []) =
      .ok ("[]", none) :=
  ⟨⟨rfl, rfl⟩, by decide,
    C5_bracketed_integer_and_bool_arrays .int32 ⟨rfl, rfl⟩
      [.integer .int32 1, .integer .int32 (-2), .integer .int32 3] (by decide)⟩

/-- C6. A string array is not rendered with its elements unchanged: the spaces inside an
element are replaced as well, so the `[]string` with "a b" and "c" gives "[a, b, c]", not
"[a b, c]", and it gives the same text as the `[]string` with "a", "b" and "c". -/
theorem C6_string_array_elements_rewritten :
    convertInterfaceValue common.ValueTypeStringArray
        (.slice .string [.string "a b", .string "c"]) = .ok ("[a, b, c]", none) ∧
    convertInterfaceValue common.ValueTypeStringArray
        (.slice .string [.string "a b", .string "c"]) ≠
      .ok ("[" ++ strings.Join ["a b", "c"] ", " ++ "]", none) ∧
    convertInterfaceValue common.ValueTypeStringArray
        (.slice .string [.string "a b", .string "c"]) =
      convertInterfaceValue common.ValueTypeStringArray
        (.slice .string [.string "a", .string "b", .string "c"]) := by
  refine ⟨by decide, by decide, by decide⟩

/-- `convertFloatValue` on a float of the type whose kind is asked for. -/
theorem convertFloatValue_float (valueType : String) (ft : FloatType) (x : GoFloat) :
    convertFloatValue valueType ft.Kind (.float ft x) = .ok (fmt.fmtFloat x ft, none) := by
  have h := validateType_match valueType ft.Kind (.float ft x) (.float ft) rfl
    (by cases ft <;> decide) rfl
  simp only [convertFloatValue, h, fmt.Sprintf, fmt.printG]

/-- The loop of the float array functions once the first element has been written. -/
theorem convertFloatArrayLoop_rest (valueType : String) (ft : FloatType) (rest : List GoFloat) :
    ∀ (x : GoFloat) (result : String),
      convertFloatArrayLoop valueType ft.Kind (rest.map (Value.float ft))
          (result ++ fmt.fmtFloat x ft) false =
        .ok (result ++ strings.Join ((x :: rest).map (fun y => fmt.fmtFloat y ft)) ", " ++ "]",
          none) := by
  induction rest with
  | nil => intro x result; rfl
  | cons y rest ih =>
    intro x result
    simp only [List.map, convertFloatArrayLoop, convertFloatValue_float, Bool.false_eq_true,
      if_false]
    have e : result ++ fmt.fmtFloat x ft ++ (", " ++ fmt.fmtFloat y ft) =
        (result ++ fmt.fmtFloat x ft ++ ", ") ++ fmt.fmtFloat y ft := by
      simp only [String.append_assoc]
    rw [e, ih y]
    simp only [List.map, strings.Join, String.append_assoc]

/-- The float array functions on the elements `xs`. -/
theorem convertFloatArrayLoop_all (valueType : String) (ft : FloatType) (xs : List GoFloat) :
    convertFloatArrayLoop valueType ft.Kind (xs.map (Value.float ft)) "[" true =
      .ok ("[" ++ strings.Join (xs.map (fun y => fmt.fmtFloat y ft)) ", " ++ "]", none) := by
  cases xs with
  | nil => rfl
  | cons x rest =>
    simp only [List.map, convertFloatArrayLoop, convertFloatValue_float, if_true]
    exact convertFloatArrayLoop_rest valueType ft rest x "["

/-- C7. Float arrays share the scalar float routine: for every slice `xs` of `float32` (of
`float64`), `convertInterfaceValue` under `Float32Array` (`Float64Array`) succeeds and returns
"[" ++ the results of `convertInterfaceValue` under `Float32` (`Float64`) on the elements, in
input order, joined by ", " ++ "]"; the `[]float32` with 1.5 and 2 gives "[1.5, 2]" and a
float slice without elements gives "[]". -/
theorem C7_float_arrays_share_scalar_routine :
    (∀ (ft : FloatType) (xs : List GoFloat), ∃ encs : List String,
      List.Forall₂ (fun x e =>
        convertInterfaceValue (ScalarKind.ofFloat ft).name (.float ft x) = .ok (e, none))
        xs encs ∧
      convertInterfaceValue (ScalarKind.ofFloat ft).arrayName
          (.slice (.float ft) (xs.map (Value.float ft))) =
        .ok ("[" ++ strings.Join encs ", " ++ "]", none)) ∧
    convertInterfaceValue common.ValueTypeFloat32Array
        (.slice (.float .float32)
          [.float .float32 (.finite false 3 (-1)), .float .float32 (.finite false 1 1)]) =
      .ok ("[1.5, 2]", none) ∧
    convertInterfaceValue common.ValueTypeFloat32Array (.slice (.float .float32) []) =
      .ok ("[]", none) ∧
    convertInterfaceValue common.ValueTypeFloat64Array (.slice (.float .float64) []) =
      .ok ("[]", none) := by
  refine ⟨?_, by decide, by decide, by decide⟩
  intro ft xs
  refine ⟨xs.map (fun y => fmt.fmtFloat y ft), ?_, ?_⟩
  · rw [List.forall₂_map_right_iff]
    refine List.forall₂_same.2 (fun x _ => ?_)
    cases ft
    · exact convertFloatValue_float common.ValueTypeFloat32 .float32 x
    · exact convertFloatValue_float common.ValueTypeFloat64 .float64 x
  · cases ft
    · exact convertFloatArrayLoop_all common.ValueTypeFloat32 .float32 xs
    · exact convertFloatArrayLoop_all common.ValueTypeFloat64 .float64 xs

end dtos

/-! ## The integer round trip -/

namespace strconv

/-- The value of the character of a decimal digit. -/
theorem digitValue_digitChar (d : Nat) (hd : d < 10) : digitValue (digitChar d) = some d := by
  interval_cases d <;> decide

/-- Reading the digits `digitsAux` writes for `n` amounts to starting from `n`. -/
theorem parseDigits_digitsAux (fuel : Nat) :
    ∀ (n : Nat) (acc : List Char), n < fuel →
      parseDigits (digitsAux fuel n acc) 0 = parseDigits acc n := by
  induction fuel with
  | zero => intro n acc h; omega
  | succ fuel ih =>
    intro n acc h
    unfold digitsAux
    split
    · rename_i hlt
      simp [parseDigits, digitValue_digitChar n hlt]
    · rename_i hge
      rw [ih (n / 10) _ (by omega)]
      simp only [parseDigits, digitValue_digitChar (n % 10) (Nat.mod_lt _ (by decide))]
      congr 1
      omega

/-- Reading the decimal digits of `n` gives `n`. -/
theorem parseDigits_decimalDigits (n : Nat) : parseDigits (decimalDigits n) 0 = some n := by
  unfold decimalDigits
  rw [parseDigits_digitsAux (n + 1) n [] (by omega)]
  rfl

/-- The decimal digits of a number: at least one, and the first is neither sign. -/
theorem decimalDigits_cons (n : Nat) :
    ∃ c cs, decimalDigits n = c :: cs ∧ c ≠ '+' ∧ c ≠ '-' := by
  have h := parseDigits_decimalDigits n
  cases hd : decimalDigits n with
  | nil =>
    have hmem : ∀ fuel m acc, digitsAux (fuel + 1) m acc ≠ [] := by
      intro fuel
      induction fuel with
      | zero => intro m acc; unfold digitsAux; split <;> simp [digitsAux]
      | succ fuel ih =>
        intro m acc
        unfold digitsAux
        split
        · simp
        · exact ih _ _
    exact absurd hd (hmem n n [])
  | cons c cs =>
    refine ⟨c, cs, rfl, ?_, ?_⟩
    · intro hc
      rw [hd, hc] at h
      simp [parseDigits, digitValue] at h
    · intro hc
      rw [hd, hc] at h
      simp [parseDigits, digitValue] at h

/-- `ParseUint` reads back the base-10 text of a number that fits. -/
theorem ParseUint_FormatUint (n bits : Nat) (h : n < 2 ^ bits) :
    ParseUint (String.mk (decimalDigits n)) bits = some n := by
  obtain ⟨c, cs, hd, -, -⟩ := decimalDigits_cons n
  have hp := parseDigits_decimalDigits n
  rw [hd] at hp
  simp only [ParseUint, hd, hp, h, if_true]

/-- `ParseInt` reads back the base-10 text of an integer of the signed range. -/
theorem ParseInt_FormatInt (v : Int) (bits : Nat) (hb : 0 < bits)
    (hlo : -(2 ^ (bits - 1) : Int) ≤ v) (hhi : v < 2 ^ (bits - 1)) :
    ParseInt (FormatInt v) bits = some v := by
  have hpow : (2 : Nat) ^ bits = 2 * 2 ^ (bits - 1) := by
    cases bits with
    | zero => omega
    | succ b => simp [pow_succ, Nat.mul_comm]
  have hcast : ((2 ^ (bits - 1) : Nat) : Int) = (2 : Int) ^ (bits - 1) := by push_cast; rfl
  by_cases hneg : v < 0
  · have hn : v.natAbs ≤ 2 ^ (bits - 1) := by omega
    have hfit : v.natAbs < 2 ^ bits := by
      have : 0 < 2 ^ (bits - 1) := Nat.pos_pow_of_pos _ (by decide)
      omega
    have hu := ParseUint_FormatUint v.natAbs bits hfit
    simp only [FormatInt, hneg, if_true, ParseInt]
    have e1 : (('-' : Char) == '+') = false := by decide
    have e2 : (('-' : Char) == '-') = true := by decide
    simp only [e1, e2, Bool.false_eq_true, false_or, if_true, hu, not_true_eq_false, false_and,
      if_false, true_and]
    rw [if_neg (by omega)]
    congr 1
    omega
  · have hn : v.natAbs < 2 ^ (bits - 1) := by omega
    have hfit : v.natAbs < 2 ^ bits := by omega
    obtain ⟨c, cs, hd, hplus, hminus⟩ := decimalDigits_cons v.natAbs
    have hu := ParseUint_FormatUint v.natAbs bits hfit
    rw [hd] at hu
    simp only [FormatInt, hneg, if_false, ParseInt, hd]
    have hc1 : (c == '+') = false := by simpa using hplus
    have hc2 : (c == '-') = false := by simpa using hminus
    simp only [hc1, hc2, Bool.false_eq_true, or_self, if_false, hu, not_false_eq_true, true_and,
      false_and]
    rw [if_neg (by omega)]
    congr 1
    omega

/-- The digits `digitsAux` writes are those of `Nat.digits 10`, most significant first. -/
theorem digitsAux_eq_digits (fuel : Nat) :
    ∀ (n : Nat) (acc : List Char), 0 < n → n < fuel →
      digitsAux fuel n acc = (Nat.digits 10 n).reverse.map digitChar ++ acc := by
  induction fuel with
  | zero => intro n acc _ h; omega
  | succ fuel ih =>
    intro n acc hpos h
    unfold digitsAux
    split
    · rename_i hlt
      rw [Nat.digits_of_lt 10 n (by omega) hlt]
      rfl
    · rename_i hge
      rw [ih (n / 10) _ (by omega) (by omega), Nat.digits_def' (by decide) hpos]
      simp

/-- The base-10 text of an integer: a minus sign for a negative number, then "0" for zero and
otherwise the digits of the absolute value in base 10, most significant first. -/
theorem FormatInt_data (v : Int) :
    (FormatInt v).data =
      (if v < 0 then ['-'] else []) ++
        (if v = 0 then ['0'] else (Nat.digits 10 v.natAbs).reverse.map digitChar) := by
  have hd : decimalDigits v.natAbs =
      (if v = 0 then ['0'] else (Nat.digits 10 v.natAbs).reverse.map digitChar) := by
    by_cases h0 : v = 0
    · subst h0; rfl
    · rw [if_neg h0]
      unfold decimalDigits
      rw [digitsAux_eq_digits _ _ _ (by omega) (by omega)]
      simp
  unfold FormatInt
  split <;> simp [hd]

end strconv

namespace dtos

open reflect

/-- Reading back the base-10 text of an integer of the type `t` gives the integer. -/
theorem parseInteger_FormatInt (t : IntType) (v : Int) (hv : t.inRange v) :
    parseInteger t (strconv.FormatInt v) = some v := by
  unfold IntType.inRange at hv
  unfold parseInteger
  cases hs : t.signed
  · rw [hs] at hv
    simp only [Bool.false_eq_true, if_false] at hv ⊢
    have hnat : v.natAbs < 2 ^ t.bits := by
      have hc : ((2 ^ t.bits : Nat) : Int) = (2 : Int) ^ t.bits := by push_cast; rfl
      omega
    have hf : strconv.FormatInt v = String.mk (strconv.decimalDigits v.natAbs) := by
      unfold strconv.FormatInt
      rw [if_neg (by omega)]
    rw [hf, strconv.ParseUint_FormatUint _ _ hnat]
    show some ((v.natAbs : Nat) : Int) = some v
    congr 1
    omega
  · rw [hs] at hv
    rw [if_pos rfl] at hv
    rw [if_pos rfl]
    exact strconv.ParseInt_FormatInt v t.bits (by cases t <;> decide) hv.1 hv.2

/-- C8. Integer round trip: for every signed or unsigned integer kind `K` of width 8, 16, 32
or 64 and every value `v` in the range of `K`'s type, `convertInterfaceValue` succeeds with
the base-10 text of `v` (a minus sign for a negative number, then the digits in base 10, most
significant first), and parsing that text as a base-10 integer of `K`'s type gives `v`. -/
theorem C8_integer_round_trip (K : ScalarKind) (t : IntType) (hK : K.intType = some t)
    (v : Int) (hv : t.inRange v) :
    convertInterfaceValue K.name (.integer t v) = .ok (strconv.FormatInt v, none) ∧
    (strconv.FormatInt v).data =
      (if v < 0 then ['-'] else []) ++
        (if v = 0 then ['0'] else (Nat.digits 10 v.natAbs).reverse.map strconv.digitChar) ∧
    parseInteger t (strconv.FormatInt v) = some v := by
  refine ⟨?_, strconv.FormatInt_data v, parseInteger_FormatInt t v hv⟩
  cases K <;> simp [ScalarKind.intType] at hK <;> subst hK <;> rfl

/-- C8, at the smallest `int8`, -128, whose text is "-128". -/
theorem C8_integer_round_trip_witness :
    ScalarKind.int8.intType = some .int8 ∧ IntType.inRange .int8 (-128) ∧
    strconv.FormatInt (-128) = "-128" ∧
    convertInterfaceValue common.ValueTypeInt8 (.integer .int8 (-128)) =
      .ok (strconv.FormatInt (-128), none) ∧
    (strconv.FormatInt (-128)).data =
      (if (-128 : Int) < 0 then ['-'] else []) ++
        (if (-128 : Int) = 0 then ['0']
          else (Nat.digits 10 (-128 : Int).natAbs).reverse.map strconv.digitChar) ∧
    parseInteger .int8 (strconv.FormatInt (-128)) = some (-128) :=
  ⟨rfl, by decide, by decide, C8_integer_round_trip .int8 .int8 rfl (-128) (by decide)⟩

end dtos

/-! ## Properties of the validation rules -/

namespace strings

/-- A string has no bytes exactly when it is the empty string. -/
theorem len_eq_zero (s : String) : len s = 0 ↔ s = "" := by
  constructor
  · intro h
    cases s with
    | mk data =>
      cases data with
      | nil => rfl
      | cons c cs =>
        have hpos := Char.utf8Size_pos c
        simp [len, String.utf8ByteSize, String.utf8ByteSize.go] at h
        omega
  · intro h
    subst h
    rfl

end strings

namespace common

/-- The rule on the `Id` of an update DTO, case by case: a nil `Id` passes; an `Id` that is
blank after trimming passes when `Name` points to a string of at least one byte; any other
`Id` passes exactly when `uuid.Parse` accepts it. -/
theorem ValidateDtoUuid_idFieldLevel (id nm : Option String) :
    ValidateDtoUuid (idFieldLevel id nm) =
      .ok (match id with
        | none => true
        | some i =>
          (decide (strings.len (strings.TrimSpace i) = 0) &&
            (match nm with
              | none => false
              | some s => decide (0 < strings.len s))) ||
          (uuid.Parse i).isSome) := by
  cases id with
  | none => rfl
  | some i =>
    cases nm with
    | none =>
      by_cases h : strings.len (strings.TrimSpace i) = 0 <;>
        simp [ValidateDtoUuid, idFieldLevel, isNilPointer, FieldValue.Kind, FieldValue.String,
          FieldByName, name, FieldValue.IsNil, FieldValue.Elem, h, bind, Except.bind, pure,
          Except.pure]
    | some s =>
      by_cases h : strings.len (strings.TrimSpace i) = 0 <;>
      by_cases h2 : 0 < strings.len s <;>
        simp [ValidateDtoUuid, idFieldLevel, isNilPointer, FieldValue.Kind, FieldValue.String,
          FieldByName, name, FieldValue.IsNil, FieldValue.Elem, h, h2, bind, Except.bind, pure,
          Except.pure]

/-- C10. Conditional UUID rule on an empty `Id`: for every update record whose `Id` is present
and is the empty string, `ValidateDtoUuid` returns, and it accepts if and only if `Name` is
present and not the empty string; `Id = ""` with `Name = "device-01"` passes and `Id = ""`
with `Name` absent fails. -/
theorem C10_uuid_rule_on_empty_id :
    (∀ nm : Option String, ∃ b : Bool,
      ValidateDtoUuid (idFieldLevel (some "") nm) = .ok b ∧
      (b = true ↔ ∃ s, nm = some s ∧ s ≠ "")) ∧
    ValidateDtoUuid (idFieldLevel (some "") (some "device-01")) = .ok true ∧
    ValidateDtoUuid (idFieldLevel (some "") none) = .ok false := by
  refine ⟨?_, by decide, by decide⟩
  intro nm
  cases nm with
  | none => exact ⟨false, rfl, by simp⟩
  | some s =>
    by_cases hs : s = ""
    · subst hs
      exact ⟨false, rfl, by simp⟩
    · refine ⟨true, ?_, by simp [hs]⟩
      have hlen : 0 < strings.len s := by
        rcases Nat.eq_zero_or_pos (strings.len s) with h | h
        · exact absurd ((strings.len_eq_zero s).1 h) hs
        · exact h
      have h0 : strings.len (strings.TrimSpace "") = 0 := rfl
      rw [ValidateDtoUuid_idFieldLevel]
      simp [h0, hlen]

end common

/-! ## Properties of the device profile validation -/

namespace dtos

/-- The loop of `deviceResourcesContains` finds a resource of that name, or keeps the flag. -/
theorem deviceResourcesContainsLoop_iff (name : String) (resources : List DeviceResource)
    (contains : Bool) :
    deviceResourcesContainsLoop name resources contains = true ↔
      contains = true ∨ ∃ r ∈ resources, r.Name = name := by
  induction resources with
  | nil => simp [deviceResourcesContainsLoop]
  | cons r rest ih =>
    unfold deviceResourcesContainsLoop
    by_cases h : r.Name = name
    · simp [h]
    · simp [h, ih]

/-- The loop of `validReadWritePermission` keeps the flag when every resource of that name is
`RW` or has the permission asked for. -/
theorem validReadWritePermissionLoop_iff (RW name readWrite : String)
    (resources : List DeviceResource) (valid : Bool) :
    validReadWritePermissionLoop RW name readWrite resources valid = true ↔
      valid = true ∧ ∀ r ∈ resources, r.Name = name →
        r.Properties.ReadWrite = RW ∨ r.Properties.ReadWrite = readWrite := by
  induction resources with
  | nil => simp [validReadWritePermissionLoop]
  | cons r rest ih =>
    unfold validReadWritePermissionLoop
    by_cases h : r.Name = name
    · by_cases h2 : r.Properties.ReadWrite ≠ RW ∧ r.Properties.ReadWrite ≠ readWrite
      · rw [if_pos h, if_pos h2]
        constructor
        · intro hf; exact absurd hf (by simp)
        · rintro ⟨-, hall⟩
          rcases hall r (List.mem_cons_self _ _) h with e | e
          · exact absurd e h2.1
          · exact absurd e h2.2
      · rw [if_pos h, if_neg h2, ih]
        have h3 : r.Properties.ReadWrite = RW ∨ r.Properties.ReadWrite = readWrite := by
          by_contra hc
          push_neg at hc
          exact h2 hc
        constructor
        · rintro ⟨hv, hall⟩
          refine ⟨hv, ?_⟩
          intro r' hr' hn
          rcases List.mem_cons.1 hr' with e | e
          · subst e; exact h3
          · exact hall r' e hn
        · rintro ⟨hv, hall⟩
          exact ⟨hv, fun r' hr' hn => hall r' (List.mem_cons_of_mem _ hr') hn⟩
    · rw [if_neg h, ih]
      constructor
      · rintro ⟨hv, hall⟩
        refine ⟨hv, ?_⟩
        intro r' hr' hn
        rcases List.mem_cons.1 hr' with e | e
        · subst e; exact absurd hn h
        · exact hall r' e hn
      · rintro ⟨hv, hall⟩
        exact ⟨hv, fun r' hr' hn => hall r' (List.mem_cons_of_mem _ hr') hn⟩

/-- The loop over the device resources passes exactly when no resource is a writable binary
and the names are distinct from each other and from the names seen before. -/
theorem validateDeviceResources_eq_none_iff (W : String) (resources : List DeviceResource) :
    ∀ dupCheck : List String,
      validateDeviceResources W resources dupCheck = none ↔
        (∀ r ∈ resources, ¬ (r.Properties.ValueType = common.ValueTypeBinary ∧
          strings.Contains r.Properties.ReadWrite W = true)) ∧
        (∀ r ∈ resources, r.Name ∉ dupCheck) ∧
        (resources.map (fun r => r.Name)).Nodup := by
  induction resources with
  | nil => intro dupCheck; simp [validateDeviceResources]
  | cons r rest ih =>
    intro dupCheck
    unfold validateDeviceResources
    by_cases h1 : r.Properties.ValueType = common.ValueTypeBinary ∧
        strings.Contains r.Properties.ReadWrite W = true
    · simp [h1]
    · by_cases h2 : r.Name ∈ dupCheck
      · simp [h1, h2]
      · rw [if_neg h1, if_neg h2, ih]
        simp only [List.mem_cons, forall_eq_or_imp, List.map_cons, List.nodup_cons, List.mem_map,
          not_or, not_exists, not_and]
        constructor
        · rintro ⟨ha, hb, hc⟩
          refine ⟨⟨fun a b => h1 ⟨a, b⟩, ha⟩, ⟨h2, fun x hx => (hb x hx).2⟩, ?_, hc⟩
          intro x hx e
          exact (hb x hx).1 e
        · rintro ⟨⟨-, ha⟩, ⟨-, hb⟩, hn, hc⟩
          exact ⟨ha, fun x hx => ⟨fun e => hn x hx e, hb x hx⟩, hc⟩

/-- The loop over the resource operations passes exactly when every operation names an
existing resource whose permission is `RW` or that of the command. -/
theorem validateResourceOperations_eq_none_iff (RW : String) (resources : List DeviceResource)
    (readWrite : String) (ops : List ResourceOperation) :
    validateResourceOperations RW resources readWrite ops = none ↔
      ∀ ro ∈ ops, (∃ r ∈ resources, r.Name = ro.DeviceResource) ∧
        (∀ r ∈ resources, r.Name = ro.DeviceResource →
          r.Properties.ReadWrite = RW ∨ r.Properties.ReadWrite = readWrite) := by
  induction ops with
  | nil => simp [validateResourceOperations]
  | cons ro rest ih =>
    unfold validateResourceOperations
    have hc : deviceResourcesContains resources ro.DeviceResource = true ↔
        ∃ r ∈ resources, r.Name = ro.DeviceResource := by
      simp [deviceResourcesContains, deviceResourcesContainsLoop_iff]
    have hv : validReadWritePermission RW resources ro.DeviceResource readWrite = true ↔
        ∀ r ∈ resources, r.Name = ro.DeviceResource →
          r.Properties.ReadWrite = RW ∨ r.Properties.ReadWrite = readWrite := by
      simp [validReadWritePermission, validReadWritePermissionLoop_iff]
    by_cases h1 : deviceResourcesContains resources ro.DeviceResource = true
    · by_cases h2 : validReadWritePermission RW resources ro.DeviceResource readWrite = true
      · rw [if_neg (not_not.2 h1), if_neg (not_not.2 h2), ih]
        simp only [List.mem_cons, forall_eq_or_imp]
        exact ⟨fun h => ⟨⟨hc.1 h1, hv.1 h2⟩, h⟩, fun h => h.2⟩
      · rw [if_neg (not_not.2 h1), if_pos h2]
        simp only [List.mem_cons, forall_eq_or_imp, reduceCtorEq, false_iff]
        intro h
        exact h2 (hv.2 h.1.2)
    · rw [if_pos h1]
      simp only [List.mem_cons, forall_eq_or_imp, reduceCtorEq, false_iff]
      intro h
      exact h1 (hc.2 h.1.1)

/-- The loop over the device commands passes exactly when the names are distinct from each
other and from the names seen before and the operations of every command pass. -/
theorem validateDeviceCommands_eq_none_iff (RW : String) (resources : List DeviceResource)
    (commands : List DeviceCommand) :
    ∀ dupCheck : List String,
      validateDeviceCommands RW resources commands dupCheck = none ↔
        (∀ c ∈ commands, c.Name ∉ dupCheck) ∧
        (commands.map (fun c => c.Name)).Nodup ∧
        (∀ c ∈ commands,
          validateResourceOperations RW resources c.ReadWrite c.ResourceOperations = none) := by
  induction commands with
  | nil => intro dupCheck; simp [validateDeviceCommands]
  | cons c rest ih =>
    intro dupCheck
    unfold validateDeviceCommands
    by_cases h2 : c.Name ∈ dupCheck
    · simp [h2]
    · rw [if_neg h2]
      cases h3 : validateResourceOperations RW resources c.ReadWrite c.ResourceOperations with
      | some err => simp [h3]
      | none =>
        simp only [ih, List.mem_cons, forall_eq_or_imp, List.map_cons, List.nodup_cons,
          List.mem_map, not_or, not_exists, not_and, h3, true_and]
        constructor
        · rintro ⟨hb, hc, hd⟩
          exact ⟨⟨h2, fun x hx => (hb x hx).2⟩, ⟨fun x hx e => (hb x hx).1 e, hc⟩, hd⟩
        · rintro ⟨⟨-, hb⟩, ⟨hn, hc⟩, hd⟩
          exact ⟨fun x hx => ⟨fun e => hn x hx e, hb x hx⟩, hc, hd⟩

/-- The acceptance set of `ValidateDeviceProfileDTO`. -/
theorem ValidateDeviceProfileDTO_eq_none_iff (W RW : String) (p : DeviceProfile) :
    ValidateDeviceProfileDTO W RW p = none ↔
      (∀ r ∈ p.DeviceResources, ¬ (r.Properties.ValueType = common.ValueTypeBinary ∧
        strings.Contains r.Properties.ReadWrite W = true)) ∧
      (p.DeviceResources.map (fun r => r.Name)).Nodup ∧
      (p.DeviceCommands.map (fun c => c.Name)).Nodup ∧
      (∀ c ∈ p.DeviceCommands, ∀ ro ∈ c.ResourceOperations,
        (∃ r ∈ p.DeviceResources, r.Name = ro.DeviceResource) ∧
        (∀ r ∈ p.DeviceResources, r.Name = ro.DeviceResource →
          r.Properties.ReadWrite = RW ∨ r.Properties.ReadWrite = c.ReadWrite)) := by
  unfold ValidateDeviceProfileDTO
  cases h : validateDeviceResources W p.DeviceResources [] with
  | some err =>
    have hn : ¬ validateDeviceResources W p.DeviceResources [] = none := by simp [h]
    rw [validateDeviceResources_eq_none_iff] at hn
    simp only [reduceCtorEq, false_iff]
    intro hc
    exact hn ⟨hc.1, by simp, hc.2.1⟩
  | none =>
    rw [validateDeviceResources_eq_none_iff] at h
    simp only [validateDeviceCommands_eq_none_iff, validateResourceOperations_eq_none_iff]
    constructor
    · rintro ⟨-, hb, hc⟩
      exact ⟨h.1, h.2.2, hb, hc⟩
    · rintro ⟨-, -, hb, hc⟩
      exact ⟨by simp, hb, hc⟩

end dtos

namespace dtos

/-- The errors of the loop over the device resources are of kind `ContractInvalid`. -/
theorem validateDeviceResources_kind (W : String) (resources : List DeviceResource) :
    ∀ (dupCheck : List String) (err : errors.CommonEdgeX),
      validateDeviceResources W resources dupCheck = some err →
        err.kind = errors.KindContractInvalid := by
  induction resources with
  | nil => intro dupCheck err h; simp [validateDeviceResources] at h
  | cons r rest ih =>
    intro dupCheck err h
    unfold validateDeviceResources at h
    split at h
    · cases h; rfl
    · split at h
      · cases h; rfl
      · exact ih _ _ h

/-- The errors of the loop over the resource operations are of kind `ContractInvalid`. -/
theorem validateResourceOperations_kind (RW : String) (resources : List DeviceResource)
    (readWrite : String) (ops : List ResourceOperation) :
    ∀ err : errors.CommonEdgeX,
      validateResourceOperations RW resources readWrite ops = some err →
        err.kind = errors.KindContractInvalid := by
  induction ops with
  | nil => intro err h; simp [validateResourceOperations] at h
  | cons ro rest ih =>
    intro err h
    unfold validateResourceOperations at h
    split at h
    · cases h; rfl
    · split at h
      · cases h; rfl
      · exact ih _ h

/-- The errors of the loop over the device commands are of kind `ContractInvalid`. -/
theorem validateDeviceCommands_kind (RW : String) (resources : List DeviceResource)
    (commands : List DeviceCommand) :
    ∀ (dupCheck : List String) (err : errors.CommonEdgeX),
      validateDeviceCommands RW resources commands dupCheck = some err →
        err.kind = errors.KindContractInvalid := by
  induction commands with
  | nil => intro dupCheck err h; simp [validateDeviceCommands] at h
  | cons c rest ih =>
    intro dupCheck err h
    unfold validateDeviceCommands at h
    split at h
    · cases h; rfl
    · split at h
      · rename_i e he
        cases h
        exact validateResourceOperations_kind RW resources c.ReadWrite _ _ he
      · exact ih _ _ h

/-- C19. Exact acceptance set of `ValidateDeviceProfileDTO`: for every device profile, the
function returns `nil` if and only if (1) no device resource has the value type `Binary`
together with a `ReadWrite` that contains the write flag, (2) the device resource names are
pairwise distinct, (3) the device command names are pairwise distinct, (4) every resource
operation of every command names an existing device resource, and (5) for every such
operation the named resource's `ReadWrite` is `RW` or equals the command's `ReadWrite`;
otherwise it returns an error of kind `ContractInvalid`. -/
theorem C19_device_profile_acceptance_set (W RW : String) (p : DeviceProfile) :
    (ValidateDeviceProfileDTO W RW p = none ↔
      (∀ r ∈ p.DeviceResources, ¬ (r.Properties.ValueType = common.ValueTypeBinary ∧
        strings.Contains r.Properties.ReadWrite W = true)) ∧
      (p.DeviceResources.map (fun r => r.Name)).Nodup ∧
      (p.DeviceCommands.map (fun c => c.Name)).Nodup ∧
      (∀ c ∈ p.DeviceCommands, ∀ ro ∈ c.ResourceOperations,
        (∃ r ∈ p.DeviceResources, r.Name = ro.DeviceResource) ∧
        (∀ r ∈ p.DeviceResources, r.Name = ro.DeviceResource →
          r.Properties.ReadWrite = RW ∨ r.Properties.ReadWrite = c.ReadWrite))) ∧
    (∀ err, ValidateDeviceProfileDTO W RW p = some err →
      err.kind = errors.KindContractInvalid) := by
  refine ⟨ValidateDeviceProfileDTO_eq_none_iff W RW p, ?_⟩
  intro err h
  unfold ValidateDeviceProfileDTO at h
  split at h
  · rename_i e he
    cases h
    exact validateDeviceResources_kind W _ _ _ he
  · exact validateDeviceCommands_kind RW _ _ _ _ h

/-- C19, at a profile with the resources `a` (`RW`, `Int32`) and `b` (`R`, `Binary`) and a
command `c` (`R`) over both: the five conditions hold and the profile is accepted. -/
theorem C19_device_profile_acceptance_set_witness :
    ValidateDeviceProfileDTO "W" "RW"
      (DeviceProfile.ofParts
        [{ Name := "a", Properties := { ValueType := "Int32", ReadWrite := "RW" } },
          { Name := "b", Properties := { ValueType := "Binary", ReadWrite := "R" } }]
        [{ Name := "c", ReadWrite := "R",
            ResourceOperations := [{ DeviceResource := "a" }, { DeviceResource := "b" }] }]) =
      none ∧
    (∀ err, ValidateDeviceProfileDTO "W" "RW"
      (DeviceProfile.ofParts
        [{ Name := "a", Properties := { ValueType := "Binary", ReadWrite := "RW" } }] []) =
        some err → err.kind = errors.KindContractInvalid) :=
  ⟨by decide,
    (C19_device_profile_acceptance_set "W" "RW"
      (DeviceProfile.ofParts
        [{ Name := "a", Properties := { ValueType := "Binary", ReadWrite := "RW" } }] [])).2⟩

/-- C20. Command permissions never exceed resource permissions in an accepted profile:
whenever `ValidateDeviceProfileDTO` returns `nil`, for every command, every resource
operation of it names a device resource of the profile, and every device resource of that
name has a `ReadWrite` that is `RW` or equals the command's `ReadWrite`; a command with
`ReadWrite` `RW` over a resource with `ReadWrite` `R` is rejected, and a command with
`ReadWrite` `R` over a resource with `ReadWrite` `RW` is accepted. -/
theorem C20_command_permission_within_resource (W RW : String) (p : DeviceProfile)
    (h : ValidateDeviceProfileDTO W RW p = none) :
    (∀ c ∈ p.DeviceCommands, ∀ ro ∈ c.ResourceOperations,
      (∃ r ∈ p.DeviceResources, r.Name = ro.DeviceResource) ∧
      (∀ r ∈ p.DeviceResources, r.Name = ro.DeviceResource →
        r.Properties.ReadWrite = RW ∨ r.Properties.ReadWrite = c.ReadWrite)) ∧
    ValidateDeviceProfileDTO "W" "RW"
      (DeviceProfile.ofParts
        [{ Name := "a", Properties := { ValueType := "Int32", ReadWrite := "R" } }]
        [{ Name := "c", ReadWrite := "RW", ResourceOperations := [{ DeviceResource := "a" }] }]) =
      some (errors.NewCommonEdgeX errors.KindContractInvalid
        "命令读写权限 'RW' 超出资源读写权限" none) ∧
    ValidateDeviceProfileDTO "W" "RW"
      (DeviceProfile.ofParts
        [{ Name := "a", Properties := { ValueType := "Int32", ReadWrite := "RW" } }]
        [{ Name := "c", ReadWrite := "R", ResourceOperations := [{ DeviceResource := "a" }] }]) =
      none :=
  ⟨((ValidateDeviceProfileDTO_eq_none_iff W RW p).1 h).2.2.2, by decide, by decide⟩

/-- C20, at an accepted profile: the resource `a` is `RW`, the command `c` is `R` and operates
on `a`. -/
theorem C20_command_permission_within_resource_witness :
    ValidateDeviceProfileDTO "W" "RW"
      (DeviceProfile.ofParts
        [{ Name := "a", Properties := { ValueType := "Int32", ReadWrite := "RW" } }]
        [{ Name := "c", ReadWrite := "R", ResourceOperations := [{ DeviceResource := "a" }] }]) =
      none ∧
    ∀ c ∈ (DeviceProfile.ofParts
        [{ Name := "a", Properties := { ValueType := "Int32", ReadWrite := "RW" } }]
        [{ Name := "c", ReadWrite := "R",
            ResourceOperations := [{ DeviceResource := "a" }] }]).DeviceCommands,
      ∀ ro ∈ c.ResourceOperations,
        (∃ r ∈ (DeviceProfile.ofParts
            [{ Name := "a", Properties := { ValueType := "Int32", ReadWrite := "RW" } }]
            [{ Name := "c", ReadWrite := "R",
                ResourceOperations := [{ DeviceResource := "a" }] }]).DeviceResources,
          r.Name = ro.DeviceResource) ∧
        (∀ r ∈ (DeviceProfile.ofParts
            [{ Name := "a", Properties := { ValueType := "Int32", ReadWrite := "RW" } }]
            [{ Name := "c", ReadWrite := "R",
                ResourceOperations := [{ DeviceResource := "a" }] }]).DeviceResources,
          r.Name = ro.DeviceResource →
            r.Properties.ReadWrite = "RW" ∨ r.Properties.ReadWrite = c.ReadWrite) :=
  ⟨by decide,
    (C20_command_permission_within_resource "W" "RW"
      (DeviceProfile.ofParts
        [{ Name := "a", Properties := { ValueType := "Int32", ReadWrite := "RW" } }]
        [{ Name := "c", ReadWrite := "R", ResourceOperations := [{ DeviceResource := "a" }] }])
      (by decide)).1⟩

end dtos

namespace strings

/-- Trimming leaves nothing exactly when every character is white space. -/
theorem TrimSpace_eq_empty_iff (s : String) :
    TrimSpace s = "" ↔ ∀ c ∈ s.data, isSpace c = true := by
  have key : ∀ l : List Char,
      ((l.dropWhile isSpace).reverse.dropWhile isSpace).reverse = [] ↔
        ∀ c ∈ l, isSpace c = true := by
    intro l
    constructor
    · intro h
      have h1 : (l.dropWhile isSpace).reverse.dropWhile isSpace = [] := by
        simpa using h
      have h2 : ∀ c ∈ l.dropWhile isSpace, isSpace c = true := by
        intro c hc
        exact (List.dropWhile_eq_nil_iff.1 h1) c (List.mem_reverse.2 hc)
      have h3 : l.dropWhile isSpace = [] := by
        cases hd : l.dropWhile isSpace with
        | nil => rfl
        | cons a rest =>
          have hne : l.dropWhile isSpace ≠ [] := by simp [hd]
          have hnot := List.head_dropWhile_not isSpace l hne
          have ha : (l.dropWhile isSpace).head hne = a := by simp [hd]
          have := h2 a (by simp [hd])
          rw [ha] at hnot
          simp [this] at hnot
      exact List.dropWhile_eq_nil_iff.1 h3
    · intro h
      have h3 : l.dropWhile isSpace = [] := List.dropWhile_eq_nil_iff.2 h
      simp [h3]
  constructor
  · intro h
    have hd : (TrimSpace s).data = [] := by rw [h]
    exact (key s.data).1 hd
  · intro h
    apply String.ext
    exact (key s.data).2 h

/-- The number of bytes of the trimmed string is zero exactly when every character is white
space. -/
theorem len_TrimSpace_eq_zero_iff (s : String) :
    len (TrimSpace s) = 0 ↔ ∀ c ∈ s.data, isSpace c = true := by
  rw [len_eq_zero, TrimSpace_eq_empty_iff]

end strings

namespace common

/-- C11, as stated, fails: the `Id` of one space is present, is not the empty string and is
not a UUID, and yet `ValidateDtoUuid` accepts it when `Name` is "x". -/
theorem C11_blank_id_accepted_with_name :
    ValidateDtoUuid (idFieldLevel (some " ") (some "x")) = .ok true ∧
    (" " : String) ≠ "" ∧ uuid.Parse " " = none := by
  refine ⟨by decide, by decide, by decide⟩

/-- C11, amended. Exact acceptance set of the uuid-or-name rule: for every update record,
`ValidateDtoUuid` returns, and it accepts if and only if the `Id` is absent (nil), or the `Id`
consists of white space only (the empty string included) and the sibling `Name` is present
and not the empty string, or the `Id` parses as a UUID; in particular a present `Id` that has
a character other than white space and is not a UUID is rejected whatever `Name` holds. -/
theorem C11_uuid_rule_acceptance_set :
    (∀ id nm : Option String, ∃ b : Bool,
      ValidateDtoUuid (idFieldLevel id nm) = .ok b ∧
      (b = true ↔
        id = none ∨
        (∃ i, id = some i ∧ (∀ c ∈ i.data, strings.isSpace c = true) ∧
          ∃ s, nm = some s ∧ s ≠ "") ∨
        (∃ i, id = some i ∧ (uuid.Parse i).isSome = true))) ∧
    (∀ (i : String) (nm : Option String),
      (∃ c ∈ i.data, strings.isSpace c = false) → uuid.Parse i = none →
        ValidateDtoUuid (idFieldLevel (some i) nm) = .ok false) := by
  have hname : ∀ nm : Option String,
      (match nm with
        | none => false
        | some s => decide (0 < strings.len s)) = true ↔ ∃ s, nm = some s ∧ s ≠ "" := by
    intro nm
    cases nm with
    | none => simp
    | some s =>
      have := strings.len_eq_zero s
      simp only [decide_eq_true_eq, Option.some.injEq, exists_eq_left']
      constructor
      · intro h e; rw [this.2 e] at h; exact absurd h (by decide)
      · intro h
        rcases Nat.eq_zero_or_pos (strings.len s) with h0 | h0
        · exact absurd (this.1 h0) h
        · exact h0
  constructor
  · intro id nm
    refine ⟨_, ValidateDtoUuid_idFieldLevel id nm, ?_⟩
    cases id with
    | none => simp
    | some i =>
      simp only [Bool.or_eq_true, Bool.and_eq_true, decide_eq_true_eq, hname,
        strings.len_TrimSpace_eq_zero_iff, reduceCtorEq, false_or, Option.some.injEq,
        exists_eq_left']
  · intro i nm hc hp
    rw [ValidateDtoUuid_idFieldLevel]
    have hblank : ¬ strings.len (strings.TrimSpace i) = 0 := by
      rw [strings.len_TrimSpace_eq_zero_iff]
      rcases hc with ⟨c, hc, hs⟩
      intro hall
      rw [hall c hc] at hs
      exact absurd hs (by decide)
    simp [hblank, hp]

/-- C11, amended, at instances: the blank `Id` with the `Name` "x" is accepted, and the `Id`
"abc", which has a character other than white space and is not a UUID, is rejected with the
`Name` "x". -/
theorem C11_uuid_rule_acceptance_set_witness :
    ((∃ c ∈ ("abc" : String).data, strings.isSpace c = false) ∧ uuid.Parse "abc" = none) ∧
    ValidateDtoUuid (idFieldLevel (some "abc") (some "x")) = .ok false :=
  ⟨⟨⟨'a', by decide, by decide⟩, by decide⟩,
    C11_uuid_rule_acceptance_set.2 "abc" (some "x") ⟨'a', by decide, by decide⟩ (by decide)⟩

/-- The rule `ValidateDtoNoneEmptyString` on a field that is a string. -/
theorem ValidateDtoNoneEmptyString_str (s : String) (parent : List (String × FieldValue)) :
    ValidateDtoNoneEmptyString { Field := .str s, Parent := parent } =
      .ok (decide (0 < strings.len (strings.TrimSpace s))) := by
  by_cases h : 0 < strings.len (strings.TrimSpace s) <;>
    simp [ValidateDtoNoneEmptyString, isNilPointer, FieldValue.Kind, FieldValue.String, h, bind,
      Except.bind, pure, Except.pure]

/-- C12. The rule non-empty-when-present: `ValidateDtoNoneEmptyString` accepts an absent
(nil) field, and for every present string `s` it returns, and accepts if and only if `s` has
at least one character that is not white space; a present empty string is rejected. -/
theorem C12_none_empty_string_rule :
    (∀ parent, ValidateDtoNoneEmptyString { Field := .ptr none, Parent := parent } = .ok true) ∧
    (∀ (s : String) (parent : List (String × FieldValue)), ∃ b : Bool,
      ValidateDtoNoneEmptyString { Field := .str s, Parent := parent } = .ok b ∧
      (b = true ↔ ∃ c ∈ s.data, strings.isSpace c = false)) ∧
    (∀ parent, ValidateDtoNoneEmptyString { Field := .str "", Parent := parent } = .ok false) := by
  refine ⟨fun parent => rfl, ?_, fun parent => rfl⟩
  intro s parent
  refine ⟨_, ValidateDtoNoneEmptyString_str s parent, ?_⟩
  simp only [decide_eq_true_eq]
  have h := strings.len_TrimSpace_eq_zero_iff s
  constructor
  · intro hpos
    by_contra hc
    push_neg at hc
    have : strings.len (strings.TrimSpace s) = 0 :=
      h.2 (fun c hcm => by simpa using hc c hcm)
    omega
  · rintro ⟨c, hcm, hs⟩
    rcases Nat.eq_zero_or_pos (strings.len (strings.TrimSpace s)) with h0 | h0
    · have := h.1 h0 c hcm
      rw [this] at hs
      exact absurd hs (by decide)
    · exact h0

/-- The loop of `ValidateValueType` finds a name with the same lower-case form. -/
theorem ValidateValueTypeLoop_iff (lower : Char → Char) (valueType : String)
    (valueTypes : List String) :
    ValidateValueTypeLoop lower valueType valueTypes = true ↔
      ∃ v ∈ valueTypes, strings.ToLower lower valueType = strings.ToLower lower v := by
  induction valueTypes with
  | nil => simp [ValidateValueTypeLoop]
  | cons v rest ih =>
    unfold ValidateValueTypeLoop
    by_cases h : strings.ToLower lower valueType = strings.ToLower lower v
    · simp [h]
    · simp [h, ih]

/-- C14. Value-type membership is case-insensitive: for every string `s`, `ValidateValueType`
accepts `s` if and only if some name of the value-type list equals `s` after lower-casing
both; hence it gives the same result on two strings with the same lower-case form. -/
theorem C14_value_type_case_insensitive (lower : Char → Char) (valueTypes : List String) :
    (∀ (s : String) (parent : List (String × FieldValue)),
      ValidateValueType lower valueTypes { Field := .str s, Parent := parent } = true ↔
        ∃ v ∈ valueTypes, strings.ToLower lower s = strings.ToLower lower v) ∧
    (∀ (s t : String) (parent parent' : List (String × FieldValue)),
      strings.ToLower lower s = strings.ToLower lower t →
        ValidateValueType lower valueTypes { Field := .str s, Parent := parent } =
          ValidateValueType lower valueTypes { Field := .str t, Parent := parent' }) := by
  refine ⟨fun s parent => ValidateValueTypeLoop_iff lower s valueTypes, ?_⟩
  intro s t parent parent' h
  have hs := ValidateValueTypeLoop_iff lower s valueTypes
  have ht := ValidateValueTypeLoop_iff lower t valueTypes
  rw [h] at hs
  have : ValidateValueTypeLoop lower s valueTypes = true ↔
      ValidateValueTypeLoop lower t valueTypes = true := hs.trans ht.symm
  show ValidateValueTypeLoop lower s valueTypes = ValidateValueTypeLoop lower t valueTypes
  cases h1 : ValidateValueTypeLoop lower s valueTypes <;>
    cases h2 : ValidateValueTypeLoop lower t valueTypes <;> simp_all

/-- C14, at the value-type list of the spec and the ASCII case table: "INT32" and "int32"
have the same lower-case form, and both are accepted. -/
theorem C14_value_type_case_insensitive_witness :
    strings.ToLower Char.toLower "INT32" = strings.ToLower Char.toLower "int32" ∧
    ValidateValueType Char.toLower valueTypes { Field := .str "INT32", Parent := [] } =
      ValidateValueType Char.toLower valueTypes { Field := .str "int32", Parent := [] } ∧
    ValidateValueType Char.toLower valueTypes { Field := .str "int32", Parent := [] } = true :=
  ⟨by decide,
    (C14_value_type_case_insensitive Char.toLower valueTypes).2 "INT32" "int32" [] []
      (by decide),
    by decide⟩

end common

/-! ## Properties of the expression of the unreserved characters -/

namespace regexp

/-- A repeated class reaches the end of the text exactly when every character of the text is
in the class. -/
theorem starLoop_class_reaches_end (negated : Bool) (ranges : List (Char × Char)) :
    ∀ (fuel : Nat) (s : List Char) (start : Bool), s.length ≤ fuel →
      ((∃ p ∈ starLoop (matchAt (.charClass negated ranges)) fuel start s, p.2 = []) ↔
        ∀ c ∈ s, inClass negated ranges c = true) := by
  intro fuel
  induction fuel with
  | zero =>
    intro s start h
    have hs : s = [] := List.length_eq_zero.1 (Nat.le_zero.1 h)
    subst hs
    simp [starLoop]
  | succ fuel ih =>
    intro s start h
    cases s with
    | nil => simp [starLoop]
    | cons x s =>
      have hlen : s.length ≤ fuel := by simpa using h
      by_cases hx : inClass negated ranges x = true
      · simp only [starLoop, matchAt, hx, if_true, List.filter_cons, List.length_cons,
          Nat.lt_succ_self, decide_True, List.filter_nil, List.flatMap_cons, List.flatMap_nil,
          List.append_nil, List.mem_cons, exists_eq_or_imp, reduceCtorEq, false_or,
          forall_eq_or_imp, true_and]
        exact ih s false hlen
      · simp [starLoop, matchAt, hx]

/-- A class repeated at least once reaches the end of the text exactly when the text is not
empty and every character of it is in the class. -/
theorem plus_class_reaches_end (negated : Bool) (ranges : List (Char × Char)) (s : List Char)
    (start : Bool) :
    (∃ p ∈ matchAt (.plus (.charClass negated ranges)) start s, p.2 = []) ↔
      s ≠ [] ∧ ∀ c ∈ s, inClass negated ranges c = true := by
  cases s with
  | nil => simp [matchAt]
  | cons x s =>
    by_cases hx : inClass negated ranges x = true
    · have h := starLoop_class_reaches_end negated ranges s.length s false (Nat.le_refl _)
      simp only [matchAt, hx, if_true, List.flatMap_cons, List.flatMap_nil, List.append_nil, ne_eq,
        reduceCtorEq, not_false_eq_true, List.mem_cons, forall_eq_or_imp, true_and]
      exact h
    · simp [matchAt, hx]

/-- The expression `^C+$` of a class `C` matches a text exactly when the text is not empty and
every character of it is in the class. -/
theorem MatchString_anchored_plus_class (negated : Bool) (ranges : List (Char × Char))
    (s : String) :
    Regexp.MatchString
        (.concat .beginText (.concat (.plus (.charClass negated ranges))
          (.concat .endText .empty))) s = true ↔
      s.data ≠ [] ∧ ∀ c ∈ s.data, inClass negated ranges c = true := by
  have hfalse : ∀ t : List Char, matchAnywhere
      (.concat .beginText (.concat (.plus (.charClass negated ranges))
        (.concat .endText .empty))) false t = false := by
    intro t
    induction t with
    | nil => simp [matchAnywhere, matchAt]
    | cons c t ih => simp [matchAnywhere, matchAt, ih]
  have hat : ∀ t : List Char,
      (matchAt (.concat .beginText (.concat (.plus (.charClass negated ranges))
          (.concat .endText .empty))) true t).isEmpty = false ↔
        ∃ p ∈ matchAt (.plus (.charClass negated ranges)) true t, p.2 = [] := by
    intro t
    have e : matchAt (.concat .beginText (.concat (.plus (.charClass negated ranges))
          (.concat .endText .empty))) true t =
        (matchAt (.plus (.charClass negated ranges)) true t).flatMap
          (fun p => if p.2 = [] then [(p.1, p.2)] else []) := by
      simp only [matchAt, if_true, List.flatMap_cons, List.flatMap_nil, List.append_nil]
      congr 1
      funext p
      by_cases hp : p.2 = [] <;> simp [hp]
    rw [e]
    generalize matchAt (.plus (.charClass negated ranges)) true t = l
    induction l with
    | nil => simp
    | cons p l ih =>
      by_cases hp : p.2 = []
      · simp [hp]
      · simp only [List.flatMap_cons, hp, if_false, List.nil_append, ih, List.mem_cons,
          exists_eq_or_imp, false_or]
  unfold Regexp.MatchString
  rw [← plus_class_reaches_end negated ranges s.data true, ← hat]
  cases hd : s.data with
  | nil => simp [matchAnywhere]
  | cons c t => simp [matchAnywhere, hfalse]

end regexp

namespace common

/-- The expression of the unreserved characters compiles to `^C+$` for the class `C` of the
ranges `a-z`, `A-Z`, `0-9` and the characters `-`, `_` and `~`. -/
theorem rFC3986UnreservedCharsRegex_eq :
    rFC3986UnreservedCharsRegex =
      some (.concat .beginText (.concat (.plus (.charClass false
        [('a', 'z'), ('A', 'Z'), ('0', '9'), ('-', '-'), ('_', '_'), ('~', '~')]))
        (.concat .endText .empty))) := by
  decide

/-- The class of the expression holds the ASCII letters, the ASCII digits, `-`, `_` and `~`. -/
theorem inClass_unreserved (c : Char) :
    regexp.inClass false
        [('a', 'z'), ('A', 'Z'), ('0', '9'), ('-', '-'), ('_', '_'), ('~', '~')] c =
      isUnreservedChar c := by
  have hle : ∀ a b : Char, a ≤ b ↔ a.val.toNat ≤ b.val.toNat := fun _ _ => Iff.rfl
  have hge : ∀ (x : UInt32) (n : UInt32), x ≥ n ↔ n.toNat ≤ x.toNat := fun _ _ => Iff.rfl
  have hle2 : ∀ (x : UInt32) (n : UInt32), x ≤ n ↔ x.toNat ≤ n.toNat := fun _ _ => Iff.rfl
  have heq : ∀ a b : Char, a = b ↔ a.val.toNat = b.val.toNat := by
    intro a b
    exact ⟨fun h => by rw [h], fun h => Char.ext (UInt32.ext h)⟩
  have v1 : ('a' : Char).val.toNat = 97 := by decide
  have v2 : ('z' : Char).val.toNat = 122 := by decide
  have v3 : ('A' : Char).val.toNat = 65 := by decide
  have v4 : ('Z' : Char).val.toNat = 90 := by decide
  have v5 : ('0' : Char).val.toNat = 48 := by decide
  have v6 : ('9' : Char).val.toNat = 57 := by decide
  have v7 : ('-' : Char).val.toNat = 45 := by decide
  have v8 : ('_' : Char).val.toNat = 95 := by decide
  have v9 : ('~' : Char).val.toNat = 126 := by decide
  have n1 : (65 : UInt32).toNat = 65 := by decide
  have n2 : (90 : UInt32).toNat = 90 := by decide
  have n3 : (97 : UInt32).toNat = 97 := by decide
  have n4 : (122 : UInt32).toNat = 122 := by decide
  have n5 : (48 : UInt32).toNat = 48 := by decide
  have n6 : (57 : UInt32).toNat = 57 := by decide
  simp only [regexp.inClass, isUnreservedChar, Char.isAlpha, Char.isUpper, Char.isLower,
    Char.isDigit, List.any_cons, List.any_nil]
  rw [Bool.eq_iff_iff]
  simp only [bne_iff_ne, ne_eq, Bool.or_eq_false_iff, Bool.or_eq_true, Bool.and_eq_true,
    decide_eq_true_eq, decide_eq_false_iff_not, beq_iff_eq, hle, hge, hle2, heq, v1, v2, v3, v4,
    v5, v6, v7, v8, v9, n1, n2, n3, n4, n5, n6, Bool.or_false]
  generalize c.val.toNat = n
  omega

/-- The rule `ValidateDtoRFC3986UnreservedChars` on a field that is a string. -/
theorem ValidateDtoRFC3986UnreservedChars_str (s : String)
    (parent : List (String × FieldValue)) :
    ValidateDtoRFC3986UnreservedChars { Field := .str s, Parent := parent } =
      .ok (decide (s.data ≠ [] ∧ ∀ c ∈ s.data, isUnreservedChar c = true)) := by
  have hm := regexp.MatchString_anchored_plus_class false
    [('a', 'z'), ('A', 'Z'), ('0', '9'), ('-', '-'), ('_', '_'), ('~', '~')] s
  simp only [inClass_unreserved] at hm
  simp only [ValidateDtoRFC3986UnreservedChars, isNilPointer, FieldValue.Kind,
    FieldValue.String, rFC3986UnreservedCharsRegex_eq, bind, Except.bind, pure, Except.pure]
  simp only [reduceCtorEq, if_false, Bool.false_eq_true]
  congr 1
  rw [Bool.eq_iff_iff, hm]
  simp

/-- C13. The rule restricted-character-set: `ValidateDtoRFC3986UnreservedChars` accepts an
absent (nil) field, and for every present string `s` it returns, and accepts if and only if
`s` is not empty and every character of `s` is an ASCII letter, an ASCII digit, `-`, `_` or
`~`; so the empty string and every string that holds a `.`, a space or a newline are
rejected. -/
theorem C13_unreserved_chars_rule :
    (∀ parent,
      ValidateDtoRFC3986UnreservedChars { Field := .ptr none, Parent := parent } = .ok true) ∧
    (∀ (s : String) (parent : List (String × FieldValue)), ∃ b : Bool,
      ValidateDtoRFC3986UnreservedChars { Field := .str s, Parent := parent } = .ok b ∧
      (b = true ↔ s ≠ "" ∧ ∀ c ∈ s.data, isUnreservedChar c = true)) ∧
    (∀ (s : String) (parent : List (String × FieldValue)),
      (s = "" ∨ '.' ∈ s.data ∨ ' ' ∈ s.data ∨ '\n' ∈ s.data) →
        ValidateDtoRFC3986UnreservedChars { Field := .str s, Parent := parent } = .ok false) := by
  have hne : ∀ s : String, s.data ≠ [] ↔ s ≠ "" := by
    intro s
    constructor
    · intro h e; subst e; exact h rfl
    · intro h e; exact h (String.ext e)
  refine ⟨fun parent => rfl, ?_, ?_⟩
  · intro s parent
    refine ⟨_, ValidateDtoRFC3986UnreservedChars_str s parent, ?_⟩
    simp only [decide_eq_true_eq, hne]
  · intro s parent h
    rw [ValidateDtoRFC3986UnreservedChars_str]
    congr 1
    simp only [decide_eq_false_iff_not, not_and, hne]
    intro hs hall
    rcases h with h | h | h | h
    · exact hs h
    · exact absurd (hall _ h) (by decide)
    · exact absurd (hall _ h) (by decide)
    · exact absurd (hall _ h) (by decide)

/-- C13, at the string "a.b", which holds a `.`, and at the string "ab-_~Z9", which is
accepted. -/
theorem C13_unreserved_chars_rule_witness :
    (("a.b" : String) = "" ∨ '.' ∈ ("a.b" : String).data ∨ ' ' ∈ ("a.b" : String).data ∨
      '\n' ∈ ("a.b" : String).data) ∧
    ValidateDtoRFC3986UnreservedChars { Field := .str "a.b", Parent := [] } = .ok false ∧
    ValidateDtoRFC3986UnreservedChars { Field := .str "ab-_~Z9", Parent := [] } = .ok true :=
  ⟨by decide, C13_unreserved_chars_rule.2.2 "a.b" [] (by decide), by decide⟩

end common

/-! ## Properties of the duration rule -/

namespace time

/-- The spans of a list that begins with elements of a predicate, followed by nothing or by an
element outside the predicate. -/
theorem span_append {p : Char → Bool} (l rest : List Char) (hl : ∀ c ∈ l, p c = true)
    (hr : ∀ c t, rest = c :: t → p c = false) :
    (l ++ rest).takeWhile p = l ∧ (l ++ rest).dropWhile p = rest := by
  induction l with
  | nil =>
    cases rest with
    | nil => simp
    | cons c t => simp [hr c t rfl]
  | cons a l ih =>
    have ha := hl a (List.mem_cons_self _ _)
    have := ih (fun c hc => hl c (List.mem_cons_of_mem _ hc))
    simp [ha, this]

/-- The rest left by `dropWhile` does not begin with an element of the predicate. -/
theorem dropWhile_head {p : Char → Bool} (l : List Char) :
    ∀ c t, l.dropWhile p = c :: t → p c = false := by
  induction l with
  | nil => intro c t h; simp at h
  | cons a l ih =>
    intro c t h
    by_cases ha : p a = true
    · rw [List.dropWhile_cons_of_pos ha] at h
      exact ih c t h
    · rw [List.dropWhile_cons_of_neg ha] at h
      cases h
      simpa using ha

/-- `leadingInt` on digits followed by a rest that does not begin with a digit: the number of
the digits, and the rest. -/
theorem leadingInt_append (digits rest : List Char) (hd : ∀ c ∈ digits, isDigit c = true)
    (hr : ∀ c t, rest = c :: t → isDigit c = false) :
    ∀ x, leadingInt (digits ++ rest) x = (leadingInt digits x).map (fun p => (p.1, rest)) := by
  induction digits with
  | nil =>
    intro x
    cases rest with
    | nil => rfl
    | cons c t => simp [leadingInt, hr c t rfl]
  | cons a l ih =>
    intro x
    have ha := hd a (List.mem_cons_self _ _)
    have ih' := ih (fun c hc => hd c (List.mem_cons_of_mem _ hc))
    simp only [List.cons_append, leadingInt, ha, not_true_eq_false, if_false]
    split
    · rfl
    · split
      · rfl
      · exact ih' _

/-- `leadingFraction` on digits followed by a rest that does not begin with a digit: the
number and the scale of the digits, and the rest. -/
theorem leadingFraction_append (digits rest : List Char)
    (hd : ∀ c ∈ digits, isDigit c = true) (hr : ∀ c t, rest = c :: t → isDigit c = false) :
    ∀ x scale overflow, leadingFraction (digits ++ rest) x scale overflow =
      ((leadingFraction digits x scale overflow).1,
        (leadingFraction digits x scale overflow).2.1, rest) := by
  induction digits with
  | nil =>
    intro x scale overflow
    cases rest with
    | nil => rfl
    | cons c t => simp [leadingFraction, hr c t rfl]
  | cons a l ih =>
    intro x scale overflow
    have ha := hd a (List.mem_cons_self _ _)
    have ih' := ih (fun c hc => hd c (List.mem_cons_of_mem _ hc))
    simp only [List.cons_append, leadingFraction, ha, not_true_eq_false, if_false]
    split
    · exact ih' _ _ _
    · split
      · exact ih' _ _ _
      · split
        · exact ih' _ _ _
        · exact ih' _ _ _

/-- The bytes of a unit of the table are neither digits nor the point. -/
theorem unitMap_bytes (u : List Char) (h : (unitMap (String.mk u)).isSome = true) :
    u ≠ [] ∧ ∀ c ∈ u, isNumberByte c = false := by
  unfold unitMap at h
  have e : ∀ t : String, String.mk u = t → u = t.data := by
    intro t ht; rw [← ht]
  split at h
  · rename_i h1; rw [e _ h1]; decide
  · split at h
    · rename_i h1; rw [e _ h1]; decide
    · split at h
      · rename_i h1; rw [e _ h1]; decide
      · split at h
        · rename_i h1; rw [e _ h1]; decide
        · split at h
          · rename_i h1; rw [e _ h1]; decide
          · split at h
            · rename_i h1; rw [e _ h1]; decide
            · split at h
              · rename_i h1; rw [e _ h1]; decide
              · split at h
                · rename_i h1; rw [e _ h1]; decide
                · simp at h

end time

namespace time

/-- The body of the loop on the text of a group followed by a rest. -/
theorem parseGroup_text (g : Group) (rest : List Char) (d : Nat)
    (next : List Char → Nat → Option Nat)
    (hw : ∀ c ∈ g.whole, isDigit c = true)
    (hf : ∀ f, g.frac = some f → ∀ c ∈ f, isDigit c = true)
    (hu : ∀ c ∈ g.unit, isNumberByte c = false)
    (hr : ∀ c t, rest = c :: t → isNumberByte c = true)
    (h1 : g.unit = [] → ∀ c t, rest = c :: t → isDigit c = false)
    (h2 : g.unit = [] → g.frac = none → rest = []) :
    parseGroup (g.text ++ rest) d next =
      if (g.whole ≠ [] ∨ ∃ f, g.frac = some f ∧ f ≠ []) ∧ g.unit ≠ [] then
        match g.nanos with
        | none => none
        | some v => if (d + v) % 2 ^ 64 > 2 ^ 63 then none else next rest ((d + v) % 2 ^ 64)
      else none := by
  obtain ⟨whole, frac, unit⟩ := g
  simp only at hw hf hu h1 h2
  -- the rest after the unit
  have hspan := span_append (p := fun b => !isNumberByte b) unit rest
    (fun c hc => by simp [hu c hc]) (fun c t e => by simp [hr c t e])
  have hnd : ∀ c, isNumberByte c = false → isDigit c = false ∧ c ≠ '.' := by
    intro c hc
    simp only [isNumberByte, Bool.or_eq_false_iff, beq_eq_false_iff_ne, ne_eq] at hc
    exact ⟨hc.2, hc.1⟩
  have hUR : ∀ c t, unit ++ rest = c :: t → isDigit c = false := by
    intro c t e
    cases unit with
    | nil => exact h1 rfl c t (by simpa using e)
    | cons a u =>
      simp only [List.cons_append, List.cons.injEq] at e
      rw [← e.1]
      exact (hnd a (hu a (List.mem_cons_self _ _))).1
  have hX : ∀ c t, fracText frac ++ (unit ++ rest) = c :: t → isDigit c = false := by
    intro c t e
    cases frac with
    | none => exact hUR c t (by simpa [fracText] using e)
    | some f =>
      simp only [fracText, List.cons_append, List.cons.injEq] at e
      rw [← e.1]; decide
  have hs : Group.text ⟨whole, frac, unit⟩ ++ rest = whole ++ (fracText frac ++ (unit ++ rest)) := by
    simp [Group.text]
  have hpre : ∀ w X : List Char, decide ((w ++ X).length ≠ X.length) = decide (w ≠ []) := by
    intro w X
    cases w with
    | nil => simp
    | cons a w => simp; omega
  unfold parseGroup
  rw [hs, leadingInt_append whole _ hw hX 0]
  cases hli : leadingInt whole 0 with
  | none => simp [Group.nanos, hli]
  | some p =>
    obtain ⟨v, r⟩ := p
    simp only [Option.map_some', hpre]
    cases frac with
    | none =>
      simp only [fracText, List.nil_append]
      cases unit with
      | nil =>
        have hrest := h2 rfl rfl
        subst hrest
        simp
      | cons a u =>
        have ha := hnd a (hu a (List.mem_cons_self _ _))
        have hm : (match (a :: u) ++ rest with
            | '.' :: t =>
              ((leadingFraction t 0 1 false).1, (leadingFraction t 0 1 false).2.1,
                decide (t.length ≠ (leadingFraction t 0 1 false).2.2.length),
                (leadingFraction t 0 1 false).2.2)
            | _ => ((0 : Nat), (1 : Nat), false, (a :: u) ++ rest)) =
            (0, 1, false, (a :: u) ++ rest) := by
          split
          · rename_i t e
            simp only [List.cons_append, List.cons.injEq] at e
            exact absurd e.1 ha.2
          · rfl
        rw [hm]
        simp only [hspan.1, hspan.2, Group.nanos, hli]
        by_cases hwn : whole = []
        · simp [hwn]
        · cases hum : unitMap (String.mk (a :: u)) with
          | none => simp [hwn]
          | some unit => by_cases hv : 9223372036854775808 / unit < v <;> simp [hwn, hv]
    | some f =>
      have hfd := hf f rfl
      simp only [fracText, List.cons_append]
      rw [leadingFraction_append f (unit ++ rest) hfd hUR 0 1 false]
      simp only [hpre, hspan.1, hspan.2, Group.nanos, hli]
      cases unit with
      | nil => simp
      | cons a u =>
        by_cases hc : whole ≠ [] ∨ f ≠ []
        · have hc2 : ¬ (decide (whole ≠ []) = false ∧ decide (f ≠ []) = false) := by
            simp only [decide_eq_false_iff_not, not_and, not_not]
            rcases hc with h | h
            · intro h'; exact absurd h' h
            · intro _; exact h
          rw [if_neg hc2]
          have hcond : (whole ≠ [] ∨ ∃ f', some f = some f' ∧ f' ≠ []) ∧ a :: u ≠ [] := by
            refine ⟨?_, by simp⟩
            rcases hc with h | h
            · exact Or.inl h
            · exact Or.inr ⟨f, rfl, h⟩
          rw [if_pos hcond, if_neg (by simp)]
          cases hum : unitMap (String.mk (a :: u)) with
          | none => rfl
          | some unit =>
            simp only []
            by_cases hv : v > 2 ^ 63 / unit
            · rw [if_pos hv, if_pos hv]
            · rw [if_neg hv, if_neg hv]
              by_cases hov : 0 < (leadingFraction f 0 1 false).1 ∧
                  (if 0 < (leadingFraction f 0 1 false).1 then
                    v * unit + fractionNanos (leadingFraction f 0 1 false).1 unit
                      (leadingFraction f 0 1 false).2.1
                  else v * unit) > 2 ^ 63
              · rw [if_pos hov, if_pos hov]
              · rw [if_neg hov, if_neg hov]
        · have hc2 : decide (whole ≠ []) = false ∧ decide (f ≠ []) = false := by
            simp only [decide_eq_false_iff_not]
            push_neg at hc
            exact ⟨by simp [hc.1], by simp [hc.2]⟩
          rw [if_pos hc2]
          push_neg at hc
          simp [hc.1, hc.2]

end time

namespace time

/-- Every text begins with a group in the way the loop reads it: the leading digits, the point
and the digits after it when a point follows, and the bytes up to the next digit or point. -/
theorem exists_leading_group (s : List Char) :
    ∃ (g : Group) (rest : List Char), s = g.text ++ rest ∧
      (∀ c ∈ g.whole, isDigit c = true) ∧
      (∀ f, g.frac = some f → ∀ c ∈ f, isDigit c = true) ∧
      (∀ c ∈ g.unit, isNumberByte c = false) ∧
      (∀ c t, rest = c :: t → isNumberByte c = true) ∧
      (g.unit = [] → ∀ c t, rest = c :: t → isDigit c = false) ∧
      (g.unit = [] → g.frac = none → rest = []) := by
  have hunit : ∀ s2 : List Char, (∀ c t, s2 = c :: t → isDigit c = false) →
      ∃ (u rest : List Char), s2 = u ++ rest ∧ (∀ c ∈ u, isNumberByte c = false) ∧
        (∀ c t, rest = c :: t → isNumberByte c = true) ∧
        (u = [] → ∀ c t, rest = c :: t → isDigit c = false) ∧
        (u = [] → rest = s2) := by
    intro s2 h2
    refine ⟨s2.takeWhile (fun b => !isNumberByte b), s2.dropWhile (fun b => !isNumberByte b),
      (List.takeWhile_append_dropWhile _ _).symm, ?_, ?_, ?_, ?_⟩
    · intro c hc
      have := List.mem_takeWhile_imp hc
      simpa using this
    · intro c t e
      have := dropWhile_head (p := fun b => !isNumberByte b) s2 c t e
      simpa using this
    · intro hu c t e
      have hs : s2 = s2.dropWhile (fun b => !isNumberByte b) := by
        conv_lhs => rw [← List.takeWhile_append_dropWhile (fun b => !isNumberByte b) s2, hu]
        simp
      rw [← hs] at e
      exact h2 c t e
    · intro hu
      conv_rhs => rw [← List.takeWhile_append_dropWhile (fun b => !isNumberByte b) s2, hu]
      simp
  have hw : ∀ c ∈ s.takeWhile isDigit, isDigit c = true := fun c hc => List.mem_takeWhile_imp hc
  have hs1 := dropWhile_head (p := isDigit) s
  have hsplit : s = s.takeWhile isDigit ++ s.dropWhile isDigit :=
    (List.takeWhile_append_dropWhile _ _).symm
  by_cases hdot : ∃ t, s.dropWhile isDigit = '.' :: t
  · obtain ⟨t, ht⟩ := hdot
    obtain ⟨u, rest, hu0, hu1, hu2, hu3, -⟩ := hunit (t.dropWhile isDigit)
      (dropWhile_head (p := isDigit) t)
    refine ⟨⟨s.takeWhile isDigit, some (t.takeWhile isDigit), u⟩, rest, ?_, hw, ?_, hu1, hu2,
      hu3, ?_⟩
    · conv_lhs => rw [hsplit, ht, ← List.takeWhile_append_dropWhile isDigit t, hu0]
      simp [Group.text, fracText]
    · intro f hf c hc
      cases hf
      exact List.mem_takeWhile_imp hc
    · intro _ h; cases h
  · obtain ⟨u, rest, hu0, hu1, hu2, hu3, hu4⟩ := hunit (s.dropWhile isDigit) hs1
    refine ⟨⟨s.takeWhile isDigit, none, u⟩, rest, ?_, hw, ?_, hu1, hu2, hu3, ?_⟩
    · conv_lhs => rw [hsplit, hu0]
      simp [Group.text, fracText]
    · intro f hf; cases hf
    · intro hu _
      have hrs := hu4 hu
      cases hr : rest with
      | nil => rfl
      | cons c t =>
        exfalso
        have hnum := hu2 c t hr
        have hdig : isDigit c = false := hs1 c t (by rw [← hrs, hr])
        have hc : c = '.' := by
          simp only [isNumberByte, Bool.or_eq_true, beq_iff_eq, hdig, Bool.false_eq_true,
            or_false] at hnum
          exact hnum
        exact hdot ⟨t, by rw [← hrs, hr, hc]⟩

/-- The text of a well-formed group begins with a digit or the point, and it is not empty. -/
theorem Group.text_head (g : Group) (hg : g.wellFormed) :
    ∃ c t, g.text = c :: t ∧ isNumberByte c = true := by
  obtain ⟨hw, hf, hne, hu⟩ := hg
  obtain ⟨whole, frac, unit⟩ := g
  simp only at hw hf hne hu
  cases whole with
  | nil =>
    rcases hne with h | ⟨f, hfr, -⟩
    · exact absurd rfl h
    · subst hfr
      exact ⟨'.', _, rfl, by decide⟩
  | cons a w =>
    refine ⟨a, _, rfl, ?_⟩
    have := hw a (List.mem_cons_self _ _)
    simp [isNumberByte, this]

/-- The texts of well-formed groups, one after the other, begin with a digit or the point. -/
theorem flatMap_text_head (gs : List Group) (hgs : ∀ g ∈ gs, g.wellFormed) :
    ∀ c t, gs.flatMap Group.text = c :: t → isNumberByte c = true := by
  intro c t e
  cases gs with
  | nil => simp at e
  | cons g gs =>
    obtain ⟨c', t', hc, hn⟩ := Group.text_head g (hgs g (List.mem_cons_self _ _))
    simp only [List.flatMap_cons, hc, List.cons_append, List.cons.injEq] at e
    rw [← e.1]; exact hn

/-- The loop over the groups succeeds exactly on the texts of well-formed groups, one after
the other, whose totals pass the overflow checks. -/
theorem parseGroups_eq_some_iff (fuel : Nat) :
    ∀ (s : List Char) (d r : Nat), s.length < fuel →
      (parseGroups fuel s d = some r ↔
        ∃ gs : List Group, (∀ g ∈ gs, g.wellFormed) ∧ s = gs.flatMap Group.text ∧
          sumGroups gs d = some r) := by
  induction fuel with
  | zero => intro s d r h; omega
  | succ fuel ih =>
    intro s d r hlen
    cases s with
    | nil =>
      simp only [parseGroups, Option.some.injEq]
      constructor
      · intro h; exact ⟨[], by simp, by simp, by simp [sumGroups, h]⟩
      · rintro ⟨gs, hwf, hs, hsum⟩
        cases gs with
        | nil => simpa [sumGroups] using hsum
        | cons g gs =>
          obtain ⟨c, t, hc, -⟩ := Group.text_head g (hwf g (List.mem_cons_self _ _))
          simp [hc] at hs
    | cons c s0 =>
      constructor
      · intro h
        obtain ⟨g, rest, hs, hw, hf, hu, hr, h1, h2⟩ := exists_leading_group (c :: s0)
        unfold parseGroups at h
        split at h
        · cases h
        · rw [hs, parseGroup_text g rest d _ hw hf hu hr h1 h2] at h
          split at h
          · rename_i hcond
            cases hn : g.nanos with
            | none => simp [hn] at h
            | some v =>
              simp only [hn] at h
              split at h
              · cases h
              · rename_i hov
                have hunitne : g.unit ≠ [] := hcond.2
                have hlen2 : rest.length < fuel := by
                  have : (c :: s0).length = (g.text ++ rest).length := by rw [← hs]
                  have hpos : 0 < g.unit.length := List.length_pos.2 hunitne
                  simp only [Group.text, List.length_append, List.length_cons] at this hlen
                  omega
                obtain ⟨gs, hwf, hrest, hsum⟩ := (ih rest _ r hlen2).1 h
                have hwfg : g.wellFormed := by
                  refine ⟨hw, hf, hcond.1, ?_⟩
                  unfold Group.nanos at hn
                  cases hum : unitMap (String.mk g.unit) with
                  | none =>
                    rw [hum] at hn
                    cases hli : leadingInt g.whole 0 <;> simp [hli] at hn
                  | some unit => rfl
                refine ⟨g :: gs, ?_, ?_, ?_⟩
                · intro g' hg'
                  rcases List.mem_cons.1 hg' with e | e
                  · rw [e]; exact hwfg
                  · exact hwf g' e
                · rw [hs, hrest]; simp
                · simp only [sumGroups, hn, hov, if_false]
                  exact hsum
          · cases h
      · rintro ⟨gs, hwf, hs, hsum⟩
        cases gs with
        | nil => simp at hs
        | cons g gs =>
          have hwfg := hwf g (List.mem_cons_self _ _)
          have hwfs : ∀ g' ∈ gs, g'.wellFormed := fun g' h => hwf g' (List.mem_cons_of_mem _ h)
          obtain ⟨c', t', hc, hnum⟩ := Group.text_head g hwfg
          have hub := unitMap_bytes g.unit hwfg.2.2.2
          have hs' : c :: s0 = g.text ++ gs.flatMap Group.text := by simpa using hs
          have hcc : c = c' := by
            rw [hc] at hs'
            simp only [List.cons_append, List.cons.injEq] at hs'
            exact hs'.1
          unfold parseGroups
          rw [if_neg (by rw [hcc, hnum]; simp), hs',
            parseGroup_text g (gs.flatMap Group.text) d _ hwfg.1 hwfg.2.1 hub.2
              (flatMap_text_head gs hwfs) (fun h => absurd h hub.1) (fun h => absurd h hub.1),
            if_pos ⟨hwfg.2.2.1, hub.1⟩]
          simp only [sumGroups] at hsum
          cases hn : g.nanos with
          | none => simp [hn] at hsum
          | some v =>
            simp only [hn] at hsum ⊢
            split at hsum
            · cases hsum
            · rename_i hov
              rw [if_neg hov]
              have hlen2 : (gs.flatMap Group.text).length < fuel := by
                have : (c :: s0).length = (g.text ++ gs.flatMap Group.text).length := by
                  rw [← hs']
                have hpos : 0 < g.unit.length := List.length_pos.2 hub.1
                simp only [Group.text, List.length_append, List.length_cons] at this hlen
                omega
              exact (ih _ _ r hlen2).2 ⟨gs, hwfs, rfl, hsum⟩

end time

namespace time

/-- The part of `ParseDuration` after the sign: the text "0", or groups that pass. -/
theorem parseBody_isSome_iff (neg : Bool) (t : List Char) :
    (if t = ['0'] then some (0 : Int)
      else if t = [] then none
      else
        match parseGroups (t.length + 1) t 0 with
        | none => none
        | some d =>
          if neg = true then some (toInt64 (-(toInt64 d)))
          else if d > 2 ^ 63 - 1 then none
          else some (toInt64 d)).isSome = true ↔
      (t = ['0'] ∨ ∃ (gs : List Group) (d : Nat), gs ≠ [] ∧ (∀ g ∈ gs, g.wellFormed) ∧
        t = gs.flatMap Group.text ∧ sumGroups gs 0 = some d ∧ (neg = true ∨ d < 2 ^ 63)) := by
  by_cases h0 : t = ['0']
  · simp [h0]
  · rw [if_neg h0]
    by_cases hnil : t = []
    · rw [if_pos hnil]
      simp only [Option.isSome_none, Bool.false_eq_true, h0, false_or, false_iff, not_exists,
        not_and]
      intro gs d hne hwf ht
      exfalso
      cases gs with
      | nil => exact hne rfl
      | cons g gs =>
        obtain ⟨c, t', hc, -⟩ := Group.text_head g (hwf g (List.mem_cons_self _ _))
        rw [hnil] at ht
        simp [hc] at ht
    · rw [if_neg hnil]
      have hiff := parseGroups_eq_some_iff (t.length + 1) t 0
      constructor
      · intro h
        cases hp : parseGroups (t.length + 1) t 0 with
        | none => simp [hp] at h
        | some d =>
          obtain ⟨gs, hwf, ht, hsum⟩ := (hiff d (Nat.lt_succ_self _)).1 hp
          refine Or.inr ⟨gs, d, ?_, hwf, ht, hsum, ?_⟩
          · intro e; subst e; simp at ht; exact hnil ht
          · simp only [hp] at h
            by_cases hneg : neg = true
            · exact Or.inl hneg
            · rw [if_neg hneg] at h
              by_cases hd : d > 2 ^ 63 - 1
              · rw [if_pos hd] at h; simp at h
              · right; omega
      · rintro (h | ⟨gs, d, -, hwf, ht, hsum, hd⟩)
        · exact absurd h h0
        · have hp := (hiff d (Nat.lt_succ_self _)).2 ⟨gs, hwf, ht, hsum⟩
          simp only [hp]
          rcases hd with hd | hd
          · simp [hd]
          · by_cases hneg : neg = true
            · simp [hneg]
            · rw [if_neg hneg, if_neg (by omega)]
              rfl

/-- The acceptance set of `ParseDuration`: an optional sign, then the text "0" or one group
or more whose totals pass the overflow checks, the last total below `2^63` unless the sign is
minus. -/
theorem ParseDuration_isSome_iff (s : String) :
    (ParseDuration s).isSome = true ↔
      ∃ (sign rest : List Char), s.data = sign ++ rest ∧
        (sign = [] ∨ sign = ['+'] ∨ sign = ['-']) ∧
        (rest = ['0'] ∨ ∃ (gs : List Group) (d : Nat), gs ≠ [] ∧ (∀ g ∈ gs, g.wellFormed) ∧
          rest = gs.flatMap Group.text ∧ sumGroups gs 0 = some d ∧
          (sign = ['-'] ∨ d < 2 ^ 63)) := by
  have hnosign : ∀ (c : Char) (t rest : List Char), (c = '-' ∨ c = '+') →
      (rest = ['0'] ∨ ∃ (gs : List Group) (d : Nat), gs ≠ [] ∧ (∀ g ∈ gs, g.wellFormed) ∧
        rest = gs.flatMap Group.text ∧ sumGroups gs 0 = some d ∧ (False ∨ d < 2 ^ 63)) →
      c :: t ≠ rest := by
    intro c t rest hc hrest e
    rcases hrest with h | ⟨gs, d, -, hwf, ht, -⟩
    · rw [h] at e
      simp only [List.cons.injEq] at e
      rcases hc with h' | h' <;> rw [h'] at e <;> exact absurd e.1 (by decide)
    · rw [ht] at e
      have := flatMap_text_head gs hwf c t e.symm
      rcases hc with h' | h' <;> rw [h'] at this <;> exact absurd this (by decide)
  cases hd : s.data with
  | nil =>
    have hp : ParseDuration s = none := by
      simp [ParseDuration, hd]
    rw [hp]
    simp only [Option.isSome_none, Bool.false_eq_true, false_iff, not_exists, not_and]
    intro sign rest e hsign hrest
    have e1 : sign = [] ∧ rest = [] := by
      cases sign with
      | nil =>
        cases rest with
        | nil => exact ⟨rfl, rfl⟩
        | cons a r => simp at e
      | cons a r => simp at e
    obtain ⟨-, e2⟩ := e1
    subst e2
    have := (parseBody_isSome_iff false []).2
      (by
        rcases hrest with h | ⟨gs, d, a, b, c, e, -⟩
        · exact Or.inl h
        · exfalso
          cases gs with
          | nil => exact a rfl
          | cons g gs =>
            obtain ⟨c', t', hc, -⟩ := Group.text_head g (b g (List.mem_cons_self _ _))
            simp [hc] at c)
    simp at this
  | cons c t =>
    by_cases hc : c = '-' ∨ c = '+'
    · have hp : ParseDuration s =
          (if t = ['0'] then some (0 : Int)
            else if t = [] then none
            else
              match parseGroups (t.length + 1) t 0 with
              | none => none
              | some d =>
                if decide (c = '-') = true then some (toInt64 (-(toInt64 d)))
                else if d > 2 ^ 63 - 1 then none
                else some (toInt64 d)) := by
        simp only [ParseDuration, hd, hc, if_true]
      rw [hp, parseBody_isSome_iff]
      constructor
      · intro h
        refine ⟨[c], t, rfl, ?_, ?_⟩
        · rcases hc with h' | h' <;> simp [h']
        · rcases h with h | ⟨gs, d, a, b, e, f, g⟩
          · exact Or.inl h
          · refine Or.inr ⟨gs, d, a, b, e, f, ?_⟩
            rcases g with g | g
            · left; simp only [decide_eq_true_eq] at g; rw [g]
            · exact Or.inr g
      · rintro ⟨sign, rest, e, hsign, hrest⟩
        rcases hsign with h | h | h
        · subst h
          exfalso
          simp only [List.nil_append] at e
          refine hnosign c t rest hc ?_ e
          rcases hrest with h | ⟨gs, d, a, b, e', f, g⟩
          · exact Or.inl h
          · refine Or.inr ⟨gs, d, a, b, e', f, ?_⟩
            rcases g with g | g
            · cases g
            · exact Or.inr g
        · subst h
          simp only [List.cons_append, List.nil_append, List.cons.injEq] at e
          obtain ⟨e1, e2⟩ := e
          subst e2
          rcases hrest with h | ⟨gs, d, a, b, e', f, g⟩
          · exact Or.inl h
          · refine Or.inr ⟨gs, d, a, b, e', f, ?_⟩
            rcases g with g | g
            · cases g
            · exact Or.inr g
        · subst h
          simp only [List.cons_append, List.nil_append, List.cons.injEq] at e
          obtain ⟨e1, e2⟩ := e
          subst e2
          rcases hrest with h | ⟨gs, d, a, b, e', f, g⟩
          · exact Or.inl h
          · refine Or.inr ⟨gs, d, a, b, e', f, ?_⟩
            left; simp [e1]
    · have hp : ParseDuration s =
          (if c :: t = ['0'] then some (0 : Int)
            else if c :: t = [] then none
            else
              match parseGroups ((c :: t).length + 1) (c :: t) 0 with
              | none => none
              | some d =>
                if false = true then some (toInt64 (-(toInt64 d)))
                else if d > 2 ^ 63 - 1 then none
                else some (toInt64 d)) := by
        simp only [ParseDuration, hd, hc, if_false]
      rw [hp, parseBody_isSome_iff]
      push_neg at hc
      constructor
      · intro h
        refine ⟨[], c :: t, rfl, Or.inl rfl, ?_⟩
        rcases h with h | ⟨gs, d, a, b, e, f, g⟩
        · exact Or.inl h
        · refine Or.inr ⟨gs, d, a, b, e, f, ?_⟩
          rcases g with g | g
          · cases g
          · exact Or.inr g
      · rintro ⟨sign, rest, e, hsign, hrest⟩
        rcases hsign with h | h | h
        · subst h
          simp only [List.nil_append] at e
          subst e
          rcases hrest with h | ⟨gs, d, a, b, e', f, g⟩
          · exact Or.inl h
          · refine Or.inr ⟨gs, d, a, b, e', f, ?_⟩
            rcases g with g | g
            · cases g
            · exact Or.inr g
        · subst h
          simp only [List.cons_append, List.cons.injEq] at e
          exact absurd e.1 hc.2
        · subst h
          simp only [List.cons_append, List.cons.injEq] at e
          exact absurd e.1 hc.1

end time

namespace common

/-- C15, as stated, fails in both directions: "0" is accepted although it is not a signed
sequence of decimal numbers each followed by a unit suffix, and "9223372037s" is such a
sequence and is rejected (its nanoseconds do not fit in 64 bits). -/
theorem C15_duration_not_exactly_number_unit_sequences :
    ValidateDuration { Field := .str "0", Parent := [] } = true ∧
    ¬ time.IsDurationText "0" ∧
    time.IsDurationText "9223372037s" ∧
    ValidateDuration { Field := .str "9223372037s", Parent := [] } = false := by
  refine ⟨by decide, ?_, ?_, by decide⟩
  · rintro ⟨sign, gs, -, hne, hwf, hs⟩
    cases gs with
    | nil => exact hne rfl
    | cons g gs =>
      have hg := hwf g (List.mem_cons_self _ _)
      obtain ⟨hune, hub⟩ := time.unitMap_bytes g.unit hg.2.2.2
      cases hu : g.unit with
      | nil => exact hune hu
      | cons a u =>
        have ha : a ∈ ("0" : String).data := by
          rw [hs]
          simp [time.Group.text, hu]
        have ha' : a = '0' := by simpa using ha
        have := hub a (by rw [hu]; exact List.mem_cons_self _ _)
        rw [ha'] at this
        exact absurd this (by decide)
  · refine ⟨[], [⟨"9223372037".data, none, "s".data⟩], Or.inl rfl, by simp, ?_, by decide⟩
    intro g hg
    simp only [List.mem_singleton] at hg
    subst hg
    refine ⟨by decide, ?_, Or.inl (by decide), by decide⟩
    intro f hf
    cases hf

/-- C15, amended. The duration rule: `ValidateDuration` accepts "100ms" and "24h" and rejects
"abc" and ""; in general it accepts a string exactly when, after an optional sign, the rest
is "0", or is a sequence of one or more decimal numbers (digits with an optional fraction, at
least one digit) each followed by one of the unit suffixes `ns`, `us`, `µs`, `μs`, `ms`, `s`,
`m`, `h`, whose nanoseconds pass the overflow checks of the parser: every term and every
running total, kept in 64 bits, is at most `2^63`, and the last total is below `2^63` unless
the sign is minus. -/
theorem C15_duration_rule :
    ValidateDuration { Field := .str "100ms", Parent := [] } = true ∧
    ValidateDuration { Field := .str "24h", Parent := [] } = true ∧
    ValidateDuration { Field := .str "abc", Parent := [] } = false ∧
    ValidateDuration { Field := .str "", Parent := [] } = false ∧
    (∀ (s : String) (parent : List (String × FieldValue)),
      ValidateDuration { Field := .str s, Parent := parent } = true ↔
        ∃ (sign rest : List Char), s.data = sign ++ rest ∧
          (sign = [] ∨ sign = ['+'] ∨ sign = ['-']) ∧
          (rest = ['0'] ∨ ∃ (gs : List time.Group) (d : Nat), gs ≠ [] ∧
            (∀ g ∈ gs, g.wellFormed) ∧ rest = gs.flatMap time.Group.text ∧
            time.sumGroups gs 0 = some d ∧ (sign = ['-'] ∨ d < 2 ^ 63))) := by
  refine ⟨by decide, by decide, by decide, by decide, ?_⟩
  intro s parent
  exact time.ParseDuration_isSome_iff s

end common

/-! ## Properties of `Validate` and of the violation messages -/

namespace common

/-- The message of a violation is the name used for the field followed by a text that
depends on the tag and the parameter only. -/
theorem errorMessageOf_eq_append (fieldName tag fieldValue : String) :
    errorMessageOf fieldName tag fieldValue = fieldName ++ errorMessageSuffix tag fieldValue := by
  unfold errorMessageOf errorMessageSuffix
  by_cases h0 : tag = "uuid"
  · rw [if_pos h0, if_pos h0]
    try simp only [String.append_assoc]
  rw [if_neg h0, if_neg h0]
  by_cases h1 : tag = "required"
  · rw [if_pos h1, if_pos h1]
    try simp only [String.append_assoc]
  rw [if_neg h1, if_neg h1]
  by_cases h2 : tag = "required_without"
  · rw [if_pos h2, if_pos h2]
    try simp only [String.append_assoc]
  rw [if_neg h2, if_neg h2]
  by_cases h3 : tag = "len"
  · rw [if_pos h3, if_pos h3]
    try simp only [String.append_assoc]
  rw [if_neg h3, if_neg h3]
  by_cases h4 : tag = "oneof"
  · rw [if_pos h4, if_pos h4]
    try simp only [String.append_assoc]
  rw [if_neg h4, if_neg h4]
  by_cases h5 : tag = "gt"
  · rw [if_pos h5, if_pos h5]
    try simp only [String.append_assoc]
  rw [if_neg h5, if_neg h5]
  by_cases h6 : tag = dtoDurationTag
  · rw [if_pos h6, if_pos h6]
    try simp only [String.append_assoc]
  rw [if_neg h6, if_neg h6]
  by_cases h7 : tag = dtoUuidTag
  · rw [if_pos h7, if_pos h7]
    try simp only [String.append_assoc]
  rw [if_neg h7, if_neg h7]
  by_cases h8 : tag = dtoNoneEmptyStringTag
  · rw [if_pos h8, if_pos h8]
    try simp only [String.append_assoc]
  rw [if_neg h8, if_neg h8]
  by_cases h9 : tag = dtoRFC3986UnreservedCharTag
  · rw [if_pos h9, if_pos h9]
    try simp only [String.append_assoc]
  rw [if_neg h9, if_neg h9]
  try simp only [String.append_assoc]

/-- The message of a violation on a field of the record itself, for a record handed over by
value: the name used is the display label of the field when the type has the field and the
label is not empty, the struct namespace of the violation otherwise. -/
theorem getErrorMessage_struct_top
    (look : Record → String → Option reflect.StructType) (t : reflect.StructType)
    (e : validator.FieldError)
    (htop : strings.Index e.StructNamespace "." = strings.LastIndex e.StructNamespace ".") :
    getErrorMessage look (.struct t) e =
      .ok (errorMessageOf
        (match t.FieldByName e.StructField with
          | some sd => if sd.validate_name ≠ "" then sd.validate_name else e.StructNamespace
          | none => e.StructNamespace)
        e.Tag e.Param) := by
  unfold getErrorMessage
  simp only [htop, if_true]

/-- For a record handed over by value `getErrorMessage` returns a message. -/
theorem getErrorMessage_struct_ok
    (look : Record → String → Option reflect.StructType) (t : reflect.StructType)
    (e : validator.FieldError) :
    ∃ msg, getErrorMessage look (.struct t) e = .ok msg := by
  unfold getErrorMessage
  by_cases htop : strings.Index e.StructNamespace "." = strings.LastIndex e.StructNamespace "."
  · simp only [htop, if_true]
    exact ⟨_, rfl⟩
  · simp only [htop, if_false]
    generalize look (Record.struct t) _ = r
    cases r <;> exact ⟨_, rfl⟩

/-- The loop of `Validate` on a record handed over by value: the messages of the field
errors, in their order, behind the messages so far. -/
theorem validateMessages_struct
    (look : Record → String → Option reflect.StructType) (t : reflect.StructType)
    (errs : List validator.FieldError) :
    ∀ errMsg : List String, ∃ msgs : List String,
      List.Forall₂ (fun e m => getErrorMessage look (.struct t) e = .ok m) errs msgs ∧
      validateMessages look (.struct t) errs errMsg = .ok (errMsg ++ msgs) := by
  induction errs with
  | nil => intro errMsg; exact ⟨[], List.Forall₂.nil, by simp [validateMessages]⟩
  | cons e rest ih =>
    intro errMsg
    obtain ⟨m, hm⟩ := getErrorMessage_struct_ok look t e
    obtain ⟨msgs, hall, hv⟩ := ih (errMsg ++ [m])
    refine ⟨m :: msgs, List.Forall₂.cons hm hall, ?_⟩
    simp only [validateMessages, hm, hv, List.append_assoc, List.singleton_append]

/-- C16. Aggregation without short-circuit: for a record handed over by value, `Validate`
returns `nil` if and only if the validator reports no field violation; otherwise it returns
one error of kind `ContractInvalid` whose message is the messages of all the violations
reported, one for each and in their order, joined by "; "; so two violations with the
messages `mA` and `mB` give `mA ++ "; " ++ mB`. -/
theorem C16_validate_aggregates
    (look : Record → String → Option reflect.StructType) (t : reflect.StructType)
    (errs : List validator.FieldError) :
    (Validate look (.struct t) errs = .ok none ↔ errs = []) ∧
    (errs ≠ [] → ∃ msgs : List String,
      List.Forall₂ (fun e m => getErrorMessage look (.struct t) e = .ok m) errs msgs ∧
      Validate look (.struct t) errs =
        .ok (some (errors.NewCommonEdgeX errors.KindContractInvalid
          (strings.Join msgs "; ") none))) ∧
    (∀ (eA eB : validator.FieldError) (mA mB : String),
      getErrorMessage look (.struct t) eA = .ok mA →
      getErrorMessage look (.struct t) eB = .ok mB →
      Validate look (.struct t) [eA, eB] =
        .ok (some (errors.NewCommonEdgeX errors.KindContractInvalid
          (mA ++ "; " ++ mB) none))) := by
  have hsome : ∀ es : List validator.FieldError, es ≠ [] → ∃ msgs : List String,
      List.Forall₂ (fun e m => getErrorMessage look (.struct t) e = .ok m) es msgs ∧
      Validate look (.struct t) es =
        .ok (some (errors.NewCommonEdgeX errors.KindContractInvalid
          (strings.Join msgs "; ") none)) := by
    intro es hne
    obtain ⟨msgs, hall, hv⟩ := validateMessages_struct look t es []
    refine ⟨msgs, hall, ?_⟩
    simp only [Validate, hne, if_false, hv, List.nil_append]
  refine ⟨?_, hsome errs, ?_⟩
  · constructor
    · intro h
      by_contra hne
      obtain ⟨msgs, -, hv⟩ := hsome errs hne
      rw [hv] at h
      cases h
    · intro h
      simp [Validate, h]
  · intro eA eB mA mB hA hB
    simp only [Validate, validateMessages, hA, hB, List.nil_append, List.singleton_append,
      strings.Join]
    simp

/-- C16, at the update interval with no `Id` and a `Name` outside the unreserved characters:
the two violations give one error with the two messages joined by "; ". -/
theorem C16_validate_aggregates_witness :
    ([⟨"UpdateInterval.Id", "Id", "required_without", "Name"⟩,
        ⟨"UpdateInterval.Name", "Name", dtoRFC3986UnreservedCharTag, ""⟩] :
      List validator.FieldError) ≠ [] ∧
    ∃ msgs : List String,
      List.Forall₂
        (fun e m => getErrorMessage (fun _ _ => none) (.struct dtos.UpdateIntervalType) e = .ok m)
        [⟨"UpdateInterval.Id", "Id", "required_without", "Name"⟩,
          ⟨"UpdateInterval.Name", "Name", dtoRFC3986UnreservedCharTag, ""⟩] msgs ∧
      Validate (fun _ _ => none) (.struct dtos.UpdateIntervalType)
          [⟨"UpdateInterval.Id", "Id", "required_without", "Name"⟩,
            ⟨"UpdateInterval.Name", "Name", dtoRFC3986UnreservedCharTag, ""⟩] =
        .ok (some (errors.NewCommonEdgeX errors.KindContractInvalid
          (strings.Join msgs "; ") none)) :=
  ⟨by decide,
    (C16_validate_aggregates (fun _ _ => none) dtos.UpdateIntervalType
      [⟨"UpdateInterval.Id", "Id", "required_without", "Name"⟩,
        ⟨"UpdateInterval.Name", "Name", dtoRFC3986UnreservedCharTag, ""⟩]).2.1 (by decide)⟩

/-- C17, as stated, fails: on the record `T` whose field `F` has no display label, the message
of the violation of `required` on `F` names the field `T.F`, the struct namespace, and not
`F`, the raw field name. -/
theorem C17_fallback_is_struct_namespace :
    getErrorMessage (fun _ _ => none) (.struct ⟨"T", [⟨"F", ""⟩]⟩) ⟨"T.F", "F", "required", ""⟩ =
      .ok "T.F为必填项" ∧
    errorMessageOf "T.F" "required" "" = "T.F为必填项" ∧
    errorMessageOf "F" "required" "" ≠ "T.F为必填项" := by
  refine ⟨by decide, by decide, by decide⟩

/-- C17, amended. Label resolution in violation messages: for every violation on a field of
the record itself, the record being handed over by value, `getErrorMessage` names the field
by its display label (the `validate_name` tag) when that label is not empty, and by the
struct namespace of the violation (the name of the type, a dot and the name of the field)
when no label is configured; the message is the name followed by a text that depends on the
tag and the parameter only. -/
theorem C17_label_resolution
    (look : Record → String → Option reflect.StructType) (t : reflect.StructType)
    (e : validator.FieldError) (sd : reflect.StructField)
    (htop : strings.Index e.StructNamespace "." = strings.LastIndex e.StructNamespace ".")
    (hfield : t.FieldByName e.StructField = some sd) :
    (sd.validate_name ≠ "" →
      getErrorMessage look (.struct t) e =
        .ok (sd.validate_name ++ errorMessageSuffix e.Tag e.Param)) ∧
    (sd.validate_name = "" →
      getErrorMessage look (.struct t) e =
        .ok (e.StructNamespace ++ errorMessageSuffix e.Tag e.Param)) := by
  have h := getErrorMessage_struct_top look t e htop
  rw [hfield] at h
  constructor
  · intro hl
    rw [h, errorMessageOf_eq_append]
    simp only [hl, ne_eq, not_false_eq_true, if_true]
  · intro hl
    rw [h, errorMessageOf_eq_append]
    simp only [hl, ne_eq, not_true_eq_false, if_false]

/-- C17, amended, at the field `Name` of the update interval, whose label is "间隔名称", and at
the field `F` of a record `T` without label. -/
theorem C17_label_resolution_witness :
    (strings.Index "UpdateInterval.Name" "." = strings.LastIndex "UpdateInterval.Name" "." ∧
      dtos.UpdateIntervalType.FieldByName "Name" = some ⟨"Name", "间隔名称"⟩ ∧
      ("间隔名称" : String) ≠ "") ∧
    getErrorMessage (fun _ _ => none) (.struct dtos.UpdateIntervalType)
        ⟨"UpdateInterval.Name", "Name", dtoNoneEmptyStringTag, ""⟩ =
      .ok ("间隔名称" ++ errorMessageSuffix dtoNoneEmptyStringTag "") ∧
    getErrorMessage (fun _ _ => none) (.struct ⟨"T", [⟨"F", ""⟩]⟩)
        ⟨"T.F", "F", "required", ""⟩ =
      .ok ("T.F" ++ errorMessageSuffix "required" "") :=
  ⟨⟨by decide, by decide, by decide⟩,
    (C17_label_resolution (fun _ _ => none) dtos.UpdateIntervalType
      ⟨"UpdateInterval.Name", "Name", dtoNoneEmptyStringTag, ""⟩ ⟨"Name", "间隔名称"⟩
      (by decide) (by decide)).1 (by decide),
    (C17_label_resolution (fun _ _ => none) ⟨"T", [⟨"F", ""⟩]⟩
      ⟨"T.F", "F", "required", ""⟩ ⟨"F", ""⟩ (by decide) (by decide)).2 rfl⟩

/-- C18, as stated, fails: on the update interval, the violation of `required_without=Name` on
`Id` (label "间隔ID") gives a message built from the raw field name `Name` of the sibling; the
label "间隔名称" of the sibling does not occur in it. -/
theorem C18_message_names_sibling_by_raw_name :
    getErrorMessage (fun _ _ => none) (.struct dtos.UpdateIntervalType)
        ⟨"UpdateInterval.Id", "Id", "required_without", "Name"⟩ =
      .ok "间隔ID为必填项（当Name为空时）" ∧
    dtos.UpdateIntervalType.FieldByName "Name" = some ⟨"Name", "间隔名称"⟩ ∧
    strings.Contains "间隔ID为必填项（当Name为空时）" "间隔名称" = false ∧
    ("间隔ID为必填项（当Name为空时）" : String) ≠ "间隔ID为必填项（当间隔名称为空时）" := by
  refine ⟨by decide, by decide, by decide, by decide⟩

/-- C18, amended. The conditional-presence message: for every violation of
`required_without` with the parameter `p` (the name of the sibling field as the rule writes
it) on a field of the record itself with the display label `L`, the record being handed over
by value, the message is `L`, then "为必填项（当", then `p`, then "为空时）": it is built from `L`
and the raw field name of the sibling. -/
theorem C18_required_without_message
    (look : Record → String → Option reflect.StructType) (t : reflect.StructType)
    (e : validator.FieldError) (sd : reflect.StructField)
    (htop : strings.Index e.StructNamespace "." = strings.LastIndex e.StructNamespace ".")
    (hfield : t.FieldByName e.StructField = some sd) (hlabel : sd.validate_name ≠ "")
    (htag : e.Tag = "required_without") :
    getErrorMessage look (.struct t) e =
      .ok (sd.validate_name ++ "为必填项（当" ++ e.Param ++ "为空时）") := by
  have h := getErrorMessage_struct_top look t e htop
  rw [hfield] at h
  rw [h, htag]
  simp only [hlabel, ne_eq, not_false_eq_true, if_true]
  rfl

/-- C18, amended, at the update interval: the violation of `required_without=Name` on `Id`. -/
theorem C18_required_without_message_witness :
    (strings.Index "UpdateInterval.Id" "." = strings.LastIndex "UpdateInterval.Id" "." ∧
      dtos.UpdateIntervalType.FieldByName "Id" = some ⟨"Id", "间隔ID"⟩ ∧
      ("间隔ID" : String) ≠ "") ∧
    getErrorMessage (fun _ _ => none) (.struct dtos.UpdateIntervalType)
        ⟨"UpdateInterval.Id", "Id", "required_without", "Name"⟩ =
      .ok ("间隔ID" ++ "为必填项（当" ++ "Name" ++ "为空时）") :=
  ⟨⟨by decide, by decide, by decide⟩,
    C18_required_without_message (fun _ _ => none) dtos.UpdateIntervalType
      ⟨"UpdateInterval.Id", "Id", "required_without", "Name"⟩ ⟨"Id", "间隔ID"⟩
      (by decide) (by decide) (by decide) rfl⟩

end common

/-! ## The interval conversions -/

namespace dtos

open reflect

/-- The DTO that comes back from the model of an interval: the five fields `ToIntervalModel`
assigns, and the zero time stamps. -/
theorem FromIntervalModelToDTO_ToIntervalModel (d : Interval) :
    FromIntervalModelToDTO (ToIntervalModel d) =
      { d with DBTimestamp := { Created := 0, Modified := 0 } } := rfl

/-- C26. The interval round trip loses the time stamps: `ToIntervalModel` does not assign
`DBTimestamp`, so for every interval DTO `d` the DTO that comes back has `Id`, `Name`,
`Start`, `End` and `Interval` of `d` and the zero time stamps; it is `d` only when the time
stamps of `d` are zero, and the interval created at 1 and modified at 2 does not come back. -/
theorem C26_interval_round_trip_drops_timestamps :
    (∀ d : Interval,
      (FromIntervalModelToDTO (ToIntervalModel d)).Id = d.Id ∧
      (FromIntervalModelToDTO (ToIntervalModel d)).Name = d.Name ∧
      (FromIntervalModelToDTO (ToIntervalModel d)).Start = d.Start ∧
      (FromIntervalModelToDTO (ToIntervalModel d)).End = d.End ∧
      (FromIntervalModelToDTO (ToIntervalModel d)).Interval = d.Interval ∧
      (FromIntervalModelToDTO (ToIntervalModel d)).DBTimestamp =
        { Created := 0, Modified := 0 }) ∧
    (∀ d : Interval, FromIntervalModelToDTO (ToIntervalModel d) = d ↔
      d.DBTimestamp = { Created := 0, Modified := 0 }) ∧
    FromIntervalModelToDTO (ToIntervalModel
        { DBTimestamp := { Created := 1, Modified := 2 },
          Id := "", Name := "hourly", Start := "", End := "", Interval := "1h" }) =
      { DBTimestamp := { Created := 0, Modified := 0 },
        Id := "", Name := "hourly", Start := "", End := "", Interval := "1h" } ∧
    FromIntervalModelToDTO (ToIntervalModel
        { DBTimestamp := { Created := 1, Modified := 2 },
          Id := "", Name := "hourly", Start := "", End := "", Interval := "1h" }) ≠
      { DBTimestamp := { Created := 1, Modified := 2 },
        Id := "", Name := "hourly", Start := "", End := "", Interval := "1h" } := by
  refine ⟨fun d => ⟨rfl, rfl, rfl, rfl, rfl, rfl⟩, ?_, rfl, by decide⟩
  intro d
  rw [FromIntervalModelToDTO_ToIntervalModel]
  constructor
  · intro h
    rw [← h]
  · intro h
    cases d
    simp only at h
    subst h
    rfl

/-- C27. The codec is not total: `validateType` calls `Kind()` on `reflect.TypeOf(value)`,
which is the nil `Type` for the nil interface, so it panics for every kind; with it
`convertInterfaceValue` panics on the nil interface under each of the twelve scalar names and
under the array names of the ten kinds that are not floats, as under `Int32` and under
`BoolArray`; only the two float array names, which assert the type of the value, return an
error there. -/
theorem C27_codec_panics_on_nil :
    (∀ (valueType : String) (kind : Kind),
      validateType valueType kind .nil = .error nilTypePanic) ∧
    (∀ K : ScalarKind, convertInterfaceValue K.name .nil = .error nilTypePanic) ∧
    (∀ K : ScalarKind, convertInterfaceValue K.arrayName .nil =
      if K.isFloat then
        .ok ("", some ("转换数据 " ++ K.arrayName ++ " 为 []" ++ Kind_String K.goType.Kind ++ " 失败"))
      else .error nilTypePanic) ∧
    convertInterfaceValue common.ValueTypeInt32 .nil = .error nilTypePanic ∧
    convertInterfaceValue common.ValueTypeBoolArray .nil = .error nilTypePanic := by
  refine ⟨fun _ _ => rfl, fun K => by cases K <;> rfl, fun K => by cases K <;> rfl, rfl, rfl⟩

end dtos

/-! ## Validation of a record handed over as a pointer -/

namespace common

/-- On a record handed over as a pointer, the message of a violation on a field of the record
itself is not built: `FieldByName` of the pointer type panics. -/
theorem getErrorMessage_ptr_top
    (look : Record → String → Option reflect.StructType) (t : reflect.StructType)
    (e : validator.FieldError)
    (htop : strings.Index e.StructNamespace "." = strings.LastIndex e.StructNamespace ".") :
    getErrorMessage look (.ptr t) e =
      .error ("reflect: FieldByName of non-struct type *" ++ t.Name) := by
  unfold getErrorMessage
  simp only [htop, if_true]

/-- On a record handed over as a pointer, the message of a violation on a nested field is
built. -/
theorem getErrorMessage_ptr_nested
    (look : Record → String → Option reflect.StructType) (t : reflect.StructType)
    (e : validator.FieldError)
    (hnested : strings.Index e.StructNamespace "." ≠ strings.LastIndex e.StructNamespace ".") :
    ∃ msg, getErrorMessage look (.ptr t) e = .ok msg := by
  unfold getErrorMessage
  simp only [hnested, if_false]
  generalize look (Record.ptr t) _ = r
  cases r <;> exact ⟨_, rfl⟩

/-- The loop of `Validate` on a record handed over as a pointer panics as soon as one of the
violations is on a field of the record itself. -/
theorem validateMessages_ptr_top
    (look : Record → String → Option reflect.StructType) (t : reflect.StructType)
    (errs : List validator.FieldError) (e : validator.FieldError) (he : e ∈ errs)
    (htop : strings.Index e.StructNamespace "." = strings.LastIndex e.StructNamespace ".") :
    ∀ errMsg : List String, validateMessages look (.ptr t) errs errMsg =
      .error ("reflect: FieldByName of non-struct type *" ++ t.Name) := by
  induction errs with
  | nil => cases he
  | cons e0 rest ih =>
    intro errMsg
    by_cases h0 : strings.Index e0.StructNamespace "." = strings.LastIndex e0.StructNamespace "."
    · simp only [validateMessages, getErrorMessage_ptr_top look t e0 h0]
    · obtain ⟨m, hm⟩ := getErrorMessage_ptr_nested look t e0 h0
      have hrest : e ∈ rest := by
        rcases List.mem_cons.mp he with h | h
        · subst h
          exact absurd htop h0
        · exact h
      simp only [validateMessages, hm, ih hrest]

/-- The function `Validate` on a record handed over as a pointer panics when one of the
violations is on a field of the record itself. -/
theorem Validate_ptr_top
    (look : Record → String → Option reflect.StructType) (t : reflect.StructType)
    (errs : List validator.FieldError) (e : validator.FieldError) (he : e ∈ errs)
    (htop : strings.Index e.StructNamespace "." = strings.LastIndex e.StructNamespace ".") :
    Validate look (.ptr t) errs =
      .error ("reflect: FieldByName of non-struct type *" ++ t.Name) := by
  have hne : errs ≠ [] := by
    intro h
    rw [h] at he
    cases he
  simp only [Validate, hne, if_false, validateMessages_ptr_top look t errs e he htop []]

end common

namespace dtos

/-- C21. Validation of a device profile does not report a violation on a top-level field, it
panics: `DeviceProfile.Validate` hands the pointer to `common.Validate`, and `getErrorMessage`
calls `FieldByName` on the pointer type for a violation whose namespace has a single dot. So
for every profile for which the validator reports at least one violation on a top-level
field (such as `required` on an empty `Name`), `DeviceProfile.Validate` panics and returns no
error of kind `ContractInvalid`. -/
theorem C21_pointer_record_top_level_violation_panics
    (look : common.Record → String → Option reflect.StructType) (W RW : String)
    (dp : DeviceProfile) (errs : List validator.FieldError) (e : validator.FieldError)
    (he : e ∈ errs)
    (htop : strings.Index e.StructNamespace "." = strings.LastIndex e.StructNamespace ".") :
    DeviceProfile.Validate look W RW errs dp =
      .error "reflect: FieldByName of non-struct type *DeviceProfile" := by
  unfold DeviceProfile.Validate
  rw [common.Validate_ptr_top look DeviceProfileType errs e he htop]
  rfl

/-- C21, at the profile with the empty `Name` and one resource, for which the validator reports
`required` on `DeviceProfile.Name`: the validation panics. -/
theorem C21_pointer_record_top_level_violation_panics_witness :
    (⟨"DeviceProfile.Name", "Name", "required", ""⟩ : validator.FieldError) ∈
      ([⟨"DeviceProfile.Name", "Name", "required", ""⟩] : List validator.FieldError) ∧
    strings.Index "DeviceProfile.Name" "." = strings.LastIndex "DeviceProfile.Name" "." ∧
    DeviceProfile.Validate (fun _ _ => none) "W" "RW"
        [⟨"DeviceProfile.Name", "Name", "required", ""⟩]
        (DeviceProfile.ofParts [⟨"r", ⟨"Int8", "R"⟩⟩] []) =
      .error "reflect: FieldByName of non-struct type *DeviceProfile" :=
  ⟨by decide, by decide,
    C21_pointer_record_top_level_violation_panics (fun _ _ => none) "W" "RW"
      (DeviceProfile.ofParts [⟨"r", ⟨"Int8", "R"⟩⟩] [])
      [⟨"DeviceProfile.Name", "Name", "required", ""⟩]
      ⟨"DeviceProfile.Name", "Name", "required", ""⟩ (by decide) (by decide)⟩

end dtos

/-! ## The constructors of a reading -/

namespace dtos

open reflect

/-- C22. `NewSimpleReading` is all-or-nothing: it returns an error exactly when
`convertInterfaceValue` returns one for the value type and the value, the same error, and the
reading is then the zero `BaseReading`; it returns without error exactly when
`convertInterfaceValue` does, and the reading then has the profile, device and resource names
and the value type of the call, the text `convertInterfaceValue` returned as `Value`, and an
empty `BinaryValue`, `MediaType` and `ObjectValue`; a panic of `convertInterfaceValue` is the
only way not to return. -/
theorem C22_new_simple_reading_all_or_nothing (id : String) (origin : Int)
    (profileName deviceName resourceName valueType : String) (value : Value) :
    (∀ err : String,
      (∃ r, NewSimpleReading id origin profileName deviceName resourceName valueType value =
          .ok (r, some err)) ↔
        ∃ s, convertInterfaceValue valueType value = .ok (s, some err)) ∧
    (∀ (r : BaseReading) (err : String),
      NewSimpleReading id origin profileName deviceName resourceName valueType value =
          .ok (r, some err) →
        r = BaseReading.zero) ∧
    (∀ r : BaseReading,
      NewSimpleReading id origin profileName deviceName resourceName valueType value =
          .ok (r, none) ↔
        ∃ s, convertInterfaceValue valueType value = .ok (s, none) ∧
          r = { Id := id, Origin := origin, DeviceName := deviceName,
                ResourceName := resourceName, ProfileName := profileName,
                ValueType := valueType,
                BinaryReading := { BinaryValue := none, MediaType := "" },
                SimpleReading := { Value := s },
                ObjectReading := { ObjectValue := .nil } }) ∧
    (∀ p : String,
      NewSimpleReading id origin profileName deviceName resourceName valueType value =
          .error p ↔
        convertInterfaceValue valueType value = .error p) := by
  unfold NewSimpleReading
  rcases h : convertInterfaceValue valueType value with p | ⟨s, _ | e⟩
  · simp
  · refine ⟨by simp, by simp, ?_, by simp⟩
    intro r
    simp only [Except.ok.injEq, Prod.mk.injEq, and_true, newBaseReading, BaseReading.zero]
    constructor
    · intro hr
      exact ⟨s, rfl, hr.symm⟩
    · rintro ⟨s', hs, hr⟩
      subst hs
      exact hr.symm
  · refine ⟨?_, ?_, by simp, by simp⟩
    · intro err
      simp only [Except.ok.injEq, Prod.mk.injEq, Option.some.injEq]
      constructor
      · rintro ⟨r, -, he⟩
        exact ⟨s, rfl, he⟩
      · rintro ⟨s', -, he⟩
        exact ⟨BaseReading.zero, rfl, he⟩
    · intro r err hr
      simp only [Except.ok.injEq, Prod.mk.injEq] at hr
      exact hr.1.symm

/-- C22, at the `int32` value 5 under `Int32` and at the `int64` value 5 under `Int32`: the
first gives the reading with the value "5", the second the error of the codec. -/
theorem C22_new_simple_reading_all_or_nothing_witness :
    NewSimpleReading "id" 7 "profile" "device" "resource" "Int32" (.integer .int32 5) =
      .ok ({ Id := "id", Origin := 7, DeviceName := "device", ResourceName := "resource",
             ProfileName := "profile", ValueType := "Int32",
             BinaryReading := { BinaryValue := none, MediaType := "" },
             SimpleReading := { Value := "5" },
             ObjectReading := { ObjectValue := .nil } }, none) ∧
    (∃ r, NewSimpleReading "id" 7 "profile" "device" "resource" "Int32" (.integer .int64 5) =
        .ok (r, some "`int32` 不匹配数据类型 'Int32")) :=
  ⟨((C22_new_simple_reading_all_or_nothing "id" 7 "profile" "device" "resource" "Int32"
      (.integer .int32 5)).2.2.1 _).mpr ⟨"5", rfl, rfl⟩,
    ((C22_new_simple_reading_all_or_nothing "id" 7 "profile" "device" "resource" "Int32"
      (.integer .int64 5)).1 "`int32` 不匹配数据类型 'Int32").mpr ⟨"", rfl⟩⟩

end dtos

/-! ## The conversions between a reading and its model -/

namespace dtos

open reflect

/-- The DTO that comes back from the model of a reading: the six fields of the reading and
the payload of the variant its value type selects. -/
theorem FromReadingModelToDTO_ToReadingModel (r : BaseReading) :
    FromReadingModelToDTO (ToReadingModel r) =
      if r.ValueType = common.ValueTypeBinary then
        { r with SimpleReading := { Value := "" }, ObjectReading := { ObjectValue := .nil } }
      else if r.ValueType = common.ValueTypeObject then
        { r with BinaryReading := { BinaryValue := none, MediaType := "" },
                 SimpleReading := { Value := "" } }
      else
        { r with BinaryReading := { BinaryValue := none, MediaType := "" },
                 ObjectReading := { ObjectValue := .nil } } := by
  unfold ToReadingModel
  split_ifs <;> rfl

/-- The model that comes back from the DTO of a model of the `Binary` variant. -/
theorem ToReadingModel_FromReadingModelToDTO_binary (br : models.BaseReading)
    (binaryValue : Bytes) (mediaType : String) :
    ToReadingModel (FromReadingModelToDTO (.BinaryReading br binaryValue mediaType)) =
      if br.ValueType = common.ValueTypeBinary then .BinaryReading br binaryValue mediaType
      else if br.ValueType = common.ValueTypeObject then .ObjectReading br .nil
      else .SimpleReading br "" := rfl

/-- The model that comes back from the DTO of a model of the `Object` variant. -/
theorem ToReadingModel_FromReadingModelToDTO_object (br : models.BaseReading)
    (objectValue : Object) :
    ToReadingModel (FromReadingModelToDTO (.ObjectReading br objectValue)) =
      if br.ValueType = common.ValueTypeBinary then .BinaryReading br none ""
      else if br.ValueType = common.ValueTypeObject then .ObjectReading br objectValue
      else .SimpleReading br "" := rfl

/-- The model that comes back from the DTO of a model of the `Simple` variant. -/
theorem ToReadingModel_FromReadingModelToDTO_simple (br : models.BaseReading)
    (value : String) :
    ToReadingModel (FromReadingModelToDTO (.SimpleReading br value)) =
      if br.ValueType = common.ValueTypeBinary then .BinaryReading br none ""
      else if br.ValueType = common.ValueTypeObject then .ObjectReading br .nil
      else .SimpleReading br value := rfl

/-- C25, as stated, fails: the model of the `Binary` variant whose value type is `Int8` does
not come back; its DTO has the value type `Int8`, for which `ToReadingModel` builds the
`Simple` variant, with the empty value. -/
theorem C25_mismatched_variant_does_not_come_back :
    ToReadingModel (FromReadingModelToDTO
        (.BinaryReading
          { Id := "id", Origin := 7, DeviceName := "device", ResourceName := "resource",
            ProfileName := "profile", ValueType := "Int8" }
          (some [1, 2]) "image/png")) =
      .SimpleReading
        { Id := "id", Origin := 7, DeviceName := "device", ResourceName := "resource",
          ProfileName := "profile", ValueType := "Int8" } "" ∧
    ToReadingModel (FromReadingModelToDTO
        (.BinaryReading
          { Id := "id", Origin := 7, DeviceName := "device", ResourceName := "resource",
            ProfileName := "profile", ValueType := "Int8" }
          (some [1, 2]) "image/png")) ≠
      .BinaryReading
        { Id := "id", Origin := 7, DeviceName := "device", ResourceName := "resource",
          ProfileName := "profile", ValueType := "Int8" }
        (some [1, 2]) "image/png" := by
  refine ⟨rfl, ?_⟩
  intro h
  cases h

/-- C25. Reading conversion round trips. For every `BaseReading` `r`, the DTO that comes back
from the model of `r` has the `Id`, `Origin`, `DeviceName`, `ResourceName`, `ProfileName` and
`ValueType` of `r` and the payload of the variant that the value type of `r` selects
(`Binary`, `Object`, otherwise `Simple`), its two other payloads being empty. A reading model
of the `Binary`, `Object` or `Simple` variant comes back from its DTO exactly when its variant
is the one its value type selects. -/
theorem C25_reading_round_trips :
    (∀ r : BaseReading,
      (FromReadingModelToDTO (ToReadingModel r)).Id = r.Id ∧
      (FromReadingModelToDTO (ToReadingModel r)).Origin = r.Origin ∧
      (FromReadingModelToDTO (ToReadingModel r)).DeviceName = r.DeviceName ∧
      (FromReadingModelToDTO (ToReadingModel r)).ResourceName = r.ResourceName ∧
      (FromReadingModelToDTO (ToReadingModel r)).ProfileName = r.ProfileName ∧
      (FromReadingModelToDTO (ToReadingModel r)).ValueType = r.ValueType ∧
      (r.ValueType = common.ValueTypeBinary →
        (FromReadingModelToDTO (ToReadingModel r)).BinaryReading = r.BinaryReading ∧
        (FromReadingModelToDTO (ToReadingModel r)).ObjectReading = { ObjectValue := .nil } ∧
        (FromReadingModelToDTO (ToReadingModel r)).SimpleReading = { Value := "" }) ∧
      (r.ValueType ≠ common.ValueTypeBinary → r.ValueType = common.ValueTypeObject →
        (FromReadingModelToDTO (ToReadingModel r)).ObjectReading = r.ObjectReading ∧
        (FromReadingModelToDTO (ToReadingModel r)).BinaryReading =
          { BinaryValue := none, MediaType := "" } ∧
        (FromReadingModelToDTO (ToReadingModel r)).SimpleReading = { Value := "" }) ∧
      (r.ValueType ≠ common.ValueTypeBinary → r.ValueType ≠ common.ValueTypeObject →
        (FromReadingModelToDTO (ToReadingModel r)).SimpleReading = r.SimpleReading ∧
        (FromReadingModelToDTO (ToReadingModel r)).BinaryReading =
          { BinaryValue := none, MediaType := "" } ∧
        (FromReadingModelToDTO (ToReadingModel r)).ObjectReading = { ObjectValue := .nil })) ∧
    (∀ (br : models.BaseReading) (binaryValue : Bytes) (mediaType : String),
      ToReadingModel (FromReadingModelToDTO (.BinaryReading br binaryValue mediaType)) =
          .BinaryReading br binaryValue mediaType ↔
        br.ValueType = common.ValueTypeBinary) ∧
    (∀ (br : models.BaseReading) (objectValue : Object),
      ToReadingModel (FromReadingModelToDTO (.ObjectReading br objectValue)) =
          .ObjectReading br objectValue ↔
        br.ValueType ≠ common.ValueTypeBinary ∧ br.ValueType = common.ValueTypeObject) ∧
    (∀ (br : models.BaseReading) (value : String),
      ToReadingModel (FromReadingModelToDTO (.SimpleReading br value)) =
          .SimpleReading br value ↔
        br.ValueType ≠ common.ValueTypeBinary ∧ br.ValueType ≠ common.ValueTypeObject) := by
  refine ⟨?_, ?_, ?_, ?_⟩
  · intro r
    rw [FromReadingModelToDTO_ToReadingModel]
    by_cases hb : r.ValueType = common.ValueTypeBinary
    · rw [if_pos hb]
      exact ⟨rfl, rfl, rfl, rfl, rfl, rfl, fun _ => ⟨rfl, rfl, rfl⟩, fun h => absurd hb h,
        fun h => absurd hb h⟩
    · by_cases ho : r.ValueType = common.ValueTypeObject
      · rw [if_neg hb, if_pos ho]
        exact ⟨rfl, rfl, rfl, rfl, rfl, rfl, fun h => absurd h hb, fun _ _ => ⟨rfl, rfl, rfl⟩,
          fun _ h => absurd ho h⟩
      · rw [if_neg hb, if_neg ho]
        exact ⟨rfl, rfl, rfl, rfl, rfl, rfl, fun h => absurd h hb, fun _ h => absurd h ho,
          fun _ _ => ⟨rfl, rfl, rfl⟩⟩
  · intro br bv mt
    rw [ToReadingModel_FromReadingModelToDTO_binary]
    by_cases hb : br.ValueType = common.ValueTypeBinary
    · rw [if_pos hb]
      exact ⟨fun _ => hb, fun _ => rfl⟩
    · rw [if_neg hb]
      refine ⟨fun h => ?_, fun h => absurd h hb⟩
      split at h <;> cases h
  · intro br ov
    rw [ToReadingModel_FromReadingModelToDTO_object]
    by_cases hb : br.ValueType = common.ValueTypeBinary
    · rw [if_pos hb]
      refine ⟨fun h => ?_, fun h => absurd hb h.1⟩
      cases h
    · by_cases ho : br.ValueType = common.ValueTypeObject
      · rw [if_neg hb, if_pos ho]
        exact ⟨fun _ => ⟨hb, ho⟩, fun _ => rfl⟩
      · rw [if_neg hb, if_neg ho]
        refine ⟨fun h => ?_, fun h => absurd h.2 ho⟩
        cases h
  · intro br v
    rw [ToReadingModel_FromReadingModelToDTO_simple]
    by_cases hb : br.ValueType = common.ValueTypeBinary
    · rw [if_pos hb]
      refine ⟨fun h => ?_, fun h => absurd hb h.1⟩
      cases h
    · by_cases ho : br.ValueType = common.ValueTypeObject
      · rw [if_neg hb, if_pos ho]
        refine ⟨fun h => ?_, fun h => absurd ho h.2⟩
        cases h
      · rw [if_neg hb, if_neg ho]
        exact ⟨fun _ => ⟨hb, ho⟩, fun _ => rfl⟩

/-- C25, at the reading with the value type `Binary` and at the model of the `Simple` variant
with the value type `Int8`: the payload of the first comes back with the two other payloads
empty, and the second comes back as it is. -/
theorem C25_reading_round_trips_witness :
    ((FromReadingModelToDTO (ToReadingModel
        { Id := "id", Origin := 7, DeviceName := "device", ResourceName := "resource",
          ProfileName := "profile", ValueType := "Binary",
          BinaryReading := { BinaryValue := some [1, 2], MediaType := "image/png" },
          SimpleReading := { Value := "stale" },
          ObjectReading := { ObjectValue := .string "stale" } })).BinaryReading =
        { BinaryValue := some [1, 2], MediaType := "image/png" } ∧
      (FromReadingModelToDTO (ToReadingModel
        { Id := "id", Origin := 7, DeviceName := "device", ResourceName := "resource",
          ProfileName := "profile", ValueType := "Binary",
          BinaryReading := { BinaryValue := some [1, 2], MediaType := "image/png" },
          SimpleReading := { Value := "stale" },
          ObjectReading := { ObjectValue := .string "stale" } })).ObjectReading =
        { ObjectValue := .nil } ∧
      (FromReadingModelToDTO (ToReadingModel
        { Id := "id", Origin := 7, DeviceName := "device", ResourceName := "resource",
          ProfileName := "profile", ValueType := "Binary",
          BinaryReading := { BinaryValue := some [1, 2], MediaType := "image/png" },
          SimpleReading := { Value := "stale" },
          ObjectReading := { ObjectValue := .string "stale" } })).SimpleReading =
        { Value := "" }) ∧
    ToReadingModel (FromReadingModelToDTO
        (.SimpleReading
          { Id := "id", Origin := 7, DeviceName := "device", ResourceName := "resource",
            ProfileName := "profile", ValueType := "Int8" } "5")) =
      .SimpleReading
        { Id := "id", Origin := 7, DeviceName := "device", ResourceName := "resource",
          ProfileName := "profile", ValueType := "Int8" } "5" :=
  ⟨(C25_reading_round_trips.1
      { Id := "id", Origin := 7, DeviceName := "device", ResourceName := "resource",
        ProfileName := "profile", ValueType := "Binary",
        BinaryReading := { BinaryValue := some [1, 2], MediaType := "image/png" },
        SimpleReading := { Value := "stale" },
        ObjectReading := { ObjectValue := .string "stale" } }).2.2.2.2.2.2.1 rfl,
    (C25_reading_round_trips.2.2.2
      { Id := "id", Origin := 7, DeviceName := "device", ResourceName := "resource",
        ProfileName := "profile", ValueType := "Int8" } "5").mpr ⟨by decide, by decide⟩⟩

end dtos

/-! ## Validation of a reading -/

namespace common

/-- For a record handed over by value `Validate` returns `nil` exactly when the validator
reports nothing. -/
theorem Validate_struct_eq_none_iff
    (look : Record → String → Option reflect.StructType) (t : reflect.StructType)
    (errs : List validator.FieldError) :
    Validate look (.struct t) errs = .ok none ↔ errs = [] := by
  constructor
  · intro h
    by_contra hne
    obtain ⟨msgs, -, hv⟩ := validateMessages_struct look t errs []
    simp only [Validate, hne, if_false, hv, List.nil_append] at h
    cases h
  · intro h
    simp [Validate, h]

/-- For a record handed over by value `Validate` returns, and what it returns when the
validator reports a violation is an error of kind `ContractInvalid`. -/
theorem Validate_struct_ok
    (look : Record → String → Option reflect.StructType) (t : reflect.StructType)
    (errs : List validator.FieldError) :
    ∃ r : Option errors.CommonEdgeX, Validate look (.struct t) errs = .ok r ∧
      ∀ err, r = some err → err.kind = errors.KindContractInvalid := by
  by_cases hne : errs = []
  · refine ⟨none, by simp [Validate, hne], ?_⟩
    intro err h
    cases h
  · obtain ⟨msgs, -, hv⟩ := validateMessages_struct look t errs []
    refine ⟨_, by simp only [Validate, hne, if_false, hv, List.nil_append]; rfl, ?_⟩
    intro err h
    cases h
    rfl

end common

namespace validator

open reflect

/-- The value `extractTypeInternal` reaches is the target of the object. -/
theorem extractTypeInternal_eq_target : ∀ o : Object, extractTypeInternal o = o.target
  | .ptr t => by
    rw [extractTypeInternal, Object.target]
    exact extractTypeInternal_eq_target t
  | .nil => by simp [extractTypeInternal, Object.target]
  | .bool _ => by simp [extractTypeInternal, Object.target]
  | .number _ => by simp [extractTypeInternal, Object.target]
  | .string _ => by simp [extractTypeInternal, Object.target]
  | .nilSlice => by simp [extractTypeInternal, Object.target]
  | .slice _ => by simp [extractTypeInternal, Object.target]
  | .nilMap => by simp [extractTypeInternal, Object.target]
  | .map _ => by simp [extractTypeInternal, Object.target]
  | .nilPtr => by simp [extractTypeInternal, Object.target]
  | .struct _ _ => by simp [extractTypeInternal, Object.target]

/-- The validator reports nothing for a `BinaryReading` exactly when it has bytes and a media
type. -/
theorem StructBinaryReading_eq_nil_iff (a : dtos.BinaryReading) :
    StructBinaryReading a = [] ↔ 0 < a.BinaryValue.len ∧ a.MediaType ≠ "" := by
  obtain ⟨bv, mt⟩ := a
  cases bv with
  | none => simp [StructBinaryReading, isGtBytes, Bytes.len]
  | some bs =>
    by_cases hl : 0 < bs.length <;> by_cases hm : mt = "" <;>
      simp [StructBinaryReading, isGtBytes, hasValueBytes, hasValueString, Bytes.len, hl, hm]

/-- The validator reports nothing for a `SimpleReading` exactly when its value is not
empty. -/
theorem StructSimpleReading_eq_nil_iff (a : dtos.SimpleReading) :
    StructSimpleReading a = [] ↔ a.Value ≠ "" := by
  by_cases hv : a.Value = "" <;> simp [StructSimpleReading, hasValueString, hv]

/-- The validator reports nothing for an `ObjectReading` exactly when the value its object
leads to is not nil and carries no violation of rules of its own. -/
theorem StructObjectReading_eq_nil_iff (a : dtos.ObjectReading) :
    StructObjectReading a = [] ↔
      a.ObjectValue.target.IsNil = false ∧ a.ObjectValue.target.violations = [] := by
  unfold StructObjectReading
  rw [extractTypeInternal_eq_target]
  cases a.ObjectValue.target <;> simp [hasValueObject, Object.IsNil, Object.violations]

end validator

namespace dtos

open reflect

/-- The method `Validate` of a reading is `common.Validate` on the embedded struct its value
type selects. -/
theorem BaseReading.Validate_eq
    (look : common.Record → String → Option reflect.StructType) (b : BaseReading) :
    b.Validate look =
      if b.ValueType = common.ValueTypeBinary then
        common.Validate look (.struct BinaryReadingType)
          (validator.StructBinaryReading b.BinaryReading)
      else if b.ValueType = common.ValueTypeObject then
        common.Validate look (.struct ObjectReadingType)
          (validator.StructObjectReading b.ObjectReading)
      else
        common.Validate look (.struct SimpleReadingType)
          (validator.StructSimpleReading b.SimpleReading) := by
  have hid : ∀ x : Except String (Option errors.CommonEdgeX),
      (match x with
        | .error p => .error p
        | .ok (some err) => .ok (some err)
        | .ok none => .ok none) = x := by
    intro x
    rcases x with p | _ | err <;> rfl
  unfold BaseReading.Validate
  split_ifs <;> exact hid _

end dtos

namespace dtos

open reflect

/-- C23, as stated, fails: under the value type `Object` a reading whose object is not the nil
interface is still rejected when the object is a nil pointer, and when it is a pointer to a
struct that violates a rule of its own. -/
theorem C23_object_not_nil_yet_rejected :
    (Object.nilPtr ≠ Object.nil ∧
      BaseReading.Validate (fun _ _ => none)
          { Id := "id", Origin := 7, DeviceName := "device", ResourceName := "resource",
            ProfileName := "profile", ValueType := "Object",
            BinaryReading := { BinaryValue := none, MediaType := "" },
            SimpleReading := { Value := "" },
            ObjectReading := { ObjectValue := .nilPtr } } =
        .ok (some ⟨"ContractInvalid", "对象数值为必填项", none⟩)) ∧
    (Object.ptr
          (Object.struct "Inner" [⟨"ObjectReading.ObjectValue.Name", "Name", "required", ""⟩]) ≠
        Object.nil ∧
      BaseReading.Validate (fun _ _ => none)
          { Id := "id", Origin := 7, DeviceName := "device", ResourceName := "resource",
            ProfileName := "profile", ValueType := "Object",
            BinaryReading := { BinaryValue := none, MediaType := "" },
            SimpleReading := { Value := "" },
            ObjectReading :=
              { ObjectValue :=
                  Object.ptr (Object.struct "Inner"
                    [⟨"ObjectReading.ObjectValue.Name", "Name", "required", ""⟩]) } } =
        .ok (some ⟨"ContractInvalid", "ObjectReading.ObjectValue.Name为必填项", none⟩)) := by
  refine ⟨⟨?_, by decide⟩, ⟨?_, by decide⟩⟩ <;> intro h <;> cases h

/-- C23. `BaseReading.Validate` checks only the payload its value type selects: for every
reading `b` it returns `nil` if and only if either the value type is `Binary` and
`BinaryValue` and `MediaType` are not empty, or the value type is `Object` and the value that
`ObjectValue` leads to through its pointers is not nil (not the nil interface, nor a nil
pointer, slice or map) and, when it is a struct, violates no rule of its own, or the value
type is anything else and `Value` is not empty. It always returns, an error of kind
`ContractInvalid` when not `nil`, and the result is the same for two readings with the same
value type and the same selected payload, whatever their `Id`, `Origin`, `DeviceName`,
`ResourceName`, `ProfileName` and their two other payloads. -/
theorem C23_validate_checks_selected_payload
    (look : common.Record → String → Option reflect.StructType) (b : BaseReading) :
    (b.Validate look = .ok none ↔
      (b.ValueType = common.ValueTypeBinary ∧ 0 < b.BinaryReading.BinaryValue.len ∧
        b.BinaryReading.MediaType ≠ "") ∨
      (b.ValueType = common.ValueTypeObject ∧
        b.ObjectReading.ObjectValue.target.IsNil = false ∧
        b.ObjectReading.ObjectValue.target.violations = []) ∨
      (b.ValueType ≠ common.ValueTypeBinary ∧ b.ValueType ≠ common.ValueTypeObject ∧
        b.SimpleReading.Value ≠ "")) ∧
    (∃ r : Option errors.CommonEdgeX, b.Validate look = .ok r ∧
      ∀ err, r = some err → err.kind = errors.KindContractInvalid) ∧
    (∀ b' : BaseReading, b'.ValueType = b.ValueType →
      (b.ValueType = common.ValueTypeBinary → b'.BinaryReading = b.BinaryReading) →
      (b.ValueType = common.ValueTypeObject → b'.ObjectReading = b.ObjectReading) →
      (b.ValueType ≠ common.ValueTypeBinary → b.ValueType ≠ common.ValueTypeObject →
        b'.SimpleReading = b.SimpleReading) →
      b'.Validate look = b.Validate look) := by
  have hbo : common.ValueTypeBinary ≠ common.ValueTypeObject := by decide
  refine ⟨?_, ?_, ?_⟩
  · rw [BaseReading.Validate_eq]
    by_cases hb : b.ValueType = common.ValueTypeBinary
    · rw [if_pos hb, common.Validate_struct_eq_none_iff,
        validator.StructBinaryReading_eq_nil_iff]
      constructor
      · intro h
        exact Or.inl ⟨hb, h⟩
      · rintro (⟨-, h⟩ | ⟨ho, -⟩ | ⟨hnb, -⟩)
        · exact h
        · exact absurd (hb.symm.trans ho) hbo
        · exact absurd hb hnb
    · by_cases ho : b.ValueType = common.ValueTypeObject
      · rw [if_neg hb, if_pos ho, common.Validate_struct_eq_none_iff,
          validator.StructObjectReading_eq_nil_iff]
        constructor
        · intro h
          exact Or.inr (Or.inl ⟨ho, h⟩)
        · rintro (⟨hb', -⟩ | ⟨-, h⟩ | ⟨-, hno, -⟩)
          · exact absurd hb' hb
          · exact h
          · exact absurd ho hno
      · rw [if_neg hb, if_neg ho, common.Validate_struct_eq_none_iff,
          validator.StructSimpleReading_eq_nil_iff]
        constructor
        · intro h
          exact Or.inr (Or.inr ⟨hb, ho, h⟩)
        · rintro (⟨hb', -⟩ | ⟨ho', -⟩ | ⟨-, -, h⟩)
          · exact absurd hb' hb
          · exact absurd ho' ho
          · exact h
  · rw [BaseReading.Validate_eq]
    split_ifs <;> exact common.Validate_struct_ok look _ _
  · intro b' hvt hB hO hS
    rw [BaseReading.Validate_eq, BaseReading.Validate_eq, hvt]
    by_cases hb : b.ValueType = common.ValueTypeBinary
    · rw [if_pos hb, if_pos hb, hB hb]
    · by_cases ho : b.ValueType = common.ValueTypeObject
      · rw [if_neg hb, if_neg hb, if_pos ho, if_pos ho, hO ho]
      · rw [if_neg hb, if_neg hb, if_neg ho, if_neg ho, hS hb ho]

/-- C23, at a reading of the value type `Int8` with the value "5" and at one of the value type
`Object` with a map: both are accepted, and a reading that differs from the first in its
`Id` and in its binary payload is accepted with it. -/
theorem C23_validate_checks_selected_payload_witness :
    BaseReading.Validate (fun _ _ => none)
        { Id := "id", Origin := 7, DeviceName := "device", ResourceName := "resource",
          ProfileName := "profile", ValueType := "Int8",
          BinaryReading := { BinaryValue := none, MediaType := "" },
          SimpleReading := { Value := "5" },
          ObjectReading := { ObjectValue := .nil } } = .ok none ∧
    BaseReading.Validate (fun _ _ => none)
        { Id := "id", Origin := 7, DeviceName := "device", ResourceName := "resource",
          ProfileName := "profile", ValueType := "Object",
          BinaryReading := { BinaryValue := none, MediaType := "" },
          SimpleReading := { Value := "" },
          ObjectReading := { ObjectValue := Object.map [("on", Object.bool true)] } } = .ok none ∧
    BaseReading.Validate (fun _ _ => none)
        { Id := "other", Origin := 7, DeviceName := "device", ResourceName := "resource",
          ProfileName := "profile", ValueType := "Int8",
          BinaryReading := { BinaryValue := some [1], MediaType := "image/png" },
          SimpleReading := { Value := "5" },
          ObjectReading := { ObjectValue := .nil } } =
      BaseReading.Validate (fun _ _ => none)
        { Id := "id", Origin := 7, DeviceName := "device", ResourceName := "resource",
          ProfileName := "profile", ValueType := "Int8",
          BinaryReading := { BinaryValue := none, MediaType := "" },
          SimpleReading := { Value := "5" },
          ObjectReading := { ObjectValue := .nil } } :=
  ⟨(C23_validate_checks_selected_payload (fun _ _ => none) _).1.mpr
      (Or.inr (Or.inr ⟨by decide, by decide, by decide⟩)),
    (C23_validate_checks_selected_payload (fun _ _ => none) _).1.mpr
      (Or.inr (Or.inl ⟨rfl, rfl, rfl⟩)),
    (C23_validate_checks_selected_payload (fun _ _ => none) _).2.2 _ rfl
      (fun h => absurd h (by decide)) (fun h => absurd h (by decide)) (fun _ _ => rfl)⟩

end dtos

/-! ## The encodings that are empty -/

namespace strconv

/-- The decimal digits of a number are not empty. -/
theorem digitsAux_ne_nil (fuel n : Nat) (acc : List Char) (h : 0 < fuel ∨ acc ≠ []) :
    digitsAux fuel n acc ≠ [] := by
  induction fuel generalizing n acc with
  | zero =>
    rcases h with h | h
    · omega
    · simpa [digitsAux] using h
  | succ fuel ih =>
    unfold digitsAux
    split
    · simp
    · exact ih _ _ (Or.inr (by simp))

/-- The base-10 text of an integer is not empty. -/
theorem FormatInt_ne_empty (v : Int) : FormatInt v ≠ "" := by
  intro h
  have hd := congrArg String.data h
  unfold FormatInt at hd
  split at hd
  · exact List.cons_ne_nil _ _ hd
  · exact digitsAux_ne_nil _ _ _ (Or.inl (Nat.succ_pos _)) hd

/-- The `%e` layout is not empty. -/
theorem fmtE_ne_nil (neg : Bool) (ds : List Char) (dp : Int) (prec : Nat) :
    fmtE neg ds dp prec ≠ [] := by
  unfold fmtE
  simp

/-- The `%f` layout is not empty. -/
theorem fmtF_ne_nil (neg : Bool) (ds : List Char) (dp : Int) (prec : Nat) :
    fmtF neg ds dp prec ≠ [] := by
  have hw : (if 0 < dp then ds.take dp.toNat ++ List.replicate (dp.toNat - ds.length) '0'
      else ['0']) ≠ [] := by
    split
    · intro h
      have hl := congrArg List.length h
      simp only [List.length_append, List.length_take, List.length_replicate,
        List.length_nil] at hl
      omega
    · simp
  unfold fmtF
  intro h
  rcases List.append_eq_nil.mp h with ⟨h1, -⟩
  rcases List.append_eq_nil.mp h1 with ⟨-, h2⟩
  exact hw h2

/-- The shortest text of a float is not empty. -/
theorem FormatFloat_ne_nil (x : reflect.GoFloat) (t : reflect.FloatType) :
    FormatFloat x t ≠ [] := by
  unfold FormatFloat
  cases x with
  | nan => simp
  | inf neg => simp
  | finite neg m e =>
    simp only
    repeat' split
    all_goals first
      | exact fmtE_ne_nil _ _ _ _
      | exact fmtF_ne_nil _ _ _ _

end strconv

namespace strings

/-- Replacing the spaces of a text by ", " gives the empty text only for the empty text. -/
theorem ReplaceAll_space_eq_empty (s : String) (h : ReplaceAll s " " ", " = "") : s = "" := by
  have hd := congrArg String.data h
  have hold : (" " : String).data ≠ [] := by decide
  simp only [ReplaceAll, hold, if_false] at hd
  apply String.ext
  cases hs : s.data with
  | nil => rfl
  | cons c cs =>
    rw [hs] at hd
    unfold replaceFrom at hd
    split at hd
    · exact absurd hd (by simp)
    · exact absurd hd (List.cons_ne_nil _ _)

end strings

namespace fmt

open reflect

/-- The text of a float is not empty. -/
theorem fmtFloat_ne_empty (x : GoFloat) (t : FloatType) : fmtFloat x t ≠ "" := by
  intro h
  exact strconv.FormatFloat_ne_nil x t (congrArg String.data h)

/-- A text between brackets is not empty. -/
theorem bracketed_ne_empty (s : String) : "[" ++ s ++ "]" ≠ "" := by
  intro h
  have hl := congrArg String.length h
  simp only [String.length_append] at hl
  have h1 : ("]" : String).length = 1 := rfl
  have h0 : ("" : String).length = 0 := rfl
  omega

/-- The `%v` text of a value is empty only for the empty string. -/
theorem printV_eq_empty (v : Value) (h : printV v = "") : v = .string "" := by
  cases v with
  | nil => exact absurd h (by rw [printV]; decide)
  | bool b => cases b <;> exact absurd h (by rw [printV]; decide)
  | string s =>
    rw [printV] at h
    rw [h]
  | integer t x =>
    rw [printV] at h
    exact absurd h (strconv.FormatInt_ne_empty x)
  | float t x =>
    rw [printV] at h
    exact absurd h (fmtFloat_ne_empty x t)
  | slice e xs =>
    rw [printV] at h
    exact absurd h (bracketed_ne_empty _)

/-- The `%g` text of a value is not empty. -/
theorem printG_ne_empty (arg v : Value) : printG arg v ≠ "" := by
  have hbad : badVerb arg ≠ "" := by
    unfold badVerb
    intro h
    have hl := congrArg String.length h
    split at hl
    · exact absurd hl (by decide)
    · simp only [String.length_append] at hl
      have h1 : ("%!g(" : String).length = 4 := rfl
      have h0 : ("" : String).length = 0 := rfl
      omega
  cases v with
  | float t x =>
    rw [printG]
    exact fmtFloat_ne_empty x t
  | slice e xs =>
    rw [printG]
    exact bracketed_ne_empty _
  | nil => simpa [printG] using hbad
  | bool b => simpa [printG] using hbad
  | string s => simpa [printG] using hbad
  | integer t x => simpa [printG] using hbad

end fmt

namespace dtos

open reflect

/-- A successful `convertSimpleValue` returns the empty text only for the empty string. -/
theorem convertSimpleValue_eq_empty (valueType : String) (kind : Kind) (value : Value)
    (h : convertSimpleValue valueType kind value = .ok ("", none)) : value = .string "" := by
  unfold convertSimpleValue at h
  split at h
  · cases h
  · cases h
  · simp only [Except.ok.injEq, Prod.mk.injEq, and_true, fmt.Sprintf] at h
    exact fmt.printV_eq_empty value h

/-- A successful `convertFloatValue` does not return the empty text. -/
theorem convertFloatValue_ne_empty (valueType : String) (kind : Kind) (value : Value) :
    convertFloatValue valueType kind value ≠ .ok ("", none) := by
  intro h
  unfold convertFloatValue at h
  split at h
  · cases h
  · cases h
  · simp only [Except.ok.injEq, Prod.mk.injEq, and_true, fmt.Sprintf] at h
    exact fmt.printG_ne_empty value value h

/-- A successful `convertSimpleArrayValue` returns the empty text only for the empty
string. -/
theorem convertSimpleArrayValue_eq_empty (valueType : String) (kind : Kind) (value : Value)
    (h : convertSimpleArrayValue valueType kind value = .ok ("", none)) :
    value = .string "" := by
  unfold convertSimpleArrayValue at h
  split at h
  · cases h
  · cases h
  · simp only [Except.ok.injEq, Prod.mk.injEq, and_true, fmt.Sprintf] at h
    exact fmt.printV_eq_empty value (strings.ReplaceAll_space_eq_empty _ h)

/-- A successful loop over a float array does not return the empty text. -/
theorem convertFloatArrayLoop_ne_empty (valueType : String) (kind : Kind)
    (values : List Value) :
    ∀ (result : String) (first : Bool),
      convertFloatArrayLoop valueType kind values result first ≠ .ok ("", none) := by
  induction values with
  | nil =>
    intro result first h
    simp only [convertFloatArrayLoop, Except.ok.injEq, Prod.mk.injEq, and_true] at h
    have hl := congrArg String.length h
    simp only [String.length_append] at hl
    have h1 : ("]" : String).length = 1 := rfl
    have h0 : ("" : String).length = 0 := rfl
    omega
  | cons value rest ih =>
    intro result first h
    unfold convertFloatArrayLoop at h
    split at h
    · split at h
      · cases h
      · cases h
      · exact ih _ _ h
    · split at h
      · cases h
      · cases h
      · exact ih _ _ h

/-- The `switch` of `convertInterfaceValue`: what holds of each of its cases holds of its
result. -/
theorem convertInterfaceValue_cases (P : Result → Prop) (valueType : String) (value : Value)
    (hs : ∀ kind, P (convertSimpleValue valueType kind value))
    (hf : ∀ kind, kind = Kind.Float32 ∨ kind = Kind.Float64 →
      P (convertFloatValue valueType kind value))
    (ha : ∀ kind, P (convertSimpleArrayValue valueType kind value))
    (h32 : P (match assertFloatSlice .float32 value with
      | none => .ok ("", some ("转换数据 " ++ valueType ++ " 为 []float32 失败"))
      | some arrayValue => convertFloat32ArrayValue arrayValue))
    (h64 : P (match assertFloatSlice .float64 value with
      | none => .ok ("", some ("转换数据 " ++ valueType ++ " 为 []float64 失败"))
      | some arrayValue => convertFloat64ArrayValue arrayValue))
    (hd : P (.ok ("", some ("数据类型 " ++ valueType ++ " 不合法")))) :
    P (convertInterfaceValue valueType value) := by
  unfold convertInterfaceValue
  by_cases h1 : valueType = common.ValueTypeBool
  · rw [if_pos h1]
    exact hs _
  rw [if_neg h1]
  by_cases h2 : valueType = common.ValueTypeString
  · rw [if_pos h2]
    exact hs _
  rw [if_neg h2]
  by_cases h3 : valueType = common.ValueTypeUint8
  · rw [if_pos h3]
    exact hs _
  rw [if_neg h3]
  by_cases h4 : valueType = common.ValueTypeUint16
  · rw [if_pos h4]
    exact hs _
  rw [if_neg h4]
  by_cases h5 : valueType = common.ValueTypeUint32
  · rw [if_pos h5]
    exact hs _
  rw [if_neg h5]
  by_cases h6 : valueType = common.ValueTypeUint64
  · rw [if_pos h6]
    exact hs _
  rw [if_neg h6]
  by_cases h7 : valueType = common.ValueTypeInt8
  · rw [if_pos h7]
    exact hs _
  rw [if_neg h7]
  by_cases h8 : valueType = common.ValueTypeInt16
  · rw [if_pos h8]
    exact hs _
  rw [if_neg h8]
  by_cases h9 : valueType = common.ValueTypeInt32
  · rw [if_pos h9]
    exact hs _
  rw [if_neg h9]
  by_cases h10 : valueType = common.ValueTypeInt64
  · rw [if_pos h10]
    exact hs _
  rw [if_neg h10]
  by_cases h11 : valueType = common.ValueTypeFloat32
  · rw [if_pos h11]
    exact hf _ (Or.inl rfl)
  rw [if_neg h11]
  by_cases h12 : valueType = common.ValueTypeFloat64
  · rw [if_pos h12]
    exact hf _ (Or.inr rfl)
  rw [if_neg h12]
  by_cases h13 : valueType = common.ValueTypeBoolArray
  · rw [if_pos h13]
    exact ha _
  rw [if_neg h13]
  by_cases h14 : valueType = common.ValueTypeStringArray
  · rw [if_pos h14]
    exact ha _
  rw [if_neg h14]
  by_cases h15 : valueType = common.ValueTypeUint8Array
  · rw [if_pos h15]
    exact ha _
  rw [if_neg h15]
  by_cases h16 : valueType = common.ValueTypeUint16Array
  · rw [if_pos h16]
    exact ha _
  rw [if_neg h16]
  by_cases h17 : valueType = common.ValueTypeUint32Array
  · rw [if_pos h17]
    exact ha _
  rw [if_neg h17]
  by_cases h18 : valueType = common.ValueTypeUint64Array
  · rw [if_pos h18]
    exact ha _
  rw [if_neg h18]
  by_cases h19 : valueType = common.ValueTypeInt8Array
  · rw [if_pos h19]
    exact ha _
  rw [if_neg h19]
  by_cases h20 : valueType = common.ValueTypeInt16Array
  · rw [if_pos h20]
    exact ha _
  rw [if_neg h20]
  by_cases h21 : valueType = common.ValueTypeInt32Array
  · rw [if_pos h21]
    exact ha _
  rw [if_neg h21]
  by_cases h22 : valueType = common.ValueTypeInt64Array
  · rw [if_pos h22]
    exact ha _
  rw [if_neg h22]
  by_cases h23 : valueType = common.ValueTypeFloat32Array
  · rw [if_pos h23]
    exact h32
  rw [if_neg h23]
  by_cases h24 : valueType = common.ValueTypeFloat64Array
  · rw [if_pos h24]
    exact h64
  rw [if_neg h24]
  exact hd

/-- A successful `convertInterfaceValue` returns the empty text only for the empty string. -/
theorem convertInterfaceValue_eq_empty (valueType : String) (value : Value)
    (h : convertInterfaceValue valueType value = .ok ("", none)) : value = .string "" := by
  revert h
  apply convertInterfaceValue_cases
    (fun r => r = .ok ("", none) → value = .string "") valueType value
  · intro kind h
    exact convertSimpleValue_eq_empty _ _ _ h
  · intro kind _ h
    exact absurd h (convertFloatValue_ne_empty _ _ _)
  · intro kind h
    exact convertSimpleArrayValue_eq_empty _ _ _ h
  · intro h
    split at h
    · cases h
    · exact absurd h (convertFloatArrayLoop_ne_empty _ _ _ _ _)
  · intro h
    split at h
    · cases h
    · exact absurd h (convertFloatArrayLoop_ne_empty _ _ _ _ _)
  · intro h
    cases h

/-- The empty string is encoded, when it is, as the empty text. -/
theorem convertInterfaceValue_empty_string (valueType s : String)
    (h : convertInterfaceValue valueType (.string "") = .ok (s, none)) : s = "" := by
  revert h
  apply convertInterfaceValue_cases
    (fun r => r = .ok (s, none) → s = "") valueType (.string "")
  · intro kind h
    unfold convertSimpleValue at h
    split at h
    · cases h
    · cases h
    · simp only [Except.ok.injEq, Prod.mk.injEq, and_true, fmt.Sprintf, fmt.printV] at h
      exact h.symm
  · intro kind hk h
    rcases hk with hk | hk <;> subst hk <;>
      simp [convertFloatValue, validateType, TypeOf, GoType.Kind] at h
  · intro kind h
    unfold convertSimpleArrayValue at h
    split at h
    · cases h
    · cases h
    · simp only [Except.ok.injEq, Prod.mk.injEq, and_true, fmt.Sprintf, fmt.printV] at h
      rw [← h]
      rfl
  · intro h
    simp [assertFloatSlice] at h
  · intro h
    simp [assertFloatSlice] at h
  · intro h
    cases h

/-- The names `Binary` and `Object` are not encoded. -/
theorem convertInterfaceValue_binary_object (valueType s : String) (value : Value)
    (h : convertInterfaceValue valueType value = .ok (s, none)) :
    valueType ≠ common.ValueTypeBinary ∧ valueType ≠ common.ValueTypeObject := by
  constructor
  · intro hv
    subst hv
    have : convertInterfaceValue common.ValueTypeBinary value =
        .ok ("", some "数据类型 Binary 不合法") := rfl
    rw [this] at h
    cases h
  · intro hv
    subst hv
    have : convertInterfaceValue common.ValueTypeObject value =
        .ok ("", some "数据类型 Object 不合法") := rfl
    rw [this] at h
    cases h

end dtos

/-! ## Validation of the readings the constructors build -/

namespace dtos

open reflect

/-- A reading that `NewSimpleReading` returns without error has the text of the codec as its
value and a value type that is neither `Binary` nor `Object`. -/
theorem NewSimpleReading_ok (id : String) (origin : Int)
    (profileName deviceName resourceName valueType : String) (value : Value)
    (r : BaseReading)
    (h : NewSimpleReading id origin profileName deviceName resourceName valueType value =
      .ok (r, none)) :
    convertInterfaceValue valueType value = .ok (r.SimpleReading.Value, none) ∧
    r.ValueType = valueType := by
  unfold NewSimpleReading at h
  rcases hc : convertInterfaceValue valueType value with p | ⟨s, _ | e⟩
  · rw [hc] at h
    cases h
  · rw [hc] at h
    simp only [Except.ok.injEq, Prod.mk.injEq, and_true] at h
    subst h
    exact ⟨rfl, rfl⟩
  · rw [hc] at h
    cases h

/-- C24. Constructed readings and validation: for every reading `r` that `NewSimpleReading`
returns without error, `r.Validate()` returns `nil` if and only if the encoded `Value` is not
the empty text, and the encoded `Value` is the empty text if and only if the value handed
over is the empty string; and for every byte sequence `bs` and media type `m`, the reading of
`NewBinaryReading` validates to `nil` if and only if `bs` and `m` are both not empty. -/
theorem C24_constructed_readings_validate
    (look : common.Record → String → Option reflect.StructType) :
    (∀ (id : String) (origin : Int) (profileName deviceName resourceName valueType : String)
        (value : Value) (r : BaseReading),
      NewSimpleReading id origin profileName deviceName resourceName valueType value =
          .ok (r, none) →
        (r.Validate look = .ok none ↔ r.SimpleReading.Value ≠ "") ∧
        (r.SimpleReading.Value = "" ↔ value = .string "")) ∧
    (∀ (id : String) (origin : Int) (profileName deviceName resourceName : String)
        (bs : Bytes) (m : String),
      (NewBinaryReading id origin profileName deviceName resourceName bs m).Validate look =
          .ok none ↔
        0 < bs.len ∧ m ≠ "") := by
  refine ⟨?_, ?_⟩
  · intro id origin profileName deviceName resourceName valueType value r h
    obtain ⟨hc, hvt⟩ := NewSimpleReading_ok id origin profileName deviceName resourceName
      valueType value r h
    obtain ⟨hnb, hno⟩ := convertInterfaceValue_binary_object valueType _ value hc
    rw [← hvt] at hnb hno
    refine ⟨?_, ?_⟩
    · rw [BaseReading.Validate_eq, if_neg hnb, if_neg hno,
        common.Validate_struct_eq_none_iff, validator.StructSimpleReading_eq_nil_iff]
    · constructor
      · intro he
        rw [he] at hc
        exact convertInterfaceValue_eq_empty valueType value hc
      · intro hv
        rw [hv] at hc
        exact convertInterfaceValue_empty_string valueType _ hc
  · intro id origin profileName deviceName resourceName bs m
    rw [BaseReading.Validate_eq]
    have hb : (NewBinaryReading id origin profileName deviceName resourceName bs m).ValueType =
        common.ValueTypeBinary := rfl
    rw [if_pos hb, common.Validate_struct_eq_none_iff,
      validator.StructBinaryReading_eq_nil_iff]
    exact Iff.rfl

/-- C24, at the reading built from the `int32` value 5 under `Int32` and at the binary reading
with two bytes and a media type: both validate to `nil`. -/
theorem C24_constructed_readings_validate_witness :
    NewSimpleReading "id" 7 "profile" "device" "resource" "Int32" (.integer .int32 5) =
      .ok ({ Id := "id", Origin := 7, DeviceName := "device", ResourceName := "resource",
             ProfileName := "profile", ValueType := "Int32",
             BinaryReading := { BinaryValue := none, MediaType := "" },
             SimpleReading := { Value := "5" },
             ObjectReading := { ObjectValue := .nil } }, none) ∧
    BaseReading.Validate (fun _ _ => none)
        { Id := "id", Origin := 7, DeviceName := "device", ResourceName := "resource",
          ProfileName := "profile", ValueType := "Int32",
          BinaryReading := { BinaryValue := none, MediaType := "" },
          SimpleReading := { Value := "5" },
          ObjectReading := { ObjectValue := .nil } } = .ok none ∧
    BaseReading.Validate (fun _ _ => none)
        (NewBinaryReading "id" 7 "profile" "device" "resource" (some [1, 2]) "image/png") =
      .ok none :=
  ⟨rfl,
    ((C24_constructed_readings_validate (fun _ _ => none)).1 "id" 7 "profile" "device"
      "resource" "Int32" (.integer .int32 5) _ rfl).1.mpr (by decide),
    ((C24_constructed_readings_validate (fun _ _ => none)).2 "id" 7 "profile" "device"
      "resource" (some [1, 2]) "image/png").mpr ⟨by decide, by decide⟩⟩

end dtos
